import Mathlib

/-!
# vl-gpus: GPU telemetry collector and ingestion server

A shallow embedding of `cmd/collector/main.go` and `cmd/server/main.go`.

Go values are represented as follows.

* `string` is `List Char`.  The functions used by the program either work on
  Unicode code points (`strings.TrimSpace`) or compare against ASCII text, so a
  list of code points behaves like the UTF-8 byte string for valid UTF-8.
* `int` is `Int`; the 64-bit range is enforced where a Go `int` is produced
  (`strconv.Atoi`, `int(float64)`).
* `float64` is `Float64`, finite values being exact dyadic rationals `m * 2^e`.
* `(T, error)` results are `Option T` or `Except`.
* `time.Time` is an instant in UTC, in seconds and nanoseconds from January 1 of year 1.
* JSON is handled as values (`json.Value`); numbers, strings and member keys are kept as
  their literal text.
-/

namespace VlGpus

/-! ## Go standard library: `unicode`, `strings` -/

namespace unicode

/-- Go `unicode.IsSpace`: the Latin-1 spaces `\t \n \v \f \r`, space, U+0085, U+00A0,
and the code points with the Unicode White_Space property. -/
def IsSpace (c : Char) : Bool :=
  let n := c.toNat
  n == 0x09 || n == 0x0A || n == 0x0B || n == 0x0C || n == 0x0D || n == 0x20 ||
  n == 0x85 || n == 0xA0 || n == 0x1680 || (0x2000 ≤ n && n ≤ 0x200A) ||
  n == 0x2028 || n == 0x2029 || n == 0x202F || n == 0x205F || n == 0x3000

end unicode

namespace strings

/-- Go `strings.TrimSpace`: the string without its leading and trailing white space. -/
def TrimSpace (s : List Char) : List Char :=
  ((s.dropWhile unicode.IsSpace).reverse.dropWhile unicode.IsSpace).reverse

/-- Scanning loop of `strings.Split` for a non-empty separator: `skip` counts the
characters of a matched separator still to be passed over, `cur` is the field being
read, in reverse. -/
def splitAux (sep : List Char) : List Char → Nat → List Char → List (List Char)
  | [], _, cur => [cur.reverse]
  | _ :: cs, skip + 1, cur => splitAux sep cs skip cur
  | c :: cs, 0, cur =>
    if sep.isPrefixOf (c :: cs) then cur.reverse :: splitAux sep cs (sep.length - 1) []
    else splitAux sep cs 0 (c :: cur)

/-- Go `strings.Split(s, sep)`: the substrings between the occurrences of `sep`, found
left to right without overlap; an empty `sep` splits after each character. -/
def Split (s sep : List Char) : List (List Char) :=
  if sep = [] then s.map (fun c => [c]) else splitAux sep s 0 []

end strings

/-! ## Go standard library: `strconv` -/

namespace strconv

/-- Size of a Go `int` in bits (64-bit targets). -/
def intSize : Nat := 64

/-- Whether `ch` is an ASCII decimal digit. -/
def isDigit (ch : Char) : Bool := 48 ≤ ch.toNat && ch.toNat ≤ 57

/-- The digit loop of `Atoi`/`ParseUint`: `n = n*10 + (ch - '0')`, a syntax error
(`none`) at the first character that is not a digit. -/
def digitLoop : List Char → Nat → Option Nat
  | [], n => some n
  | ch :: rest, n => if isDigit ch then digitLoop rest (n * 10 + (ch.toNat - 48)) else none

/-- Go `strconv.Atoi`: an optional sign followed by one or more decimal digits, in the
range of `int`; `none` stands for a non-nil error (syntax or range). -/
def Atoi (s : List Char) : Option Int :=
  let signed : Bool × List Char :=
    match s with
    | '-' :: r => (true, r)
    | '+' :: r => (false, r)
    | _ => (false, s)
  if signed.2 = [] then none
  else
    match digitLoop signed.2 0 with
    | none => none
    | some n =>
      let v : Int := if signed.1 then -(n : Int) else (n : Int)
      if -(2 : Int) ^ (intSize - 1) ≤ v ∧ v < (2 : Int) ^ (intSize - 1) then some v else none

/-- Go `float64`: `finite neg m e` is the number `(-1)^neg * m * 2^e`. -/
inductive Float64 where
  | finite (neg : Bool) (m : Nat) (e : Int)
  | inf (neg : Bool)
  | nan
deriving DecidableEq

/-- Go `lower(c)` of package strconv: `c | ('x' - 'X')`. -/
def lower (c : Char) : Nat := c.toNat ||| 0x20

/-- Go `commonPrefixLenIgnoreCase(s, prefix)`, `prefix` being lower-case. -/
def commonPrefixLenIgnoreCase : List Char → List Char → Nat
  | c :: s, p :: ps =>
    let c1 : Nat := if 65 ≤ c.toNat ∧ c.toNat ≤ 90 then c.toNat + 32 else c.toNat
    if c1 ≠ p.toNat then 0 else commonPrefixLenIgnoreCase s ps + 1
  | _, _ => 0

/-- The `'i', 'I'` case of `special`: `inf` or `infinity`, ignoring case. -/
def specialInf (neg : Bool) (nsign : Nat) (s : List Char) : Option (Float64 × Nat) :=
  let n := commonPrefixLenIgnoreCase s "infinity".toList
  let n := if 3 < n ∧ n < 8 then 3 else n
  if n = 3 ∨ n = 8 then some (Float64.inf neg, nsign + n) else none

/-- Go `special(s)`: the value and the number of characters read when `s` starts with a
possibly signed infinity or with NaN. -/
def special (s : List Char) : Option (Float64 × Nat) :=
  match s with
  | [] => none
  | c :: r =>
    if c = '+' ∨ c = '-' then specialInf (c == '-') 1 r
    else if c = 'i' ∨ c = 'I' then specialInf false 0 s
    else if c = 'n' ∨ c = 'N' then
      if commonPrefixLenIgnoreCase s "nan".toList = 3 then some (Float64.nan, 3) else none
    else none

/-- Go `underscoreOK` loop; `saw` is the last character class seen:
`0` digit, `1` underscore, `2` other, `3` beginning. -/
def underscoreLoop (hex : Bool) : List Char → Nat → Bool
  | [], saw => saw ≠ 1
  | c :: cs, saw =>
    if isDigit c || (hex && 97 ≤ lower c && lower c ≤ 102) then underscoreLoop hex cs 0
    else if c = '_' then (if saw ≠ 0 then false else underscoreLoop hex cs 1)
    else if saw = 1 then false
    else underscoreLoop hex cs 2

/-- Go `underscoreOK(s)`: underscores appear only between digits or between a base prefix
and a digit. -/
def underscoreOK (s : List Char) : Bool :=
  let s1 : List Char :=
    match s with
    | '-' :: r => r
    | '+' :: r => r
    | _ => s
  match s1 with
  | '0' :: x :: r =>
    if lower x = 98 ∨ lower x = 111 ∨ lower x = 120 then underscoreLoop (lower x == 120) r 0
    else underscoreLoop false s1 3
  | _ => underscoreLoop false s1 3

/-- State of the mantissa loop of `readFloat`.  `mantissa` is the number written by all the
digits read and `fracDigits` the number of digits after the point (Go's `nd - dp`); Go keeps
the first 19 digits in a `uint64` and re-reads the rest on its slow path. -/
structure MantState where
  sawdot : Bool
  sawdigits : Bool
  underscores : Bool
  mantissa : Nat
  fracDigits : Nat
deriving DecidableEq

/-- The digit loop of `readFloat`: reads digits, underscores and at most one point, and
returns the state together with the unread rest. -/
def mantissaLoop (hex : Bool) : List Char → MantState → MantState × List Char
  | [], st => (st, [])
  | c :: cs, st =>
    if c = '_' then mantissaLoop hex cs { st with underscores := true }
    else if c = '.' then
      (if st.sawdot then (st, c :: cs) else mantissaLoop hex cs { st with sawdot := true })
    else if isDigit c then
      mantissaLoop hex cs
        { st with sawdigits := true
                  mantissa := st.mantissa * (if hex then 16 else 10) + (c.toNat - 48)
                  fracDigits := if st.sawdot then st.fracDigits + 1 else st.fracDigits }
    else if hex && 97 ≤ lower c && lower c ≤ 102 then
      mantissaLoop hex cs
        { st with sawdigits := true
                  mantissa := st.mantissa * 16 + (lower c - 97 + 10)
                  fracDigits := if st.sawdot then st.fracDigits + 1 else st.fracDigits }
    else (st, c :: cs)

/-- The exponent digit loop of `readFloat`: digits and underscores, the exponent no longer
growing once it has reached 10000. -/
def expLoop : List Char → Nat → Bool → Nat × Bool × List Char
  | [], e, u => (e, u, [])
  | c :: cs, e, u =>
    if c = '_' then expLoop cs e true
    else if isDigit c then expLoop cs (if e < 10000 then e * 10 + (c.toNat - 48) else e) u
    else (e, u, c :: cs)

/-- Result of `readFloat`: the value read is `(-1)^neg * mantissa * b^exp` with `b = 2` when
`hex` and `b = 10` otherwise; `rest` is the unread part of the input. -/
structure FloatLit where
  neg : Bool
  hex : Bool
  mantissa : Nat
  exp : Int
  rest : List Char
deriving DecidableEq

/-- End of `readFloat`: the underscore check on the part of `s` that was read. -/
def readFloatEnd (s : List Char) (neg hex : Bool) (mantissa : Nat) (dp : Int)
    (underscores : Bool) (rest : List Char) : Option FloatLit :=
  if underscores && !underscoreOK (s.take (s.length - rest.length)) then none
  else some { neg := neg, hex := hex, mantissa := mantissa, exp := dp, rest := rest }

/-- The exponent part of `readFloat`, from the exponent character `e`/`p` on. -/
def readFloatExp (s : List Char) (neg hex : Bool) (m : MantState) (dp : Int)
    (rest : List Char) : Option FloatLit :=
  match rest with
  | [] => if hex then none else readFloatEnd s neg hex m.mantissa dp m.underscores rest
  | c :: r1 =>
    if lower c = (if hex then 112 else 101) then
      match r1 with
      | [] => none
      | c2 :: r2 =>
        let esign : Int := if c2 = '-' then -1 else 1
        let r3 : List Char := if c2 = '+' ∨ c2 = '-' then r2 else r1
        match r3 with
        | [] => none
        | d :: _ =>
          if isDigit d then
            let res := expLoop r3 0 m.underscores
            readFloatEnd s neg hex m.mantissa (dp + (res.1 : Int) * esign) res.2.1 res.2.2
          else none
    else if hex then none
    else readFloatEnd s neg hex m.mantissa dp m.underscores rest

/-- The optional sign of `readFloat`: whether it is `-`, and the input after it. -/
def floatSign (s : List Char) : Bool × List Char :=
  match s with
  | '+' :: r => (false, r)
  | '-' :: r => (true, r)
  | _ => (false, s)

/-- The base prefix test of `readFloat`: `0x` or `0X` followed by at least one character. -/
def hasHexPrefix (s : List Char) : Bool :=
  match s with
  | '0' :: x :: _ :: _ => lower x == 120
  | _ => false

/-- Go `readFloat(s)`: sign, optional `0x` prefix, mantissa, optional exponent (mandatory
for hexadecimal); `none` when `ok` is false. -/
def readFloat (s : List Char) : Option FloatLit :=
  if s = [] then none
  else
    let neg : Bool := (floatSign s).1
    let s1 : List Char := (floatSign s).2
    let hex : Bool := hasHexPrefix s1
    let s2 : List Char := if hex then s1.drop 2 else s1
    let ml := mantissaLoop hex s2
      { sawdot := false, sawdigits := false, underscores := false, mantissa := 0, fracDigits := 0 }
    if !ml.1.sawdigits then none
    else
      let dp : Int := if hex then -(4 * (ml.1.fracDigits : Int)) else -(ml.1.fracDigits : Int)
      readFloatExp s neg hex ml.1 dp ml.2

/-- Integer binary logarithm with explicit fuel. -/
def log2Aux : Nat → Nat → Nat
  | 0, _ => 0
  | fuel + 1, n => if n < 2 then 0 else log2Aux fuel (n / 2) + 1

/-- The largest `k` with `2^k ≤ n` (and `0` for `n = 0`). -/
def ilog2 (n : Nat) : Nat := log2Aux n n

/-- The integer part of the binary logarithm of `n / d`, for positive `n` and `d`. -/
def floorLog2Ratio (n d : Nat) : Int :=
  let k := ilog2 n
  let j := ilog2 d
  if j ≤ k then (if d * 2 ^ (k - j) ≤ n then ((k - j : Nat) : Int) else ((k - j : Nat) : Int) - 1)
  else (if d ≤ n * 2 ^ (j - k) then -((j - k : Nat) : Int) else -((j - k : Nat) : Int) - 1)

/-- The integer nearest to `n / d`, ties going to the even one. -/
def divRoundEven (n d : Nat) : Nat :=
  let q := n / d
  let r := n % d
  if 2 * r < d then q
  else if d < 2 * r then q + 1
  else if q % 2 = 0 then q else q + 1

/-- IEEE 754 binary64 round-to-nearest-even of `(-1)^neg * n / d`: 53 significant bits,
least exponent `-1074`; `none` when the result overflows the finite range (Go then
returns an infinity together with `ErrRange`). -/
def roundFloat64 (neg : Bool) (n d : Nat) : Option Float64 :=
  if n = 0 then some (Float64.finite neg 0 0)
  else
    let e : Int := max (floorLog2Ratio n d - 52) (-1074)
    let m : Nat :=
      if 0 ≤ e then divRoundEven n (d * 2 ^ e.toNat) else divRoundEven (n * 2 ^ (-e).toNat) d
    if 971 < e ∨ (e = 971 ∧ 2 ^ 53 ≤ m) then none else some (Float64.finite neg m e)

/-- Go `strconv.ParseFloat(s, 64)`: the float64 nearest to the decimal or hexadecimal
floating-point literal `s`, or an infinity or NaN written out; `none` stands for a non-nil
error (syntax, unread input, or range). -/
def ParseFloat (s : List Char) : Option Float64 :=
  match special s with
  | some (v, n) => if n = s.length then some v else none
  | none =>
    match readFloat s with
    | none => none
    | some lit =>
      if lit.rest ≠ [] then none
      else if lit.hex then
        (if 0 ≤ lit.exp then roundFloat64 lit.neg (lit.mantissa * 2 ^ lit.exp.toNat) 1
         else roundFloat64 lit.neg lit.mantissa (2 ^ (-lit.exp).toNat))
      else
        (if 0 ≤ lit.exp then roundFloat64 lit.neg (lit.mantissa * 10 ^ lit.exp.toNat) 1
         else roundFloat64 lit.neg lit.mantissa (10 ^ (-lit.exp).toNat))

/-- Go conversion `int(f)` of a `float64`: the fraction is discarded; outside the range of
`int` (and for infinities and NaN) the result is implementation-defined, here the value
`-2^63` produced on amd64. -/
def intOfFloat64 (f : Float64) : Int :=
  match f with
  | Float64.finite neg m e =>
    let t : Nat := if 0 ≤ e then m * 2 ^ e.toNat else m / 2 ^ (-e).toNat
    let v : Int := if neg then -(t : Int) else (t : Int)
    if -(2 : Int) ^ (intSize - 1) ≤ v ∧ v < (2 : Int) ^ (intSize - 1) then v
    else -(2 : Int) ^ (intSize - 1)
  | _ => -(2 : Int) ^ (intSize - 1)

/-- The character of a decimal digit. -/
def digitChar (d : Nat) : Char := Char.ofNat (48 + d)

/-- The decimal digits of `n`, most significant first, written in front of `acc`: the digit
loop of Go `formatBits`, with explicit fuel. -/
def formatBitsAux : Nat → Nat → List Char → List Char
  | 0, _, acc => acc
  | fuel + 1, n, acc =>
    if n < 10 then digitChar n :: acc
    else formatBitsAux fuel (n / 10) (digitChar (n % 10) :: acc)

/-- Go `formatBits` in base 10 for an unsigned value: its decimal text. -/
def formatBits (n : Nat) : List Char := formatBitsAux (n + 1) n []

/-- Go `strconv.Itoa` and `strconv.AppendInt(dst, i, 10)`: the decimal text of an `int`. -/
def Itoa (i : Int) : List Char :=
  if i < 0 then '-' :: formatBits i.natAbs else formatBits i.natAbs

end strconv

/-! ## `pkg/types/metrics.go` -/

/-- Go `types.GPUMetric`. -/
structure GPUMetric where
  Index : Int
  UtilizationPercent : Int
  MemoryUsedMB : Int
  MemoryTotalMB : Int
  TemperatureCelsius : Int
  PowerDrawWatts : Int
deriving DecidableEq

/-- The zero value `types.GPUMetric{}`. -/
def GPUMetric.zero : GPUMetric :=
  { Index := 0, UtilizationPercent := 0, MemoryUsedMB := 0, MemoryTotalMB := 0,
    TemperatureCelsius := 0, PowerDrawWatts := 0 }

/-! ## `cmd/collector/main.go` -/

namespace Collector

/-- The field `fields[i]` of a split line (every use is guarded by a length test). -/
def field (fields : List (List Char)) (i : Nat) : List Char := fields.getD i []

/-- The required fields after the index (`main.go` lines 65-75): each is stored when it
parses and left untouched otherwise. -/
def parseRequired (fields : List (List Char)) (metric : GPUMetric) : GPUMetric :=
  let metric :=
    match strconv.Atoi (strings.TrimSpace (field fields 1)) with
    | some util => { metric with UtilizationPercent := util }
    | none => metric
  let metric :=
    match strconv.Atoi (strings.TrimSpace (field fields 2)) with
    | some memUsed => { metric with MemoryUsedMB := memUsed }
    | none => metric
  match strconv.Atoi (strings.TrimSpace (field fields 3)) with
  | some memTotal => { metric with MemoryTotalMB := memTotal }
  | none => metric

/-- The optional temperature field (`main.go` lines 78-82). -/
def parseTemperature (fields : List (List Char)) (metric : GPUMetric) : GPUMetric :=
  if fields.length > 4 ∧ field fields 4 ≠ "N/A".toList ∧
      strings.TrimSpace (field fields 4) ≠ [] then
    match strconv.Atoi (strings.TrimSpace (field fields 4)) with
    | some temp => { metric with TemperatureCelsius := temp }
    | none => metric
  else metric

/-- The optional power field (`main.go` lines 84-91): parsed as a float, then converted
with `int(power)`. -/
def parsePower (fields : List (List Char)) (metric : GPUMetric) : GPUMetric :=
  if fields.length > 5 ∧ field fields 5 ≠ "N/A".toList ∧
      strings.TrimSpace (field fields 5) ≠ [] then
    let powerStr := strings.TrimSpace (field fields 5)
    if powerStr ≠ [] then
      match strconv.ParseFloat powerStr with
      | some power => { metric with PowerDrawWatts := strconv.intOfFloat64 power }
      | none => metric
    else metric
  else metric

/-- The body of the `for _, line := range lines` loop of `collectGPUMetrics`: `none` when
the iteration ends in `continue`, `some metric` when it reaches `append`. -/
def parseLine (line : List Char) : Option GPUMetric :=
  if line = [] then none
  else
    let fields := strings.Split line ", ".toList
    if fields.length < 4 then none
    else
      match strconv.Atoi (strings.TrimSpace (field fields 0)) with
      | none => none
      | some index =>
        let metric : GPUMetric := { GPUMetric.zero with Index := index }
        some (parsePower fields (parseTemperature fields (parseRequired fields metric)))

/-- The loop of `collectGPUMetrics` over the remaining lines, `metrics` being the slice
built so far. -/
def collectLoop : List (List Char) → List GPUMetric → List GPUMetric
  | [], metrics => metrics
  | line :: rest, metrics =>
    match parseLine line with
    | none => collectLoop rest metrics
    | some metric => collectLoop rest (metrics ++ [metric])

/-- The lines the loop ranges over: `strings.Split(strings.TrimSpace(output), "\n")`. -/
def outputLines (output : List Char) : List (List Char) :=
  strings.Split (strings.TrimSpace output) "\n".toList

/-- Go `Collector.collectGPUMetrics`, as a function of the result of `cmd.Output()`. -/
def collectGPUMetrics (cmdOutput : Except String (List Char)) :
    Except String (List GPUMetric) :=
  match cmdOutput with
  | Except.error err => Except.error ("failed to run nvidia-smi: " ++ err)
  | Except.ok output => Except.ok (collectLoop (outputLines output) [])

/-- Acceptance of a line: it splits on `", "` into at least 4 fields and its trimmed first
field parses as an integer. -/
def lineAccepted (line : List Char) : Bool :=
  decide (4 ≤ (strings.Split line ", ".toList).length) &&
    (strconv.Atoi (strings.TrimSpace (field (strings.Split line ", ".toList) 0))).isSome

/-- The number written by a string of decimal digits, in positional notation. -/
def digitsValue (ds : List Char) : Nat :=
  Nat.ofDigits 10 (ds.reverse.map (fun c => c.toNat - 48))

/-- An integer literal: an optional sign followed by one or more decimal digits. -/
def isIntLiteral (s : List Char) : Bool :=
  match s with
  | '-' :: ds => !ds.isEmpty && ds.all strconv.isDigit
  | '+' :: ds => !ds.isEmpty && ds.all strconv.isDigit
  | ds => !ds.isEmpty && ds.all strconv.isDigit

/-- The integer an integer literal denotes. -/
def literalValue (s : List Char) : Int :=
  match s with
  | '-' :: ds => -(digitsValue ds : Int)
  | '+' :: ds => (digitsValue ds : Int)
  | ds => (digitsValue ds : Int)

/-- The text of a decimal number: a sign (empty, `+` or `-`), the digits of the integer part
and, when `dot` is set, a point followed by the digits of the fraction. -/
def decimalText (sign ip fp : List Char) (dot : Bool) : List Char :=
  sign ++ (ip ++ (if dot then '.' :: fp else []))

/-- Well-formedness of the parts of a decimal number: a proper sign, digits only, at least
one digit, and no fraction digits without a point. -/
def isDecimal (sign ip fp : List Char) (dot : Bool) : Bool :=
  (sign == [] || sign == ['+'] || sign == ['-']) && ip.all strconv.isDigit &&
    fp.all strconv.isDigit && (!ip.isEmpty || !fp.isEmpty) && (dot || fp.isEmpty)

/-- A decimal number truncated toward zero: its integer part with its sign. -/
def truncatedValue (sign ip : List Char) : Int :=
  if sign = ['-'] then -(digitsValue ip : Int) else (digitsValue ip : Int)

/-- The rational number a finite `float64` stands for, `(-1)^neg * m * 2^e`. -/
def finiteValue (neg : Bool) (m : Nat) (e : Int) : ℚ :=
  (if neg then -1 else 1) * (m : ℚ) * (2 : ℚ) ^ e

/-- A rational number truncated toward zero: its floor when it is not negative, its ceiling
when it is. -/
def truncateTowardZero (q : ℚ) : Int := if 0 ≤ q then ⌊q⌋ else ⌈q⌉

/-- The range of a Go `int`. -/
def inIntRange (v : Int) : Prop := -(2 : Int) ^ 63 ≤ v ∧ v < (2 : Int) ^ 63

instance (v : Int) : Decidable (inIntRange v) := by unfold inIntRange; infer_instance

end Collector

/-! ## `pkg/types/metrics.go`: the payload -/

/-- Go `time.Time`, as seconds and nanoseconds from the zero instant
(January 1, year 1, 00:00:00 UTC). -/
structure Time where
  sec : Int
  nsec : Nat
deriving DecidableEq

/-- Go `Time.IsZero`. -/
def Time.IsZero (t : Time) : Bool := t.sec == 0 && t.nsec == 0

/-- Go `types.MetricsPayload`. -/
structure MetricsPayload where
  InstanceID : List Char
  Timestamp : Time
  GPUs : List GPUMetric
deriving DecidableEq

/-! ## Go standard library: `time`, as far as `Time.MarshalJSON` and `Time.UnmarshalJSON` -/

namespace gotime

/-- Go `isLeap(year)`. -/
def isLeap (year : Int) : Bool := year % 4 == 0 && (year % 100 != 0 || year % 400 == 0)

/-- Go `daysBefore[m]`: the days of a non-leap year before month `m + 1`. -/
def daysBefore (m : Nat) : Int :=
  [0, 31, 59, 90, 120, 151, 181, 212, 243, 273, 304, 334, 365].getD m 0

/-- Go `daysIn(m, year)`. -/
def daysIn (m : Nat) (year : Int) : Int :=
  if m = 2 ∧ isLeap year = true then 29 else daysBefore m - daysBefore (m - 1)

/-- The year and the day within it of Go `absDate`, for the day number `d` counted from
January 1 of year 1: 400-year, 100-year, 4-year and 1-year cycles are cut off in turn. -/
def yearDay (d : Int) : Int × Int :=
  let n400 := d / 146097
  let d1 := d - 146097 * n400
  let n100 := d1 / 36524 - d1 / 36524 / 4
  let d2 := d1 - 36524 * n100
  let n4 := d2 / 1461
  let d3 := d2 - 1461 * n4
  let n1 := d3 / 365 - d3 / 365 / 4
  (400 * n400 + 100 * n100 + 4 * n4 + n1 + 1, d3 - 365 * n1)

/-- The month (1 to 12) and the day of the month of Go `absDate`, from the year and the day
within it (0 for January 1). -/
def monthDay (year yday : Int) : Nat × Int :=
  if isLeap year = true ∧ yday = 31 + 29 - 1 then (2, 29)
  else
    let day : Int := if isLeap year = true ∧ yday > 31 + 29 - 1 then yday - 1 else yday
    let month : Nat := (day / 31).toNat
    if day ≥ daysBefore (month + 1) then (month + 2, day - daysBefore (month + 1) + 1)
    else (month + 1, day - daysBefore month + 1)

/-- The day number of an instant, counted from January 1 of year 1 (UTC). -/
def dayNumber (t : Time) : Int := t.sec / 86400

/-- Go `Time.Year` (UTC). -/
def year (t : Time) : Int := (yearDay (dayNumber t)).1

/-- Go `Time.Month` (UTC), 1 to 12. -/
def month (t : Time) : Nat := (monthDay (year t) (yearDay (dayNumber t)).2).1

/-- Go `Time.Day` (UTC). -/
def day (t : Time) : Int := (monthDay (year t) (yearDay (dayNumber t)).2).2

/-- Go `absClock`: hour, minute and second within the day. -/
def clock (t : Time) : Int × Int × Int :=
  let s := t.sec % 86400
  (s / 3600, s % 3600 / 60, s % 60)

/-- Go `appendInt(b, x, width)` of package time: the decimal text of `x`, zero-padded on the
left to `width`, after a minus sign when `x` is negative. -/
def appendInt (x : Int) (width : Nat) : List Char :=
  let u := x.natAbs
  let sign : List Char := if x < 0 then ['-'] else []
  if width = 2 ∧ u < 100 then sign ++ [strconv.digitChar (u / 10), strconv.digitChar (u % 10)]
  else if width = 4 ∧ u < 10000 then
    sign ++ [strconv.digitChar (u / 1000), strconv.digitChar (u / 100 % 10), strconv.digitChar (u / 10 % 10),
      strconv.digitChar (u % 10)]
  else sign ++ (List.replicate (width - (strconv.formatBits u).length) '0' ++ strconv.formatBits u)

/-- Removes the zeros at the end of a text. -/
def trimZeros (s : List Char) : List Char := (s.reverse.dropWhile (fun c => c == '0')).reverse

/-- Go `appendNano` for the layout `.999999999`: nothing for 0 nanoseconds, otherwise a point
and the nine digits without their trailing zeros (and no point if no digit is left). -/
def appendNano (nsec : Nat) : List Char :=
  if nsec = 0 then []
  else if trimZeros (appendInt nsec 9) = [] then [] else '.' :: trimZeros (appendInt nsec 9)

/-- Go `Time.appendFormatRFC3339(b, true)` for a time in UTC. -/
def appendFormatRFC3339 (t : Time) : List Char :=
  appendInt (year t) 4 ++ '-' :: (appendInt (month t) 2 ++ '-' :: (appendInt (day t) 2 ++
    'T' :: (appendInt (clock t).1 2 ++ ':' :: (appendInt (clock t).2.1 2 ++
      ':' :: (appendInt (clock t).2.2 2 ++ (appendNano t.nsec ++ ['Z']))))))

/-- Go `Time.MarshalJSON` for a time in UTC: the text between the quotes; `none` is the
error `year outside of range [0,9999]`, raised when the fifth character is not `-`. -/
def marshalJSON (t : Time) : Option (List Char) :=
  if (appendFormatRFC3339 t).getD 4 ' ' ≠ '-' then none else some (appendFormatRFC3339 t)

/-- The local function `parseUint` of Go `parseRFC3339`: decimal digits only, value within
`min` and `max`. -/
def parseUint (s : List Char) (min max : Int) : Option Int :=
  match strconv.digitLoop s 0 with
  | none => none
  | some x => if (x : Int) < min ∨ max < (x : Int) then none else some (x : Int)

/-- Go `parseNanoseconds` on the digits after the point: the first nine digits, scaled to
nanoseconds. -/
def parseNanoseconds (digits : List Char) : Nat :=
  match strconv.digitLoop (digits.take 9) 0 with
  | none => 0
  | some ns => ns * 10 ^ (9 - (digits.take 9).length)

/-- Go `daysSinceEpoch(year)`, counted from January 1 of year 1. -/
def daysSinceEpoch (year : Int) : Int :=
  let y := year - 1
  let n400 := y / 400
  let y1 := y - 400 * n400
  let n100 := y1 / 100
  let y2 := y1 - 100 * n100
  let n4 := y2 / 4
  let y3 := y2 - 4 * n4
  146097 * n400 + 36524 * n100 + 1461 * n4 + 365 * y3

/-- Go `Date(year, month, day, hour, min, sec, nsec, UTC)` for values in range. -/
def Date (year : Int) (month : Nat) (day hour min sec : Int) (nsec : Nat) : Time :=
  let d := daysSinceEpoch year + daysBefore (month - 1) +
    (if isLeap year = true ∧ month ≥ 3 then 1 else 0) + (day - 1)
  { sec := d * 86400 + hour * 3600 + min * 60 + sec, nsec := nsec }

/-- The fractional second and what follows it in Go `parseRFC3339`: the nanoseconds read
and the rest of the input. -/
def parseFraction (s : List Char) : Nat × List Char :=
  match s with
  | '.' :: d :: tl =>
    if strconv.isDigit d then
      (parseNanoseconds (d :: tl.takeWhile strconv.isDigit), tl.dropWhile strconv.isDigit)
    else (0, s)
  | _ => (0, s)

/-- The time zone of Go `parseRFC3339`: `Z`, or a sign, two digits of hours up to 23, a
colon and two digits of minutes up to 59; the result is the offset in seconds. -/
def parseZone (s : List Char) : Option Int :=
  if s = ['Z'] then some 0
  else
    match s with
    | [sg, h1, h2, c, m1, m2] =>
      match parseUint [h1, h2] 0 23, parseUint [m1, m2] 0 59 with
      | some hr, some mm =>
        if (sg = '-' ∨ sg = '+') ∧ c = ':' then
          some (if sg = '-' then -((hr * 60 + mm) * 60) else (hr * 60 + mm) * 60)
        else none
      | _, _ => none
    | _ => none

/-- Go `parseRFC3339`: the strict reading of `2006-01-02T15:04:05[.fraction](Z|±07:00)`. -/
def parseRFC3339 (s : List Char) : Option Time :=
  match s with
  | y1 :: y2 :: y3 :: y4 :: c4 :: m1 :: m2 :: c7 :: d1 :: d2 :: c10 :: h1 :: h2 :: c13 ::
      n1 :: n2 :: c16 :: s1 :: s2 :: rest =>
    match parseUint [y1, y2, y3, y4] 0 9999, parseUint [m1, m2] 1 12 with
    | some yr, some mo =>
      match parseUint [d1, d2] 1 (daysIn mo.toNat yr), parseUint [h1, h2] 0 23,
          parseUint [n1, n2] 0 59, parseUint [s1, s2] 0 59 with
      | some dy, some hr, some mi, some sc =>
        if c4 = '-' ∧ c7 = '-' ∧ c10 = 'T' ∧ c13 = ':' ∧ c16 = ':' then
          match parseZone (parseFraction rest).2 with
          | some offset =>
            let t := Date yr mo.toNat dy hr mi sc (parseFraction rest).1
            some { t with sec := t.sec - offset }
          | none => none
        else none
      | _, _, _, _ => none
    | _, _ => none
  | _ => none

/-- Go `parseStrictRFC3339`: `parseRFC3339` and, when that fails, the general
`Parse(RFC3339, s)` followed by the checks of the strict reading, here the parameter
`parse`. -/
def parseStrictRFC3339 (parse : List Char → Option Time) (s : List Char) : Option Time :=
  match parseRFC3339 s with
  | some t => some t
  | none => parse s

/-- Go `Time.UnmarshalJSON(data)` into the time `cur`: `null` leaves the time as it is;
otherwise `data` must begin and end with a quote, and the text between the quotes is read
as it stands, without unescaping, by `parseStrictRFC3339`. -/
def unmarshalJSON (parse : List Char → Option Time) (data : List Char) (cur : Time) :
    Option Time :=
  if data = "null".toList then some cur
  else if data.length < 2 ∨ data.head? ≠ some '"' ∨ data.getLast? ≠ some '"' then none
  else parseStrictRFC3339 parse data.tail.dropLast

end gotime

/-! ## Go standard library: `encoding/json`, on JSON values

The encoder and the decoder are modelled on the syntax tree of a JSON text.  Numbers,
strings and member keys keep their literal text, as the encoder writes it and the decoder
reads it; the white space between tokens, which the encoder does not write and the decoder
skips, is not modelled.  A Go `string` is a list of characters, as everywhere in this
development. -/

namespace json

/-- A JSON value: the literal text of a number, the literal text of a string with its
quotes and escapes, and the members of an object under the literal text of their keys. -/
inductive Value where
  | null
  | bool (b : Bool)
  | number (literal : List Char)
  | string (literal : List Char)
  | array (items : List Value)
  | object (members : List (List Char × Value))

/-- Go `hex[n]` of `encoding/json`, the table `0123456789abcdef`. -/
def hexDigit (n : Nat) : Char := "0123456789abcdef".toList.getD n '0'

/-- Go `htmlSafeSet[c]`: the ASCII characters from the space on, except `"`, `\`, `<`, `>`
and `&`. -/
def htmlSafe (c : Char) : Bool :=
  decide (0x20 ≤ c.toNat) && decide (c.toNat < 0x80) &&
    !(c == '"' || c == '\\' || c == '<' || c == '>' || c == '&')

/-- What Go `appendString(dst, src, true)` writes for one character of `src`: the character
itself when it is HTML-safe ASCII or beyond ASCII; a two-character escape for `\`, `"`,
backspace, form feed, line feed, carriage return and tab; `\u00XX` for the other ASCII
characters; `\u2028` and `\u2029` for the line and paragraph separators.  (Before Go 1.22
backspace and form feed were written `\u0008` and `\u000c`.) -/
def appendRune (c : Char) : List Char :=
  if c.toNat < 0x80 then
    if htmlSafe c = true then [c]
    else if c = '\\' ∨ c = '"' then ['\\', c]
    else if c.toNat = 8 then ['\\', 'b']
    else if c.toNat = 12 then ['\\', 'f']
    else if c.toNat = 10 then ['\\', 'n']
    else if c.toNat = 13 then ['\\', 'r']
    else if c.toNat = 9 then ['\\', 't']
    else ['\\', 'u', '0', '0', hexDigit (c.toNat / 16), hexDigit (c.toNat % 16)]
  else if c.toNat = 0x2028 ∨ c.toNat = 0x2029 then
    ['\\', 'u', '2', '0', '2', hexDigit (c.toNat % 16)]
  else [c]

/-- The loop of Go `appendString` over the characters of `src`. -/
def appendRunes : List Char → List Char
  | [] => []
  | c :: rest => appendRune c ++ appendRunes rest

/-- Go `appendString(dst, src, true)`, the JSON string literal `json.Marshal` writes for a
Go string: the escaped characters between two quotes. -/
def appendString (src : List Char) : List Char := '"' :: (appendRunes src ++ ['"'])

/-- The value of a hexadecimal digit, as in Go `getu4`. -/
def hexValue (c : Char) : Option Nat :=
  if 48 ≤ c.toNat ∧ c.toNat ≤ 57 then some (c.toNat - 48)
  else if 97 ≤ c.toNat ∧ c.toNat ≤ 102 then some (c.toNat - 97 + 10)
  else if 65 ≤ c.toNat ∧ c.toNat ≤ 70 then some (c.toNat - 65 + 10)
  else none

/-- Go `getu4(s)`: the number written by the four hexadecimal digits of a `\uXXXX` escape
at the start of `s`; `none` stands for `-1`. -/
def getu4 (s : List Char) : Option Nat :=
  match s with
  | b :: u :: x1 :: x2 :: x3 :: x4 :: _ =>
    if b = '\\' ∧ u = 'u' then
      match hexValue x1, hexValue x2, hexValue x3, hexValue x4 with
      | some v1, some v2, some v3, some v4 => some (((v1 * 16 + v2) * 16 + v3) * 16 + v4)
      | _, _, _, _ => none
    else none
  | _ => none

/-- Go `utf16.DecodeRune(r1, r2)` for the second half `r2` read by `getu4`: the character
of a valid surrogate pair, `none` (the replacement character in Go) otherwise. -/
def decodeSurrogates (r1 : Nat) (r2 : Option Nat) : Option Char :=
  match r2 with
  | none => none
  | some r2 =>
    if 0xd800 ≤ r1 ∧ r1 < 0xdc00 ∧ 0xdc00 ≤ r2 ∧ r2 < 0xe000 then
      some (Char.ofNat ((r1 - 0xd800) * 0x400 + (r2 - 0xdc00) + 0x10000))
    else none

/-- The loop of Go `unquoteBytes` over the text between the quotes: a backslash starts an
escape (`\"`, `\\`, `\/`, `\'`, `\b`, `\f`, `\n`, `\r`, `\t`, or `\uXXXX`, where a
surrogate is joined with a following low surrogate or else replaced by U+FFFD), a quote or
a control character is an error, every other character stands for itself.  The first
argument bounds the number of rounds; the length of the text is enough. -/
def unquoteLoop : Nat → List Char → Option (List Char)
  | _, [] => some []
  | 0, _ :: _ => none
  | fuel + 1, c :: rest =>
    if c = '\\' then
      match rest with
      | [] => none
      | e :: rest1 =>
        if e = '"' ∨ e = '\\' ∨ e = '/' ∨ e.toNat = 39 then (unquoteLoop fuel rest1).map (e :: ·)
        else if e = 'b' then (unquoteLoop fuel rest1).map (Char.ofNat 8 :: ·)
        else if e = 'f' then (unquoteLoop fuel rest1).map (Char.ofNat 12 :: ·)
        else if e = 'n' then (unquoteLoop fuel rest1).map (Char.ofNat 10 :: ·)
        else if e = 'r' then (unquoteLoop fuel rest1).map (Char.ofNat 13 :: ·)
        else if e = 't' then (unquoteLoop fuel rest1).map (Char.ofNat 9 :: ·)
        else if e = 'u' then
          match getu4 (c :: rest) with
          | none => none
          | some rr =>
            if 0xd800 ≤ rr ∧ rr < 0xe000 then
              match decodeSurrogates rr (getu4 (rest.drop 5)) with
              | some dec => (unquoteLoop fuel (rest.drop 11)).map (dec :: ·)
              | none => (unquoteLoop fuel (rest.drop 5)).map (Char.ofNat 0xfffd :: ·)
            else (unquoteLoop fuel (rest.drop 5)).map (Char.ofNat rr :: ·)
        else none
    else if c = '"' ∨ c.toNat < 0x20 then none
    else (unquoteLoop fuel rest).map (c :: ·)

/-- Go `unquote(s)` of `encoding/json`: the Go string a JSON string literal stands for;
`none` when `s` is not a quoted, well-escaped literal. -/
def unquote (s : List Char) : Option (List Char) :=
  if s.length < 2 ∨ s.head? ≠ some '"' ∨ s.getLast? ≠ some '"' then none
  else unquoteLoop s.tail.dropLast.length s.tail.dropLast

/-- Go `foldRune` of `encoding/json`: the representative of a rune's case-folding class.
ASCII letters go to upper case, and so do the long s (U+017F) and the Kelvin sign (U+212A);
no other rune shares its class with an ASCII character, and those are left as they are. -/
def foldRune (c : Char) : Char :=
  if 97 ≤ c.toNat ∧ c.toNat ≤ 122 then Char.ofNat (c.toNat - 32)
  else if c.toNat = 0x17F then 'S'
  else if c.toNat = 0x212A then 'K'
  else c

/-- Go `foldName`. -/
def foldName (s : List Char) : List Char := s.map foldRune

/-- The position, in order of declaration, of the struct field a JSON key selects: the field
whose name is the key, and failing that the first field whose folded name is the folded
key. -/
def fieldIndex (names : List (List Char)) (key : List Char) : Option Nat :=
  match names.indexOf? key with
  | some i => some i
  | none => (names.map foldName).indexOf? (foldName key)

/-- Decoding of the members of a JSON object into a struct: the key of each member is
unquoted; a member whose key selects a field is decoded into that field by `set`, the other
members are skipped; `none` when a member does not fit its field. -/
def decodeObject {α : Type} (names : List (List Char)) (set : Nat → Value → α → Option α) :
    List (List Char × Value) → α → Option α
  | [], a => some a
  | (keyLiteral, v) :: rest, a =>
    match unquote keyLiteral with
    | none => none
    | some key =>
      match fieldIndex names key with
      | none => decodeObject names set rest a
      | some i =>
        match set i v a with
        | none => none
        | some a1 => decodeObject names set rest a1

/-- Decoding of a JSON value into an `int`: `null` leaves the field as it is, a number must
be read by `strconv.ParseInt(s, 10, 64)` (the same reading as `Atoi`), anything else is an
error. -/
def decodeInt (v : Value) (cur : Int) : Option Int :=
  match v with
  | Value.null => some cur
  | Value.number literal => strconv.Atoi literal
  | _ => none

/-- Decoding of a JSON value into a `string`: `null` leaves the field as it is, a string
literal is unquoted, anything else is an error. -/
def decodeString (v : Value) (cur : List Char) : Option (List Char) :=
  match v with
  | Value.null => some cur
  | Value.string literal => unquote literal
  | _ => none

/-- Decoding of a JSON value into a `time.Time`: `Time.UnmarshalJSON` is handed the text of
`null` or of a string literal as it stands, and fails on every other value. -/
def decodeTime (parse : List Char → Option Time) (v : Value) (cur : Time) : Option Time :=
  match v with
  | Value.null => gotime.unmarshalJSON parse "null".toList cur
  | Value.string literal => gotime.unmarshalJSON parse literal cur
  | _ => none

/-- The JSON names of the fields of `types.GPUMetric`, in order of declaration. -/
def gpuMetricFields : List (List Char) :=
  ["gpu_index".toList, "gpu_utilization_percent".toList, "gpu_memory_used_mb".toList,
   "gpu_memory_total_mb".toList, "temperature_celsius".toList, "power_draw_watts".toList]

/-- Decoding of a JSON value into field `i` of a `types.GPUMetric`. -/
def setGPUMetricField (i : Nat) (v : Value) (g : GPUMetric) : Option GPUMetric :=
  match i with
  | 0 => (decodeInt v g.Index).map (fun x => { g with Index := x })
  | 1 => (decodeInt v g.UtilizationPercent).map (fun x => { g with UtilizationPercent := x })
  | 2 => (decodeInt v g.MemoryUsedMB).map (fun x => { g with MemoryUsedMB := x })
  | 3 => (decodeInt v g.MemoryTotalMB).map (fun x => { g with MemoryTotalMB := x })
  | 4 => (decodeInt v g.TemperatureCelsius).map (fun x => { g with TemperatureCelsius := x })
  | 5 => (decodeInt v g.PowerDrawWatts).map (fun x => { g with PowerDrawWatts := x })
  | _ => some g

/-- Decoding of a JSON value into the `types.GPUMetric` `g`: the members of an object are
decoded into the fields of `g`, and `null` leaves `g` as it is. -/
def unmarshalGPUMetric (v : Value) (g : GPUMetric) : Option GPUMetric :=
  match v with
  | Value.null => some g
  | Value.object members => decodeObject gpuMetricFields setGPUMetricField members g
  | _ => none

/-- A `[]types.GPUMetric` while it is decoded into: its elements, and the records held by
its backing array beyond its length (what an earlier, longer value of the slice has left
there). -/
structure GPUSlice where
  elems : List GPUMetric
  spare : List GPUMetric
deriving DecidableEq

/-- The loop of Go `(*decodeState).array` over the elements of a JSON array, for a slice
with backing array `backing`: element `i` is decoded into the record at position `i` of the
backing array, which holds what the slice held there before, and into a zero record beyond
the capacity, where the slice is grown; at the end the slice is cut to the number of
elements read. -/
def unmarshalGPUMetrics : List Value → List GPUMetric → Option GPUSlice
  | [], backing => some { elems := [], spare := backing }
  | v :: rest, backing =>
    match unmarshalGPUMetric v (backing.headD GPUMetric.zero) with
    | none => none
    | some g =>
      match unmarshalGPUMetrics rest backing.tail with
      | none => none
      | some s => some { elems := g :: s.elems, spare := s.spare }

/-- Decoding of a JSON value into a `[]types.GPUMetric`: `null` gives the nil slice, the
empty array a new empty slice, another array is decoded into the backing array of the
slice, and anything else is an error. -/
def decodeGPUs (v : Value) (cur : GPUSlice) : Option GPUSlice :=
  match v with
  | Value.null => some { elems := [], spare := [] }
  | Value.array [] => some { elems := [], spare := [] }
  | Value.array (item :: items) => unmarshalGPUMetrics (item :: items) (cur.elems ++ cur.spare)
  | _ => none

/-- The JSON names of the fields of `types.MetricsPayload`, in order of declaration. -/
def payloadFields : List (List Char) :=
  ["instance_id".toList, "timestamp".toList, "gpus".toList]

/-- Decoding of a JSON value into field `i` of a `types.MetricsPayload`; the payload comes
with the spare records of the backing array of its `GPUs`. -/
def setPayloadField (parse : List Char → Option Time) (i : Nat) (v : Value)
    (p : MetricsPayload × List GPUMetric) : Option (MetricsPayload × List GPUMetric) :=
  match i with
  | 0 => (decodeString v p.1.InstanceID).map (fun x => ({ p.1 with InstanceID := x }, p.2))
  | 1 => (decodeTime parse v p.1.Timestamp).map (fun x => ({ p.1 with Timestamp := x }, p.2))
  | 2 => (decodeGPUs v { elems := p.1.GPUs, spare := p.2 }).map
      (fun s => ({ p.1 with GPUs := s.elems }, s.spare))
  | _ => some p

/-- The zero value of `types.MetricsPayload`, which `handleMetrics` decodes into. -/
def zeroPayload : MetricsPayload :=
  { InstanceID := [], Timestamp := { sec := 0, nsec := 0 }, GPUs := [] }

/-- Go `Decode(&payload)` for `var payload types.MetricsPayload`, on the JSON value read
from the body. -/
def unmarshalPayload (parse : List Char → Option Time) (v : Value) : Option MetricsPayload :=
  match v with
  | Value.null => some zeroPayload
  | Value.object members =>
    (decodeObject payloadFields (setPayloadField parse) members (zeroPayload, [])).map Prod.fst
  | _ => none

/-- The JSON value of an `int`. -/
def marshalInt (i : Int) : Value := Value.number (strconv.Itoa i)

/-- The key the encoder writes for a field: its JSON name between quotes.  (The names of
this program hold no character that the encoder escapes.) -/
def fieldKey (name : List Char) : List Char := '"' :: (name ++ ['"'])

/-- Go `json.Marshal` of a `types.GPUMetric`: the four required fields, and temperature and
power unless they are 0 (`omitempty`). -/
def marshalGPUMetric (g : GPUMetric) : Value :=
  Value.object
    ([(fieldKey "gpu_index".toList, marshalInt g.Index),
      (fieldKey "gpu_utilization_percent".toList, marshalInt g.UtilizationPercent),
      (fieldKey "gpu_memory_used_mb".toList, marshalInt g.MemoryUsedMB),
      (fieldKey "gpu_memory_total_mb".toList, marshalInt g.MemoryTotalMB)] ++
     (if g.TemperatureCelsius = 0 then []
      else [(fieldKey "temperature_celsius".toList, marshalInt g.TemperatureCelsius)]) ++
     (if g.PowerDrawWatts = 0 then []
      else [(fieldKey "power_draw_watts".toList, marshalInt g.PowerDrawWatts)]))

/-- Go `json.Marshal(payload)` as in `sendMetrics`; `none` is the error of
`Time.MarshalJSON`.  The instance id is written by `appendString`; the timestamp is the
text of `Time.MarshalJSON` between its quotes, which holds no character the encoder would
escape when it copies it.  `gpusNil` tells whether an empty `GPUs` is the nil slice, which
is written `null`. -/
def marshalPayload (p : MetricsPayload) (gpusNil : Bool) : Option Value :=
  match gotime.marshalJSON p.Timestamp with
  | none => none
  | some ts =>
    some (Value.object
      [(fieldKey "instance_id".toList, Value.string (appendString p.InstanceID)),
       (fieldKey "timestamp".toList, Value.string ('"' :: (ts ++ ['"']))),
       (fieldKey "gpus".toList,
          if gpusNil = true ∧ p.GPUs = [] then Value.null
          else Value.array (p.GPUs.map marshalGPUMetric))])

/-- Every field of the record is in the range of a Go `int`. -/
def intFields (g : GPUMetric) : Prop :=
  Collector.inIntRange g.Index ∧ Collector.inIntRange g.UtilizationPercent ∧
  Collector.inIntRange g.MemoryUsedMB ∧ Collector.inIntRange g.MemoryTotalMB ∧
  Collector.inIntRange g.TemperatureCelsius ∧ Collector.inIntRange g.PowerDrawWatts

instance (g : GPUMetric) : Decidable (intFields g) := by unfold intFields; infer_instance

/-- A payload for examples: an instance id with characters that the encoder escapes, one
record with neither temperature nor power, one with both. -/
def examplePayload : MetricsPayload :=
  { InstanceID := "node<1>\\a\"b\tcé".toList,
    Timestamp := { sec := 63000000123, nsec := 5 },
    GPUs := [{ Index := 0, UtilizationPercent := 45, MemoryUsedMB := 2048,
               MemoryTotalMB := 8192, TemperatureCelsius := 0, PowerDrawWatts := 0 },
             { Index := 1, UtilizationPercent := 10, MemoryUsedMB := 100, MemoryTotalMB := 200,
               TemperatureCelsius := 65, PowerDrawWatts := 120 }] }

/-- The JSON value `json.Marshal` gives for `examplePayload`. -/
def exampleJSON : Value :=
  Value.object
    [("\"instance_id\"".toList,
        Value.string "\"node\\u003c1\\u003e\\\\a\\\"b\\tcé\"".toList),
     ("\"timestamp\"".toList, Value.string "\"1997-05-23T16:02:03.000000005Z\"".toList),
     ("\"gpus\"".toList, Value.array
        [Value.object
           [("\"gpu_index\"".toList, Value.number "0".toList),
            ("\"gpu_utilization_percent\"".toList, Value.number "45".toList),
            ("\"gpu_memory_used_mb\"".toList, Value.number "2048".toList),
            ("\"gpu_memory_total_mb\"".toList, Value.number "8192".toList)],
         Value.object
           [("\"gpu_index\"".toList, Value.number "1".toList),
            ("\"gpu_utilization_percent\"".toList, Value.number "10".toList),
            ("\"gpu_memory_used_mb\"".toList, Value.number "100".toList),
            ("\"gpu_memory_total_mb\"".toList, Value.number "200".toList),
            ("\"temperature_celsius\"".toList, Value.number "65".toList),
            ("\"power_draw_watts\"".toList, Value.number "120".toList)]])]

/-- A JSON object in which the key `gpus` comes twice. -/
def repeatedKeyJSON : Value :=
  Value.object
    [("\"gpus\"".toList, Value.array
        [Value.object
           [("\"gpu_index\"".toList, Value.number "1".toList),
            ("\"temperature_celsius\"".toList, Value.number "65".toList)],
         Value.object [("\"gpu_index\"".toList, Value.number "7".toList)]]),
     ("\"gpus\"".toList, Value.array
        [Value.object [("\"gpu_index\"".toList, Value.number "2".toList)]])]

end json

/-! ## `cmd/server/main.go` -/

namespace Server

/-- Go conversion of an `int` to an unsigned integer type of `w` bits: the low `w` bits of
the two's complement representation.  A negative `-(n+1)` has the bits of `n` inverted. -/
def toUnsigned (w : Nat) (x : Int) : Nat :=
  match x with
  | Int.ofNat n => n % 2 ^ w
  | Int.negSucc n => 2 ^ w - 1 - n % 2 ^ w

/-- Go `uint8(x)`. -/
def uint8 (x : Int) : Nat := toUnsigned 8 x

/-- Go `uint16(x)`. -/
def uint16 (x : Int) : Nat := toUnsigned 16 x

/-- Go `uint32(x)`. -/
def uint32 (x : Int) : Nat := toUnsigned 32 x

/-- One row of `vlgpus.gpu_metrics`: the arguments of a `batch.Append` call, in column
order. -/
structure Row where
  timestamp : Time
  instance_id : List Char
  gpu_index : Nat
  gpu_utilization_percent : Nat
  gpu_memory_used_mb : Nat
  gpu_memory_total_mb : Nat
  temperature_celsius : Nat
  power_draw_watts : Nat
deriving DecidableEq

/-- A call made on the ClickHouse connection or on a batch obtained from it. -/
inductive DBCall where
  | queryRow (apiKey : List Char)
  | prepareBatch
  | append (row : Row)
  | send
deriving DecidableEq

/-- The behaviour of the ClickHouse driver, which the server only uses through
`QueryRow(...).Scan`, `PrepareBatch`, `Append` and `Send`.
`queryRow apiKey` is the instance id scanned for a provisioned key, `none` for an error;
`appendFails batch row` tells whether appending `row` to a batch already holding `batch`
returns an error. -/
structure Driver where
  queryRow : List Char → Option (List Char)
  prepareFails : Bool
  appendFails : List Row → Row → Bool
  sendFails : List Row → Bool

/-- The state the server acts on: the calls made so far, oldest first, and the rows
committed to `vlgpus.gpu_metrics`. -/
structure Store where
  calls : List DBCall
  rows : List Row
deriving DecidableEq

/-- Records a driver call in the store. -/
def Store.log (st : Store) (c : DBCall) : Store := { st with calls := st.calls ++ [c] }

/-- Go `Server.authenticateInstance`: the instance id of a provisioned API key. -/
def authenticateInstance (db : Driver) (st : Store) (apiKey : List Char) :
    Option (List Char) × Store :=
  (db.queryRow apiKey, st.log (DBCall.queryRow apiKey))

/-- The row appended for one record (`main.go` lines 66-75). -/
def rowOf (instanceID : List Char) (timestamp : Time) (gpu : GPUMetric) : Row :=
  { timestamp := timestamp
    instance_id := instanceID
    gpu_index := uint8 gpu.Index
    gpu_utilization_percent := uint8 gpu.UtilizationPercent
    gpu_memory_used_mb := uint32 gpu.MemoryUsedMB
    gpu_memory_total_mb := uint32 gpu.MemoryTotalMB
    temperature_celsius := uint8 gpu.TemperatureCelsius
    power_draw_watts := uint16 gpu.PowerDrawWatts }

/-- The `for _, gpu := range gpus` loop of `insertMetrics`; `batch` holds the rows appended
so far.  `none` is the early error return. -/
def appendLoop (db : Driver) (instanceID : List Char) (timestamp : Time) :
    List GPUMetric → List Row → Store → Option (List Row) × Store
  | [], batch, st => (some batch, st)
  | gpu :: rest, batch, st =>
    let row := rowOf instanceID timestamp gpu
    let st1 := st.log (DBCall.append row)
    if db.appendFails batch row then (none, st1)
    else appendLoop db instanceID timestamp rest (batch ++ [row]) st1

/-- Go `Server.insertMetrics`; the result is the Go `error`, `none` for `nil`.  `Send`
commits the rows of the batch together when it succeeds and none of them when it fails. -/
def insertMetrics (db : Driver) (st : Store) (instanceID : List Char) (timestamp : Time)
    (gpus : List GPUMetric) : Option String × Store :=
  let st1 := st.log DBCall.prepareBatch
  if db.prepareFails then (some "failed to prepare batch", st1)
  else
    match appendLoop db instanceID timestamp gpus [] st1 with
    | (none, st2) => (some "failed to append to batch", st2)
    | (some batch, st2) =>
      let st3 := st2.log DBCall.send
      if db.sendFails batch then (some "send failed", st3)
      else (none, { st3 with rows := st3.rows ++ batch })

/-- An HTTP request as `handleMetrics` reads it: the `Authorization` header, if present,
and the body. -/
structure Request where
  authorization : Option (List Char)
  body : List Char

/-- Go `r.Header.Get("Authorization")`: the header value, `""` when absent. -/
def Request.headerGet (r : Request) : List Char := r.authorization.getD []

/-- What the handler writes as body: the message of `http.Error`, or a JSON object of
string fields. -/
inductive Body where
  | error (msg : String)
  | json (fields : List (String × String))
deriving DecidableEq

/-- The HTTP response. -/
structure Response where
  status : Nat
  body : Body
deriving DecidableEq

/-- Go `http.Error(w, msg, code)`. -/
def httpError (msg : String) (code : Nat) : Response := { status := code, body := Body.error msg }

/-- What the handler gets from outside the program: the driver, the JSON decoder applied to
the request body (`none` for a decoding error) and the clock `time.Now().UTC()`. -/
structure Env where
  db : Driver
  jsonDecode : List Char → Option MetricsPayload
  now : Time

/-- Go `Server.handleMetrics`.  The header test `len(authHeader) > 7 && authHeader[:7] ==
"Bearer "` counts bytes; the prefix being ASCII, it holds for the bytes exactly when it
holds for the characters, and `authHeader[7:]` is the same text either way. -/
def handleMetrics (env : Env) (st : Store) (r : Request) : Response × Store :=
  let authHeader := r.headerGet
  if authHeader = [] then (httpError "Missing Authorization header" 401, st)
  else if authHeader.length > 7 ∧ authHeader.take 7 = "Bearer ".toList then
    let apiKey := authHeader.drop 7
    match authenticateInstance env.db st apiKey with
    | (none, st1) => (httpError "Unauthorized" 401, st1)
    | (some instanceID, st1) =>
      match env.jsonDecode r.body with
      | none => (httpError "Invalid JSON payload" 400, st1)
      | some payload =>
        if payload.InstanceID ≠ instanceID then (httpError "Instance ID mismatch" 403, st1)
        else
          let timestamp := if payload.Timestamp.IsZero then env.now else payload.Timestamp
          match insertMetrics env.db st1 instanceID timestamp payload.GPUs with
          | (some _, st2) => (httpError "Failed to store metrics" 500, st2)
          | (none, st2) => ({ status := 200, body := Body.json [("status", "success")] }, st2)
  else (httpError "Invalid Authorization header format" 401, st)

/-- The API keys looked up by the calls of a log, in order. -/
def lookupKeys : List DBCall → List (List Char)
  | [] => []
  | DBCall.queryRow k :: cs => k :: lookupKeys cs
  | _ :: cs => lookupKeys cs

/-- The batch calls (`PrepareBatch`, `Append`, `Send`) of a log, in order. -/
def batchCalls : List DBCall → List DBCall
  | [] => []
  | DBCall.queryRow _ :: cs => batchCalls cs
  | c :: cs => c :: batchCalls cs

/-- A driver on which no call fails and that knows the API key `key-1` of `inst-1`. -/
def okDriver : Driver :=
  { queryRow := fun k => if k = "key-1".toList then some "inst-1".toList else none
    prepareFails := false
    appendFails := fun _ _ => false
    sendFails := fun _ => false }

/-- Two records, the second with values outside the column ranges. -/
def twoRecords : List GPUMetric :=
  [{ Index := 0, UtilizationPercent := 45, MemoryUsedMB := 2048, MemoryTotalMB := 8192,
     TemperatureCelsius := 65, PowerDrawWatts := 120 },
   { Index := 256, UtilizationPercent := -1, MemoryUsedMB := 4294967297, MemoryTotalMB := 8192,
     TemperatureCelsius := 300, PowerDrawWatts := 65536 }]

/-- A valid payload of `inst-1` carrying `twoRecords`. -/
def okPayload : MetricsPayload :=
  { InstanceID := "inst-1".toList, Timestamp := { sec := 0, nsec := 0 }, GPUs := twoRecords }

/-- An environment for examples: `okDriver`, and a decoder that accepts the body `ok` as
`okPayload`, the body `other` as a payload of `inst-2`, and nothing else. -/
def okEnv : Env :=
  { db := okDriver
    jsonDecode := fun body =>
      if body = "ok".toList then some okPayload
      else if body = "other".toList then some { okPayload with InstanceID := "inst-2".toList }
      else none
    now := { sec := 63000000000, nsec := 0 } }

/-- A payload of `inst-1` with a timestamp of its own. -/
def stampedPayload : MetricsPayload :=
  { InstanceID := "inst-1".toList, Timestamp := { sec := 63000000123, nsec := 5 },
    GPUs := twoRecords }

/-- The environment `okEnv` with a decoder that reads every body as `stampedPayload`. -/
def stampedEnv : Env := { okEnv with jsonDecode := fun _ => some stampedPayload }

end Server

/-! ## `cmd/collector/main.go`: the payload of a collection cycle -/

namespace Collector

/-- Go `config.CollectorConfig`, without the collection interval. -/
structure CollectorConfig where
  InstanceID : List Char
  APIKey : List Char
  MetricsURL : List Char
deriving DecidableEq

/-- The payload built by `sendMetrics` (`main.go` lines 100-104); `now` is
`time.Now().UTC()`. -/
def assemblePayload (cfg : CollectorConfig) (now : Time) (metrics : List GPUMetric) :
    MetricsPayload :=
  { InstanceID := cfg.InstanceID, Timestamp := now, GPUs := metrics }

/-- The payload of one `collectAndSend` cycle: none when `collectGPUMetrics` fails, otherwise
the payload `sendMetrics` assembles from the collected records. -/
def cyclePayload (cfg : CollectorConfig) (now : Time) (cmdOutput : Except String (List Char)) :
    Option MetricsPayload :=
  match collectGPUMetrics cmdOutput with
  | Except.error _ => none
  | Except.ok metrics => some (assemblePayload cfg now metrics)

/-- The index a line reports: its trimmed first field read as an integer (0 when it does
not parse, which an accepted line excludes). -/
def lineIndex (line : List Char) : Int :=
  (strconv.Atoi (strings.TrimSpace (field (strings.Split line ", ".toList) 0))).getD 0

/-- A configuration for examples. -/
def exampleConfig : CollectorConfig :=
  { InstanceID := "inst-1".toList, APIKey := "key-1".toList,
    MetricsURL := "http://localhost:8080/metrics".toList }

end Collector

/-! ## Theorems -/

/-! ### Standard library facts -/

namespace strconv

theorem isDigit_not_space (c : Char) (h : isDigit c = true) : unicode.IsSpace c = false := by
  simp only [isDigit, Bool.and_eq_true, decide_eq_true_eq] at h
  simp only [unicode.IsSpace, Bool.or_eq_false_iff, Bool.and_eq_false_imp, beq_eq_false_iff_ne,
    decide_eq_true_eq, decide_eq_false_iff_not]
  omega

end strconv

namespace strings

theorem dropWhile_eq_self_of_head (p : Char → Bool) (c : Char) (s : List Char)
    (h : p c = false) : (c :: s).dropWhile p = c :: s := by
  simp [List.dropWhile, h]

/-- `TrimSpace` leaves a string alone whose first and last characters are not spaces. -/
theorem TrimSpace_eq_self (s : List Char) (hs : s ≠ [])
    (hh : ∀ c, s.head? = some c → unicode.IsSpace c = false)
    (hl : ∀ c, s.getLast? = some c → unicode.IsSpace c = false) : TrimSpace s = s := by
  unfold TrimSpace
  cases s with
  | nil => exact absurd rfl hs
  | cons c cs =>
    rw [dropWhile_eq_self_of_head _ _ _ (hh c rfl)]
    have hne : (c :: cs).reverse ≠ [] := by simp
    cases hr : (c :: cs).reverse with
    | nil => exact absurd hr hne
    | cons d ds =>
      have hlast : (c :: cs).getLast? = some d := by
        rw [List.getLast?_eq_head?_reverse, hr]; rfl
      rw [dropWhile_eq_self_of_head _ _ _ (hl d hlast), ← hr, List.reverse_reverse]

end strings

namespace Collector

theorem collectLoop_eq (lines : List (List Char)) (metrics : List GPUMetric) :
    collectLoop lines metrics = metrics ++ lines.filterMap parseLine := by
  induction lines generalizing metrics with
  | nil => simp [collectLoop]
  | cons line rest ih =>
    cases h : parseLine line with
    | none => simp [collectLoop, h, ih, List.filterMap_cons]
    | some m => simp [collectLoop, h, ih, List.filterMap_cons]

theorem parseLine_isSome (line : List Char) : (parseLine line).isSome = lineAccepted line := by
  by_cases hl : line = []
  · subst hl
    simp [parseLine, lineAccepted, strings.Split, strings.splitAux]
  · unfold parseLine lineAccepted
    simp only [hl, if_false]
    generalize strings.Split line ", ".toList = fields
    by_cases h4 : fields.length < 4
    · have : ¬ 4 ≤ fields.length := by omega
      simp [h4, this]
    · have : 4 ≤ fields.length := by omega
      simp only [h4, if_false, this, decide_True, Bool.true_and]
      cases strconv.Atoi (strings.TrimSpace (field fields 0)) <;> rfl

theorem filterMap_forall₂ (lines : List (List Char)) :
    List.Forall₂ (fun line r => parseLine line = some r)
      (lines.filter lineAccepted) (lines.filterMap parseLine) := by
  induction lines with
  | nil => simp
  | cons line rest ih =>
    have hs := parseLine_isSome line
    cases h : parseLine line with
    | none =>
      rw [h] at hs
      have : lineAccepted line = false := by simpa using hs.symm
      simp [List.filterMap_cons, h, List.filter_cons, this, ih]
    | some m =>
      rw [h] at hs
      have : lineAccepted line = true := by simpa using hs.symm
      simp [List.filterMap_cons, h, List.filter_cons, this, ih]

/-- C1: on every text output, `collectGPUMetrics` returns records that correspond one to
one and in order to the accepted lines (at least 4 fields on `", "`, trimmed first field an
integer); a line is skipped exactly when it is not accepted, and a skipped line does not
stop the lines after it: a 3-field line followed by a good line yields the good record. -/
theorem collectGPUMetrics_records_of_accepted_lines (output : List Char) :
    (∃ records, collectGPUMetrics (Except.ok output) = Except.ok records ∧
      List.Forall₂ (fun line r => parseLine line = some r)
        ((outputLines output).filter lineAccepted) records) ∧
    (∀ line, parseLine line = none ↔ lineAccepted line = false) ∧
    (∀ bad good r, lineAccepted bad = false → parseLine good = some r →
      ∀ before after, collectLoop (before ++ bad :: good :: after) [] =
        collectLoop before [] ++ r :: collectLoop after []) ∧
    collectGPUMetrics (Except.ok "1, 2, 3\n0, 45, 2048, 8192, 65, 120.5\n".toList) =
      Except.ok [{ Index := 0, UtilizationPercent := 45, MemoryUsedMB := 2048,
                   MemoryTotalMB := 8192, TemperatureCelsius := 65, PowerDrawWatts := 120 }] := by
  refine ⟨⟨_, rfl, ?_⟩, ?_, ?_, ?_⟩
  · rw [collectLoop_eq]
    simpa using filterMap_forall₂ (outputLines output)
  · intro line
    have hs := parseLine_isSome line
    cases h : parseLine line with
    | none => rw [h] at hs; simpa using hs.symm
    | some m => rw [h] at hs; simp [← hs]
  · intro bad good r hbad hgood before after
    have hb : parseLine bad = none := by
      have hs := parseLine_isSome bad
      rw [hbad] at hs
      cases h : parseLine bad with
      | none => rfl
      | some m => rw [h] at hs; simp at hs
    simp [collectLoop_eq, List.filterMap_append, List.filterMap_cons, hb, hgood]
  · rfl

end Collector

namespace Collector
open strconv

theorem digitsValue_cons (c : Char) (ds : List Char) :
    digitsValue (c :: ds) = (c.toNat - 48) * 10 ^ ds.length + digitsValue ds := by
  simp [digitsValue, Nat.ofDigits_append, Nat.ofDigits_singleton]
  ring

theorem digitLoop_eq (ds : List Char) (n : Nat) (h : ds.all isDigit = true) :
    digitLoop ds n = some (n * 10 ^ ds.length + digitsValue ds) := by
  induction ds generalizing n with
  | nil => simp [digitLoop, digitsValue]
  | cons c ds ih =>
    simp only [List.all_cons, Bool.and_eq_true] at h
    rw [digitLoop, if_pos h.1, ih _ h.2, digitsValue_cons]
    congr 1
    simp only [List.length_cons]
    ring

theorem Atoi_digits (neg : Bool) (ds : List Char) (hne : ds ≠ []) (hd : ds.all isDigit = true)
    (hr : inIntRange (if neg then -(digitsValue ds : Int) else (digitsValue ds : Int))) :
    (if ds = [] then none
      else
        match digitLoop ds 0 with
        | none => none
        | some n =>
          let v : Int := if neg = true then -(n : Int) else (n : Int)
          if -(2 : Int) ^ (intSize - 1) ≤ v ∧ v < (2 : Int) ^ (intSize - 1) then some v else none) =
    some (if neg then -(digitsValue ds : Int) else (digitsValue ds : Int)) := by
  rw [if_neg hne, digitLoop_eq ds 0 hd]
  simp only [Nat.zero_mul, Nat.zero_add]
  unfold inIntRange at hr
  simp only [intSize]
  rw [if_pos hr]

theorem Atoi_literal (s : List Char) (hl : isIntLiteral s = true)
    (hr : inIntRange (literalValue s)) : Atoi s = some (literalValue s) := by
  unfold isIntLiteral at hl
  unfold literalValue at hr ⊢
  unfold Atoi
  split at hl <;> simp only [Bool.and_eq_true, Bool.not_eq_true', List.isEmpty_eq_false] at hl
  · exact Atoi_digits true _ hl.1 hl.2 hr
  · exact Atoi_digits false _ hl.1 hl.2 hr
  · split at hr
    · rename_i h1 _
      exact (h1 _ rfl).elim
    · rename_i _ h2
      exact (h2 _ rfl).elim
    · exact Atoi_digits false _ hl.1 hl.2 hr

end Collector

namespace Collector
open strconv strings

theorem parsePower_fields (fs : List (List Char)) (m : GPUMetric) :
    (parsePower fs m).Index = m.Index ∧
    (parsePower fs m).UtilizationPercent = m.UtilizationPercent ∧
    (parsePower fs m).MemoryUsedMB = m.MemoryUsedMB ∧
    (parsePower fs m).MemoryTotalMB = m.MemoryTotalMB ∧
    (parsePower fs m).TemperatureCelsius = m.TemperatureCelsius := by
  unfold parsePower
  split
  · simp only
    split
    · split <;> simp
    · simp
  · simp

theorem parseTemperature_fields (fs : List (List Char)) (m : GPUMetric) :
    (parseTemperature fs m).Index = m.Index ∧
    (parseTemperature fs m).UtilizationPercent = m.UtilizationPercent ∧
    (parseTemperature fs m).MemoryUsedMB = m.MemoryUsedMB ∧
    (parseTemperature fs m).MemoryTotalMB = m.MemoryTotalMB ∧
    (parseTemperature fs m).PowerDrawWatts = m.PowerDrawWatts := by
  unfold parseTemperature
  split
  · split <;> simp
  · simp

theorem parseRequired_fields (fs : List (List Char)) (m : GPUMetric) :
    (parseRequired fs m).Index = m.Index ∧
    (parseRequired fs m).TemperatureCelsius = m.TemperatureCelsius ∧
    (parseRequired fs m).PowerDrawWatts = m.PowerDrawWatts := by
  unfold parseRequired
  cases Atoi (TrimSpace (field fs 1)) <;> cases Atoi (TrimSpace (field fs 2)) <;>
    cases Atoi (TrimSpace (field fs 3)) <;> simp

theorem parseRequired_values (fs : List (List Char)) (m : GPUMetric) :
    (parseRequired fs m).UtilizationPercent =
      (Atoi (TrimSpace (field fs 1))).getD m.UtilizationPercent ∧
    (parseRequired fs m).MemoryUsedMB = (Atoi (TrimSpace (field fs 2))).getD m.MemoryUsedMB ∧
    (parseRequired fs m).MemoryTotalMB = (Atoi (TrimSpace (field fs 3))).getD m.MemoryTotalMB := by
  unfold parseRequired
  cases Atoi (TrimSpace (field fs 1)) <;> cases Atoi (TrimSpace (field fs 2)) <;>
    cases Atoi (TrimSpace (field fs 3)) <;> simp

/-- The record built from the fields of a line whose index parsed. -/
theorem parseLine_eq (line : List Char) :
    parseLine line =
      if line = [] then none
      else if (Split line ", ".toList).length < 4 then none
      else (Atoi (TrimSpace (field (Split line ", ".toList) 0))).map (fun index =>
        parsePower (Split line ", ".toList) (parseTemperature (Split line ", ".toList)
          (parseRequired (Split line ", ".toList) { GPUMetric.zero with Index := index }))) := by
  unfold parseLine
  split
  · rfl
  · simp only
    split
    · rfl
    · cases Atoi (TrimSpace (field (Split line ", ".toList) 0)) <;> rfl

theorem line_ne_nil_of_fields (line : List Char) (h : 2 ≤ (Split line ", ".toList).length) :
    line ≠ [] := by
  intro hl
  subst hl
  simp [Split, splitAux] at h

theorem TrimSpace_eq_self_of_forall (s : List Char) (hs : s ≠ [])
    (h : ∀ c ∈ s, unicode.IsSpace c = false) : TrimSpace s = s := by
  apply TrimSpace_eq_self s hs
  · intro c hc
    exact h c (List.mem_of_mem_head? hc)
  · intro c hc
    exact h c (List.mem_of_getLast?_eq_some hc)

theorem isIntLiteral_trim (s : List Char) (h : isIntLiteral s = true) : TrimSpace s = s := by
  unfold isIntLiteral at h
  split at h <;> simp only [Bool.and_eq_true, Bool.not_eq_true', List.isEmpty_eq_false,
    List.all_eq_true] at h
  · apply TrimSpace_eq_self_of_forall _ (by simp)
    intro c hc
    rcases List.mem_cons.1 hc with rfl | hc
    · decide
    · exact isDigit_not_space c (h.2 c hc)
  · apply TrimSpace_eq_self_of_forall _ (by simp)
    intro c hc
    rcases List.mem_cons.1 hc with rfl | hc
    · decide
    · exact isDigit_not_space c (h.2 c hc)
  · exact TrimSpace_eq_self_of_forall _ h.1 (fun c hc => isDigit_not_space c (h.2 c hc))

end Collector

namespace Collector
open strconv strings

/-- C2 (amended): when the first five `", "`-separated fields of a line are integer literals
whose values lie in the range of a 64-bit `int`, the line is accepted and the record holds
exactly those five integers as index, utilization, memory used, memory total and
temperature; no other range is checked. -/
theorem parseLine_integer_literals (line : List Char)
    (h5 : 5 ≤ (Split line ", ".toList).length)
    (hlit : ∀ i, i < 5 → isIntLiteral (field (Split line ", ".toList) i) = true)
    (hrange : ∀ i, i < 5 → inIntRange (literalValue (field (Split line ", ".toList) i))) :
    ∃ r, parseLine line = some r ∧
      r.Index = literalValue (field (Split line ", ".toList) 0) ∧
      r.UtilizationPercent = literalValue (field (Split line ", ".toList) 1) ∧
      r.MemoryUsedMB = literalValue (field (Split line ", ".toList) 2) ∧
      r.MemoryTotalMB = literalValue (field (Split line ", ".toList) 3) ∧
      r.TemperatureCelsius = literalValue (field (Split line ", ".toList) 4) := by
  have hne : line ≠ [] := line_ne_nil_of_fields line (by omega)
  have hat : ∀ i, i < 5 → Atoi (TrimSpace (field (Split line ", ".toList) i)) =
      some (literalValue (field (Split line ", ".toList) i)) := by
    intro i hi
    rw [isIntLiteral_trim _ (hlit i hi)]
    exact Atoi_literal _ (hlit i hi) (hrange i hi)
  rw [parseLine_eq, if_neg hne, if_neg (by omega), hat 0 (by omega)]
  refine ⟨_, rfl, ?_⟩
  generalize Split line ", ".toList = fs at *
  have ht : (parseTemperature fs (parseRequired fs
      { GPUMetric.zero with Index := literalValue (field fs 0) })).TemperatureCelsius =
      literalValue (field fs 4) := by
    have h4 : field fs 4 ≠ "N/A".toList := by
      intro h
      have := hlit 4 (by omega)
      rw [h] at this
      exact absurd this (by decide)
    have h4' : TrimSpace (field fs 4) ≠ [] := by
      rw [isIntLiteral_trim _ (hlit 4 (by omega))]
      intro h
      have := hlit 4 (by omega)
      rw [h] at this
      exact absurd this (by decide)
    unfold parseTemperature
    rw [if_pos ⟨by omega, h4, h4'⟩, hat 4 (by omega)]
  have hp := parsePower_fields fs (parseTemperature fs (parseRequired fs
      { GPUMetric.zero with Index := literalValue (field fs 0) }))
  have hT := parseTemperature_fields fs (parseRequired fs
      { GPUMetric.zero with Index := literalValue (field fs 0) })
  have hR := parseRequired_fields fs { GPUMetric.zero with Index := literalValue (field fs 0) }
  have hV := parseRequired_values fs { GPUMetric.zero with Index := literalValue (field fs 0) }
  rw [hat 1 (by omega), hat 2 (by omega), hat 3 (by omega)] at hV
  simp only [Option.map_some']
  refine ⟨?_, ?_, ?_, ?_, ?_⟩
  · rw [hp.1, hT.1, hR.1]
  · rw [hp.2.1, hT.2.1, hV.1]; rfl
  · rw [hp.2.2.1, hT.2.2.1, hV.2.1]; rfl
  · rw [hp.2.2.2.1, hT.2.2.2.1, hV.2.2]; rfl
  · rw [hp.2.2.2.2, ht]

/-- C2, instance: `"0, 250, 2048, 8192, 65, 120.5"` gives index 0, utilization 250 (out of
the 0-100 range, unchanged), memory 2048/8192 and temperature 65. -/
theorem parseLine_integer_literals_witness :
    ∃ r, parseLine "0, 250, 2048, 8192, 65, 120.5".toList = some r ∧
      r.Index = 0 ∧ r.UtilizationPercent = 250 ∧ r.MemoryUsedMB = 2048 ∧
      r.MemoryTotalMB = 8192 ∧ r.TemperatureCelsius = 65 := by
  obtain ⟨r, hr, h0, h1, h2, h3, h4⟩ :=
    parseLine_integer_literals "0, 250, 2048, 8192, 65, 120.5".toList (by decide) (by decide)
      (by decide)
  exact ⟨r, hr, h0.trans (by decide), h1.trans (by decide), h2.trans (by decide),
    h3.trans (by decide), h4.trans (by decide)⟩

/-- C2 as stated fails: in `"0, 99999999999999999999, 2048, 8192, 65"` the five fields are
integer literals, yet the record's utilization is 0, not 99999999999999999999, because
`strconv.Atoi` reports a range error for a literal outside the 64-bit range. -/
theorem parseLine_integer_literals_counterexample :
    5 ≤ (Split "0, 99999999999999999999, 2048, 8192, 65".toList ", ".toList).length ∧
    (∀ i, i < 5 → isIntLiteral
      (field (Split "0, 99999999999999999999, 2048, 8192, 65".toList ", ".toList) i) = true) ∧
    parseLine "0, 99999999999999999999, 2048, 8192, 65".toList =
      some { Index := 0, UtilizationPercent := 0, MemoryUsedMB := 2048, MemoryTotalMB := 8192,
             TemperatureCelsius := 65, PowerDrawWatts := 0 } ∧
    literalValue (field (Split "0, 99999999999999999999, 2048, 8192, 65".toList ", ".toList) 1) =
      99999999999999999999 := by
  refine ⟨by decide, by decide, by decide, by decide⟩

end Collector

namespace Collector
open strconv strings

theorem parseTemperature_value (fs : List (List Char)) (m : GPUMetric) :
    (parseTemperature fs m).TemperatureCelsius =
      if fs.length > 4 ∧ field fs 4 ≠ "N/A".toList ∧ TrimSpace (field fs 4) ≠ [] then
        (Atoi (TrimSpace (field fs 4))).getD m.TemperatureCelsius
      else m.TemperatureCelsius := by
  unfold parseTemperature
  split
  · cases Atoi (TrimSpace (field fs 4)) <;> rfl
  · rfl

theorem parsePower_value (fs : List (List Char)) (m : GPUMetric) :
    (parsePower fs m).PowerDrawWatts =
      if fs.length > 5 ∧ field fs 5 ≠ "N/A".toList ∧ TrimSpace (field fs 5) ≠ [] then
        ((ParseFloat (TrimSpace (field fs 5))).map intOfFloat64).getD m.PowerDrawWatts
      else m.PowerDrawWatts := by
  unfold parsePower
  split
  · rename_i h
    simp only [if_pos h.2.2]
    cases ParseFloat (TrimSpace (field fs 5)) <;> rfl
  · rfl

/-- Every field of the record of an accepted line, in terms of the fields of the line. -/
theorem parseLine_record (line : List Char) (index : Int)
    (h4 : 4 ≤ (Split line ", ".toList).length)
    (hidx : Atoi (TrimSpace (field (Split line ", ".toList) 0)) = some index) :
    ∃ r, parseLine line = some r ∧ r.Index = index ∧
      r.UtilizationPercent = (Atoi (TrimSpace (field (Split line ", ".toList) 1))).getD 0 ∧
      r.MemoryUsedMB = (Atoi (TrimSpace (field (Split line ", ".toList) 2))).getD 0 ∧
      r.MemoryTotalMB = (Atoi (TrimSpace (field (Split line ", ".toList) 3))).getD 0 ∧
      r.TemperatureCelsius =
        (if (Split line ", ".toList).length > 4 ∧ field (Split line ", ".toList) 4 ≠ "N/A".toList ∧
            TrimSpace (field (Split line ", ".toList) 4) ≠ [] then
          (Atoi (TrimSpace (field (Split line ", ".toList) 4))).getD 0
        else 0) ∧
      r.PowerDrawWatts =
        (if (Split line ", ".toList).length > 5 ∧ field (Split line ", ".toList) 5 ≠ "N/A".toList ∧
            TrimSpace (field (Split line ", ".toList) 5) ≠ [] then
          ((ParseFloat (TrimSpace (field (Split line ", ".toList) 5))).map intOfFloat64).getD 0
        else 0) := by
  have hne : line ≠ [] := line_ne_nil_of_fields line (by omega)
  rw [parseLine_eq, if_neg hne, if_neg (by omega), hidx]
  refine ⟨_, rfl, ?_⟩
  generalize Split line ", ".toList = fs at *
  have hp := parsePower_fields fs (parseTemperature fs (parseRequired fs
      { GPUMetric.zero with Index := index }))
  have hT := parseTemperature_fields fs (parseRequired fs { GPUMetric.zero with Index := index })
  have hR := parseRequired_fields fs { GPUMetric.zero with Index := index }
  have hV := parseRequired_values fs { GPUMetric.zero with Index := index }
  refine ⟨?_, ?_, ?_, ?_, ?_, ?_⟩
  · rw [hp.1, hT.1, hR.1]
  · rw [hp.2.1, hT.2.1, hV.1]; rfl
  · rw [hp.2.2.1, hT.2.2.1, hV.2.1]; rfl
  · rw [hp.2.2.2.1, hT.2.2.2.1, hV.2.2]; rfl
  · rw [hp.2.2.2.2, parseTemperature_value, hR.2.1]; rfl
  · rw [parsePower_value, hT.2.2.2.2, hR.2.2]; rfl

end Collector

namespace Collector
open strconv strings

theorem field_set_ne (fs : List (List Char)) (k j : Nat) (x : List Char) (h : k ≠ j) :
    field (fs.set k x) j = field fs j := by
  simp [field, List.getD_eq_getElem?_getD, List.getElem?_set, h]

/-- C3: for a line with at least 4 fields, the line is skipped exactly when its index does
not parse; when the index parses, a utilization, memory-used or memory-total field that
does not parse leaves that field of the record at 0, and replacing the text of one of these
three fields by any other text changes no other field of the record. -/
theorem parseLine_lenient_required_fields (line : List Char)
    (h4 : 4 ≤ (Split line ", ".toList).length) :
    (parseLine line = none ↔ Atoi (TrimSpace (field (Split line ", ".toList) 0)) = none) ∧
    ∀ index, Atoi (TrimSpace (field (Split line ", ".toList) 0)) = some index →
      ∃ r, parseLine line = some r ∧ r.Index = index ∧
        (Atoi (TrimSpace (field (Split line ", ".toList) 1)) = none →
          r.UtilizationPercent = 0) ∧
        (Atoi (TrimSpace (field (Split line ", ".toList) 2)) = none → r.MemoryUsedMB = 0) ∧
        (Atoi (TrimSpace (field (Split line ", ".toList) 3)) = none → r.MemoryTotalMB = 0) ∧
        ∀ k x line1, (k = 1 ∨ k = 2 ∨ k = 3) →
          Split line1 ", ".toList = (Split line ", ".toList).set k x →
          ∃ r1, parseLine line1 = some r1 ∧ r1.Index = r.Index ∧
            (k ≠ 1 → r1.UtilizationPercent = r.UtilizationPercent) ∧
            (k ≠ 2 → r1.MemoryUsedMB = r.MemoryUsedMB) ∧
            (k ≠ 3 → r1.MemoryTotalMB = r.MemoryTotalMB) ∧
            r1.TemperatureCelsius = r.TemperatureCelsius ∧
            r1.PowerDrawWatts = r.PowerDrawWatts := by
  constructor
  · constructor
    · intro h
      cases hi : Atoi (TrimSpace (field (Split line ", ".toList) 0)) with
      | none => rfl
      | some index =>
        obtain ⟨r, hr, _⟩ := parseLine_record line index h4 hi
        rw [hr] at h
        exact absurd h (by simp)
    · intro h
      rw [parseLine_eq, h]
      simp
  · intro index hidx
    obtain ⟨r, hr, h0, h1, h2, h3, h4t, h5p⟩ := parseLine_record line index h4 hidx
    refine ⟨r, hr, h0, ?_, ?_, ?_, ?_⟩
    · intro h; rw [h1, h]; rfl
    · intro h; rw [h2, h]; rfl
    · intro h; rw [h3, h]; rfl
    · intro k x line1 hk hsplit
      have hlen : 4 ≤ (Split line1 ", ".toList).length := by
        rw [hsplit, List.length_set]; exact h4
      have hidx1 : Atoi (TrimSpace (field (Split line1 ", ".toList) 0)) = some index := by
        rw [hsplit, field_set_ne _ _ _ _ (by omega)]; exact hidx
      obtain ⟨r1, hr1, g0, g1, g2, g3, g4, g5⟩ := parseLine_record line1 index hlen hidx1
      refine ⟨r1, hr1, by rw [g0, h0], ?_, ?_, ?_, ?_, ?_⟩
      · intro hk1
        rw [g1, h1, hsplit, field_set_ne _ _ _ _ hk1]
      · intro hk2
        rw [g2, h2, hsplit, field_set_ne _ _ _ _ hk2]
      · intro hk3
        rw [g3, h3, hsplit, field_set_ne _ _ _ _ hk3]
      · rw [g4, h4t, hsplit, field_set_ne _ _ _ _ (by omega), List.length_set]
      · rw [g5, h5p, hsplit, field_set_ne _ _ _ _ (by omega), List.length_set]

/-- C3, instance: in `"3, x, 2048, 8192, 65, 120.5"` the utilization does not parse; the line
is kept, utilization is 0, and the line `"3, 45, 2048, 8192, 65, 120.5"`, in which it parses,
gives the same index, memory, temperature and power. -/
theorem parseLine_lenient_required_fields_witness :
    parseLine "3, x, 2048, 8192, 65, 120.5".toList ≠ none ∧
    ∃ r, parseLine "3, x, 2048, 8192, 65, 120.5".toList = some r ∧ r.Index = 3 ∧
      r.UtilizationPercent = 0 ∧
      ∃ r1, parseLine "3, 45, 2048, 8192, 65, 120.5".toList = some r1 ∧ r1.Index = r.Index ∧
        r1.MemoryUsedMB = r.MemoryUsedMB ∧ r1.MemoryTotalMB = r.MemoryTotalMB ∧
        r1.TemperatureCelsius = r.TemperatureCelsius ∧ r1.PowerDrawWatts = r.PowerDrawWatts := by
  have h := parseLine_lenient_required_fields "3, x, 2048, 8192, 65, 120.5".toList (by decide)
  refine ⟨fun hn => absurd (h.1.1 hn) (by decide), ?_⟩
  obtain ⟨r, hr, h0, h1, _, _, hrep⟩ := h.2 3 (by decide)
  obtain ⟨r1, hr1, g0, _, g2, g3, g4, g5⟩ :=
    hrep 1 "45".toList "3, 45, 2048, 8192, 65, 120.5".toList (by decide) (by decide)
  exact ⟨r, hr, h0, h1 (by decide), r1, hr1, g0, g2 (by decide), g3 (by decide), g4, g5⟩

end Collector

namespace Collector
open strconv strings

/-- An accepted line has at least 4 fields and an index that parses. -/
theorem parseLine_some (line : List Char) (r : GPUMetric) (h : parseLine line = some r) :
    4 ≤ (Split line ", ".toList).length ∧
    ∃ index, Atoi (TrimSpace (field (Split line ", ".toList) 0)) = some index := by
  rw [parseLine_eq] at h
  split at h
  · exact absurd h (by simp)
  · split at h
    · exact absurd h (by simp)
    · refine ⟨by omega, ?_⟩
      cases hi : Atoi (TrimSpace (field (Split line ", ".toList) 0)) with
      | none => rw [hi] at h; exact absurd h (by simp)
      | some index => exact ⟨index, rfl⟩

/-- C4: in the record of an accepted line, the temperature is 0 when the line has fewer
than 5 fields or its fifth field trims to `N/A` or to the empty string, and the power is 0
when the line has fewer than 6 fields or its sixth field trims to `N/A` or to the empty
string. -/
theorem parseLine_absent_optional_fields (line : List Char) (r : GPUMetric)
    (h : parseLine line = some r) :
    (((Split line ", ".toList).length < 5 ∨
        TrimSpace (field (Split line ", ".toList) 4) = "N/A".toList ∨
        TrimSpace (field (Split line ", ".toList) 4) = []) → r.TemperatureCelsius = 0) ∧
    (((Split line ", ".toList).length < 6 ∨
        TrimSpace (field (Split line ", ".toList) 5) = "N/A".toList ∨
        TrimSpace (field (Split line ", ".toList) 5) = []) → r.PowerDrawWatts = 0) := by
  obtain ⟨h4, index, hidx⟩ := parseLine_some line r h
  obtain ⟨r1, hr1, _, _, _, _, ht, hp⟩ := parseLine_record line index h4 hidx
  rw [h] at hr1
  cases hr1
  constructor
  · intro hc
    rw [ht]
    split
    · rename_i hg
      rcases hc with hc | hc | hc
      · omega
      · rw [hc]; decide
      · exact absurd hc hg.2.2
    · rfl
  · intro hc
    rw [hp]
    split
    · rename_i hg
      rcases hc with hc | hc | hc
      · omega
      · rw [hc]; decide
      · exact absurd hc hg.2.2
    · rfl

/-- C4, instance: `"1, 10, 100, 200, N/A, N/A"` gives temperature 0 and power 0. -/
theorem parseLine_absent_optional_fields_witness :
    ∃ r, parseLine "1, 10, 100, 200, N/A, N/A".toList = some r ∧
      r.TemperatureCelsius = 0 ∧ r.PowerDrawWatts = 0 :=
  ⟨{ Index := 1, UtilizationPercent := 10, MemoryUsedMB := 100, MemoryTotalMB := 200,
     TemperatureCelsius := 0, PowerDrawWatts := 0 }, by decide,
   (parseLine_absent_optional_fields "1, 10, 100, 200, N/A, N/A".toList _ (by decide)).1
     (Or.inr (Or.inl (by decide))),
   (parseLine_absent_optional_fields "1, 10, 100, 200, N/A, N/A".toList _ (by decide)).2
     (Or.inr (Or.inl (by decide)))⟩

end Collector

namespace Server

theorem toUnsigned_8 (x : Int) : ((toUnsigned 8 x : Nat) : Int) = x % 2 ^ 8 := by
  cases x with
  | ofNat n => simp only [toUnsigned, Int.ofNat_eq_coe]; omega
  | negSucc n => simp only [toUnsigned, Int.negSucc_eq]; omega

theorem toUnsigned_16 (x : Int) : ((toUnsigned 16 x : Nat) : Int) = x % 2 ^ 16 := by
  cases x with
  | ofNat n => simp only [toUnsigned, Int.ofNat_eq_coe]; omega
  | negSucc n => simp only [toUnsigned, Int.negSucc_eq]; omega

theorem toUnsigned_32 (x : Int) : ((toUnsigned 32 x : Nat) : Int) = x % 2 ^ 32 := by
  cases x with
  | ofNat n => simp only [toUnsigned, Int.ofNat_eq_coe]; omega
  | negSucc n => simp only [toUnsigned, Int.negSucc_eq]; omega

end Server

namespace Server

theorem lookupKeys_append (a b : List DBCall) :
    lookupKeys (a ++ b) = lookupKeys a ++ lookupKeys b := by
  induction a with
  | nil => rfl
  | cons c cs ih => cases c <;> simp [lookupKeys, ih]

theorem batchCalls_append (a b : List DBCall) :
    batchCalls (a ++ b) = batchCalls a ++ batchCalls b := by
  induction a with
  | nil => rfl
  | cons c cs ih => cases c <;> simp [batchCalls, ih]

theorem lookupKeys_map_append (rows : List Row) : lookupKeys (rows.map DBCall.append) = [] := by
  induction rows with
  | nil => rfl
  | cons r rs ih => simp [lookupKeys, ih]

/-- What the append loop does: it never touches the committed rows, it logs one `Append`
per record up to and including the first that fails, and it returns the batch extended by
all the rows exactly when no append fails. -/
theorem appendLoop_spec (db : Driver) (inst : List Char) (ts : Time) (gpus : List GPUMetric) :
    ∀ (batch : List Row) (st : Store),
      (appendLoop db inst ts gpus batch st).2.rows = st.rows ∧
      ∃ k, k ≤ gpus.length ∧
        (appendLoop db inst ts gpus batch st).2.calls =
          st.calls ++ ((gpus.take k).map (rowOf inst ts)).map DBCall.append ∧
        (((appendLoop db inst ts gpus batch st).1 = some (batch ++ gpus.map (rowOf inst ts)) ∧
            k = gpus.length ∧
            ∀ pre g post, gpus = pre ++ g :: post →
              db.appendFails (batch ++ pre.map (rowOf inst ts)) (rowOf inst ts g) = false) ∨
         ((appendLoop db inst ts gpus batch st).1 = none ∧
            ∃ pre g post, gpus = pre ++ g :: post ∧
              db.appendFails (batch ++ pre.map (rowOf inst ts)) (rowOf inst ts g) = true)) := by
  induction gpus with
  | nil =>
    intro batch st
    refine ⟨rfl, 0, le_refl _, by simp [appendLoop], Or.inl ⟨by simp [appendLoop], rfl, ?_⟩⟩
    intro pre g post h
    exact absurd h (by simp)
  | cons g rest ih =>
    intro batch st
    by_cases hf : db.appendFails batch (rowOf inst ts g) = true
    · have hres : appendLoop db inst ts (g :: rest) batch st =
          (none, st.log (DBCall.append (rowOf inst ts g))) := by
        simp [appendLoop, hf]
      rw [hres]
      refine ⟨rfl, 1, by simp, by simp [Store.log], Or.inr ⟨rfl, [], g, rest, rfl, by simpa using hf⟩⟩
    · have hf' : db.appendFails batch (rowOf inst ts g) = false := by simpa using hf
      have hres : appendLoop db inst ts (g :: rest) batch st =
          appendLoop db inst ts rest (batch ++ [rowOf inst ts g])
            (st.log (DBCall.append (rowOf inst ts g))) := by
        simp [appendLoop, hf']
      rw [hres]
      obtain ⟨hrows, k, hk, hcalls, hcase⟩ :=
        ih (batch ++ [rowOf inst ts g]) (st.log (DBCall.append (rowOf inst ts g)))
      refine ⟨by rw [hrows]; rfl, k + 1, by simpa using hk, ?_, ?_⟩
      · rw [hcalls]; simp [Store.log]
      · rcases hcase with ⟨h1, h2, h3⟩ | ⟨h1, pre, g1, post, h2, h3⟩
        · refine Or.inl ⟨by rw [h1]; simp, by simp [h2], ?_⟩
          intro pre g1 post hsplit
          cases pre with
          | nil =>
            simp only [List.nil_append, List.cons.injEq] at hsplit
            rw [← hsplit.1]
            simpa using hf'
          | cons p pre1 =>
            simp only [List.cons_append, List.cons.injEq] at hsplit
            have := h3 pre1 g1 post hsplit.2
            rw [← hsplit.1]
            simpa using this
        · refine Or.inr ⟨h1, g :: pre, g1, post, by rw [h2]; rfl, ?_⟩
          simpa using h3

end Server

namespace Server

/-- C9: `insertMetrics` prepares one batch, appends one row per record in order and ends
with a single `Send`: a successful call commits exactly the `N` rows of the `N` records; when
preparing the batch or an append fails it returns an error, `Send` is not called and no row
is committed; any error leaves the committed rows as they were; and with no record it
appends nothing, still calls `Send`, and fails only if `Send` does. -/
theorem insertMetrics_single_batch (db : Driver) (st : Store) (inst : List Char) (ts : Time)
    (gpus : List GPUMetric) :
    ((insertMetrics db st inst ts gpus).1 = none →
      (insertMetrics db st inst ts gpus).2.calls =
        st.calls ++ DBCall.prepareBatch ::
          ((gpus.map (rowOf inst ts)).map DBCall.append ++ [DBCall.send]) ∧
      (insertMetrics db st inst ts gpus).2.rows = st.rows ++ gpus.map (rowOf inst ts) ∧
      (insertMetrics db st inst ts gpus).2.rows.length = st.rows.length + gpus.length) ∧
    ((db.prepareFails = true ∨ ∃ pre g post, gpus = pre ++ g :: post ∧
        db.appendFails (pre.map (rowOf inst ts)) (rowOf inst ts g) = true) →
      (insertMetrics db st inst ts gpus).1 ≠ none ∧
      (insertMetrics db st inst ts gpus).2.rows = st.rows ∧
      ∃ k, k ≤ gpus.length ∧ (insertMetrics db st inst ts gpus).2.calls =
        st.calls ++ DBCall.prepareBatch :: ((gpus.take k).map (rowOf inst ts)).map DBCall.append) ∧
    ((insertMetrics db st inst ts gpus).1 ≠ none →
      (insertMetrics db st inst ts gpus).2.rows = st.rows) ∧
    (gpus = [] → db.prepareFails = false →
      (insertMetrics db st inst ts gpus).2.calls =
        st.calls ++ [DBCall.prepareBatch, DBCall.send] ∧
      ((insertMetrics db st inst ts gpus).1 = none ↔ db.sendFails [] = false)) ∧
    (db.prepareFails = false →
      (∀ pre g post, gpus = pre ++ g :: post →
        db.appendFails (pre.map (rowOf inst ts)) (rowOf inst ts g) = false) →
      db.sendFails (gpus.map (rowOf inst ts)) = false →
      (insertMetrics db st inst ts gpus).1 = none) := by
  by_cases hp : db.prepareFails = true
  · have hres : insertMetrics db st inst ts gpus =
        (some "failed to prepare batch", st.log DBCall.prepareBatch) := by
      simp [insertMetrics, hp]
    rw [hres]
    refine ⟨fun h => absurd h (by simp), fun _ => ⟨by simp, rfl, 0, by simp, by simp [Store.log]⟩,
      fun _ => rfl, fun _ h => absurd hp (by simp [h]), fun h => absurd hp (by simp [h])⟩
  · have hp' : db.prepareFails = false := by simpa using hp
    obtain ⟨hrows, k, hk, hcalls, hcase⟩ :=
      appendLoop_spec db inst ts gpus [] (st.log DBCall.prepareBatch)
    have hunf : insertMetrics db st inst ts gpus =
        match appendLoop db inst ts gpus [] (st.log DBCall.prepareBatch) with
        | (none, st2) => (some "failed to append to batch", st2)
        | (some batch, st2) =>
          if db.sendFails batch then (some "send failed", st2.log DBCall.send)
          else (none, { st2.log DBCall.send with rows := (st2.log DBCall.send).rows ++ batch }) := by
      unfold insertMetrics
      simp only [hp', Bool.false_eq_true, if_false]
    rw [hunf]
    generalize appendLoop db inst ts gpus [] (st.log DBCall.prepareBatch) = res at *
    obtain ⟨r1, st2⟩ := res
    simp only at hrows hcalls hcase
    have hrows' : st2.rows = st.rows := hrows
    rcases hcase with ⟨h1, h2, h3⟩ | ⟨h1, pre, g, post, h2, h3⟩
    · simp only [List.nil_append] at h1 h3
      subst h1
      have hcalls' : st2.calls =
          st.calls ++ DBCall.prepareBatch :: (gpus.map (rowOf inst ts)).map DBCall.append := by
        rw [hcalls, h2]; simp [Store.log]
      by_cases hs : db.sendFails (gpus.map (rowOf inst ts)) = true
      · simp only [hs, if_true]
        refine ⟨fun h => absurd h (by simp), ?_, fun _ => hrows', ?_, ?_⟩
        · rintro (h | ⟨pre, g, post, hg, hf⟩)
          · exact absurd h hp
          · rw [h3 pre g post hg] at hf
            exact absurd hf (by simp)
        · intro hg _
          subst hg
          refine ⟨by simp [Store.log, hcalls'], ?_⟩
          simp only [List.map_nil] at hs
          simp [hs]
        · intro _ _ hs'
          exact absurd hs' (by simp)
      · have hs' : db.sendFails (gpus.map (rowOf inst ts)) = false := by simpa using hs
        simp only [hs', Bool.false_eq_true, if_false]
        refine ⟨fun _ => ⟨?_, ?_, ?_⟩, ?_, fun h => absurd rfl h, ?_, ?_⟩
        · simp [Store.log, hcalls']
        · simp [Store.log, hrows']
        · simp [Store.log, hrows']
        · rintro (h | ⟨pre, g, post, hg, hf⟩)
          · exact absurd h hp
          · rw [h3 pre g post hg] at hf
            exact absurd hf (by simp)
        · intro hg _
          subst hg
          refine ⟨by simp [Store.log, hcalls'], ?_⟩
          simp only [List.map_nil] at hs'
          simp [hs']
        · intros
          trivial
    · simp only [List.nil_append] at h3
      subst h1
      refine ⟨fun h => absurd h (by simp), fun _ => ⟨by simp, hrows', k, hk, ?_⟩, fun _ => hrows',
        ?_, ?_⟩
      · rw [hcalls]; simp [Store.log]
      · intro hg _
        subst hg
        exact absurd h2 (by simp)
      · intro _ hall _
        rw [hall pre g post h2] at h3
        exact absurd h3 (by simp)

/-- C9, instance: two records on a driver that reports no failure: one `PrepareBatch`, two
`Append`, one `Send`, and two rows committed. -/
theorem insertMetrics_single_batch_witness :
    (insertMetrics okDriver { calls := [], rows := [] } "inst-1".toList
        { sec := 1, nsec := 0 } twoRecords).2.calls =
      [] ++ DBCall.prepareBatch ::
        ((twoRecords.map (rowOf "inst-1".toList { sec := 1, nsec := 0 })).map DBCall.append ++
          [DBCall.send]) ∧
    (insertMetrics okDriver { calls := [], rows := [] } "inst-1".toList
        { sec := 1, nsec := 0 } twoRecords).2.rows =
      [] ++ twoRecords.map (rowOf "inst-1".toList { sec := 1, nsec := 0 }) ∧
    (insertMetrics okDriver { calls := [], rows := [] } "inst-1".toList
        { sec := 1, nsec := 0 } twoRecords).2.rows.length = 0 + 2 :=
  (insertMetrics_single_batch okDriver { calls := [], rows := [] } "inst-1".toList
    { sec := 1, nsec := 0 } twoRecords).1 (by decide)

end Server

namespace Server

/-- On a driver whose `Append` never fails the loop appends the row of every record. -/
theorem appendLoop_ok (db : Driver) (inst : List Char) (ts : Time)
    (hok : ∀ b r, db.appendFails b r = false) (gpus : List GPUMetric) :
    ∀ (batch : List Row) (st : Store),
      appendLoop db inst ts gpus batch st =
        (some (batch ++ gpus.map (rowOf inst ts)),
          { st with calls := st.calls ++ (gpus.map (rowOf inst ts)).map DBCall.append }) := by
  induction gpus with
  | nil => intro batch st; simp [appendLoop]
  | cons g rest ih =>
    intro batch st
    simp [appendLoop, hok, ih, Store.log]

/-- C10: the row appended for a record holds its index, utilization and temperature modulo
`2^8`, its memory values modulo `2^32` and its power modulo `2^16` (the two's complement
wrap of the conversions); a value inside the column range is stored unchanged; and no
record is rejected for its values: when the driver reports no failure the call succeeds and
commits the row of every record. -/
theorem insertMetrics_rows_wrap (inst : List Char) (ts : Time) (gpu : GPUMetric) :
    (((rowOf inst ts gpu).gpu_index : Int) = gpu.Index % 2 ^ 8 ∧
      ((rowOf inst ts gpu).gpu_utilization_percent : Int) = gpu.UtilizationPercent % 2 ^ 8 ∧
      ((rowOf inst ts gpu).gpu_memory_used_mb : Int) = gpu.MemoryUsedMB % 2 ^ 32 ∧
      ((rowOf inst ts gpu).gpu_memory_total_mb : Int) = gpu.MemoryTotalMB % 2 ^ 32 ∧
      ((rowOf inst ts gpu).temperature_celsius : Int) = gpu.TemperatureCelsius % 2 ^ 8 ∧
      ((rowOf inst ts gpu).power_draw_watts : Int) = gpu.PowerDrawWatts % 2 ^ 16) ∧
    ((0 ≤ gpu.Index ∧ gpu.Index < 2 ^ 8 → ((rowOf inst ts gpu).gpu_index : Int) = gpu.Index) ∧
      (0 ≤ gpu.UtilizationPercent ∧ gpu.UtilizationPercent < 2 ^ 8 →
        ((rowOf inst ts gpu).gpu_utilization_percent : Int) = gpu.UtilizationPercent) ∧
      (0 ≤ gpu.MemoryUsedMB ∧ gpu.MemoryUsedMB < 2 ^ 32 →
        ((rowOf inst ts gpu).gpu_memory_used_mb : Int) = gpu.MemoryUsedMB) ∧
      (0 ≤ gpu.MemoryTotalMB ∧ gpu.MemoryTotalMB < 2 ^ 32 →
        ((rowOf inst ts gpu).gpu_memory_total_mb : Int) = gpu.MemoryTotalMB) ∧
      (0 ≤ gpu.TemperatureCelsius ∧ gpu.TemperatureCelsius < 2 ^ 8 →
        ((rowOf inst ts gpu).temperature_celsius : Int) = gpu.TemperatureCelsius) ∧
      (0 ≤ gpu.PowerDrawWatts ∧ gpu.PowerDrawWatts < 2 ^ 16 →
        ((rowOf inst ts gpu).power_draw_watts : Int) = gpu.PowerDrawWatts)) ∧
    (∀ (db : Driver) (st : Store) (gpus : List GPUMetric), db.prepareFails = false →
      (∀ b r, db.appendFails b r = false) → (∀ b, db.sendFails b = false) →
      (insertMetrics db st inst ts gpus).1 = none ∧
      (insertMetrics db st inst ts gpus).2.rows = st.rows ++ gpus.map (rowOf inst ts)) := by
  have h8 := toUnsigned_8
  have h16 := toUnsigned_16
  have h32 := toUnsigned_32
  refine ⟨⟨h8 _, h8 _, h32 _, h32 _, h8 _, h16 _⟩, ⟨?_, ?_, ?_, ?_, ?_, ?_⟩, ?_⟩
  · intro h
    have := h8 gpu.Index
    simp only [rowOf, uint8]
    omega
  · intro h
    have := h8 gpu.UtilizationPercent
    simp only [rowOf, uint8]
    omega
  · intro h
    have := h32 gpu.MemoryUsedMB
    simp only [rowOf, uint32]
    omega
  · intro h
    have := h32 gpu.MemoryTotalMB
    simp only [rowOf, uint32]
    omega
  · intro h
    have := h8 gpu.TemperatureCelsius
    simp only [rowOf, uint8]
    omega
  · intro h
    have := h16 gpu.PowerDrawWatts
    simp only [rowOf, uint16]
    omega
  · intro db st gpus hp ha hs
    unfold insertMetrics
    simp only [hp, Bool.false_eq_true, if_false]
    rw [appendLoop_ok db inst ts ha gpus [] (st.log DBCall.prepareBatch)]
    simp [hs, Store.log]

/-- C10, instance: the record with index 256, utilization -1, memory used 4294967297,
temperature 300 and power 65536 is stored as 0, 255, 1, 44 and 0, next to an in-range record
stored unchanged. -/
theorem insertMetrics_rows_wrap_witness :
    (insertMetrics okDriver { calls := [], rows := [] } "inst-1".toList
        { sec := 1, nsec := 0 } twoRecords).1 = none ∧
    (insertMetrics okDriver { calls := [], rows := [] } "inst-1".toList
        { sec := 1, nsec := 0 } twoRecords).2.rows =
      [{ timestamp := { sec := 1, nsec := 0 }, instance_id := "inst-1".toList, gpu_index := 0,
         gpu_utilization_percent := 45, gpu_memory_used_mb := 2048, gpu_memory_total_mb := 8192,
         temperature_celsius := 65, power_draw_watts := 120 },
       { timestamp := { sec := 1, nsec := 0 }, instance_id := "inst-1".toList, gpu_index := 0,
         gpu_utilization_percent := 255, gpu_memory_used_mb := 1, gpu_memory_total_mb := 8192,
         temperature_celsius := 44, power_draw_watts := 0 }] := by
  have h := (insertMetrics_rows_wrap "inst-1".toList { sec := 1, nsec := 0 }
    GPUMetric.zero).2.2 okDriver { calls := [], rows := [] } twoRecords rfl
    (fun _ _ => rfl) (fun _ => rfl)
  exact ⟨h.1, h.2.trans (by decide)⟩

end Server

namespace Server

/-- The header test of `handleMetrics` passes exactly for `Bearer ` followed by a non-empty
token. -/
theorem bearer_iff (h : List Char) :
    (h ≠ [] ∧ h.length > 7 ∧ h.take 7 = "Bearer ".toList) ↔
      ∃ token, token ≠ [] ∧ h = "Bearer ".toList ++ token := by
  constructor
  · rintro ⟨_, hlen, htake⟩
    refine ⟨h.drop 7, ?_, ?_⟩
    · intro hd
      have := List.length_drop 7 h
      rw [hd] at this
      simp at this
      omega
    · rw [← htake, List.take_append_drop]
  · rintro ⟨token, hne, rfl⟩
    have hl : 0 < token.length := List.length_pos.2 hne
    refine ⟨by simp, ?_, ?_⟩
    · simp only [List.length_append]
      have : "Bearer ".toList.length = 7 := by decide
      omega
    · have : "Bearer ".toList.length = 7 := by decide
      rw [List.take_append_of_le_length (by omega), ← this, List.take_length]

/-- A request without a well-formed bearer header is answered 401 and nothing else happens. -/
theorem handleMetrics_malformed (env : Env) (st : Store) (r : Request)
    (h : ¬ ∃ token, token ≠ [] ∧ r.headerGet = "Bearer ".toList ++ token) :
    (handleMetrics env st r).1.status = 401 ∧ (handleMetrics env st r).2 = st := by
  unfold handleMetrics
  simp only
  by_cases h1 : r.headerGet = []
  · simp [h1, httpError]
  · by_cases h2 : r.headerGet.length > 7 ∧ r.headerGet.take 7 = "Bearer ".toList
    · exact absurd ((bearer_iff _).1 ⟨h1, h2⟩) h
    · rw [if_neg h1, if_neg h2]
      simp [httpError]

/-- The steps of `handleMetrics` after a well-formed bearer header. -/
theorem handleMetrics_bearer (env : Env) (st : Store) (r : Request) (token : List Char)
    (hne : token ≠ []) (h : r.headerGet = "Bearer ".toList ++ token) :
    handleMetrics env st r =
      match env.db.queryRow token with
      | none => (httpError "Unauthorized" 401, st.log (DBCall.queryRow token))
      | some instanceID =>
        match env.jsonDecode r.body with
        | none => (httpError "Invalid JSON payload" 400, st.log (DBCall.queryRow token))
        | some payload =>
          if payload.InstanceID ≠ instanceID then
            (httpError "Instance ID mismatch" 403, st.log (DBCall.queryRow token))
          else
            match insertMetrics env.db (st.log (DBCall.queryRow token)) instanceID
                (if payload.Timestamp.IsZero then env.now else payload.Timestamp)
                payload.GPUs with
            | (some _, st2) => (httpError "Failed to store metrics" 500, st2)
            | (none, st2) =>
              ({ status := 200, body := Body.json [("status", "success")] }, st2) := by
  obtain ⟨h1, h2, h3⟩ := (bearer_iff _).2 ⟨token, hne, h⟩
  have hdrop : r.headerGet.drop 7 = token := by
    rw [h]
    have : "Bearer ".toList.length = 7 := by decide
    rw [← this, List.drop_left]
  unfold handleMetrics
  simp only
  rw [if_neg h1, if_pos ⟨h2, h3⟩, hdrop]
  simp only [authenticateInstance]
  cases env.db.queryRow token <;> rfl

/-- The calls of `insertMetrics` are batch calls added to the log; none is a lookup. -/
theorem insertMetrics_calls (db : Driver) (st : Store) (inst : List Char) (ts : Time)
    (gpus : List GPUMetric) :
    ∃ new, (insertMetrics db st inst ts gpus).2.calls = st.calls ++ new ∧ lookupKeys new = [] := by
  unfold insertMetrics
  simp only
  by_cases hp : db.prepareFails = true
  · simp only [hp, if_true]
    exact ⟨[DBCall.prepareBatch], rfl, rfl⟩
  · simp only [hp, if_false]
    obtain ⟨_, k, _, hcalls, _⟩ := appendLoop_spec db inst ts gpus [] (st.log DBCall.prepareBatch)
    generalize appendLoop db inst ts gpus [] (st.log DBCall.prepareBatch) = res at *
    obtain ⟨r1, st2⟩ := res
    simp only at hcalls
    cases r1 with
    | none =>
      refine ⟨DBCall.prepareBatch :: ((gpus.take k).map (rowOf inst ts)).map DBCall.append, ?_, ?_⟩
      · simp [hcalls, Store.log]
      · simp only [lookupKeys]
        exact lookupKeys_map_append _
    | some batch =>
      refine ⟨DBCall.prepareBatch :: ((gpus.take k).map (rowOf inst ts)).map DBCall.append ++
        [DBCall.send], ?_, ?_⟩
      · by_cases hs : db.sendFails batch = true
        · simp [hs, hcalls, Store.log]
        · simp [hs, hcalls, Store.log]
      · show lookupKeys (DBCall.prepareBatch ::
            (((gpus.take k).map (rowOf inst ts)).map DBCall.append ++ [DBCall.send])) = []
        simp only [lookupKeys, lookupKeys_append, lookupKeys_map_append, List.append_nil]

end Server

namespace Server

/-- C6: `handleMetrics` performs the credential lookup exactly when the Authorization value
is `Bearer ` followed by a non-empty token; the single key it then looks up is that token;
for every other value (absent, empty, another prefix, `Bearer ` alone) it answers 401 and
makes no call at all. -/
theorem handleMetrics_lookup_iff_bearer (env : Env) (st : Store) (r : Request) :
    (lookupKeys (handleMetrics env st r).2.calls ≠ lookupKeys st.calls ↔
      ∃ token, token ≠ [] ∧ r.headerGet = "Bearer ".toList ++ token) ∧
    (∀ token, token ≠ [] → r.headerGet = "Bearer ".toList ++ token →
      lookupKeys (handleMetrics env st r).2.calls = lookupKeys st.calls ++ [token]) ∧
    ((¬ ∃ token, token ≠ [] ∧ r.headerGet = "Bearer ".toList ++ token) →
      (handleMetrics env st r).1.status = 401 ∧ (handleMetrics env st r).2 = st) := by
  have hgood : ∀ token, token ≠ [] → r.headerGet = "Bearer ".toList ++ token →
      lookupKeys (handleMetrics env st r).2.calls = lookupKeys st.calls ++ [token] := by
    intro token hne h
    rw [handleMetrics_bearer env st r token hne h]
    have hlog : lookupKeys (st.log (DBCall.queryRow token)).calls =
        lookupKeys st.calls ++ [token] := by
      simp [Store.log, lookupKeys_append, lookupKeys]
    cases env.db.queryRow token with
    | none => exact hlog
    | some inst =>
      cases env.jsonDecode r.body with
      | none => exact hlog
      | some payload =>
        by_cases hm : payload.InstanceID ≠ inst
        · simp only [hm, ne_eq, not_false_eq_true, if_true]
          exact hlog
        · simp only [hm, if_false]
          obtain ⟨new, hcalls, hnew⟩ := insertMetrics_calls env.db (st.log (DBCall.queryRow token))
            inst (if payload.Timestamp.IsZero then env.now else payload.Timestamp) payload.GPUs
          generalize insertMetrics env.db (st.log (DBCall.queryRow token)) inst
            (if payload.Timestamp.IsZero then env.now else payload.Timestamp) payload.GPUs =
            res at *
          obtain ⟨e, st2⟩ := res
          simp only at hcalls
          have : lookupKeys st2.calls = lookupKeys st.calls ++ [token] := by
            rw [hcalls, lookupKeys_append, hnew, hlog, List.append_nil]
          cases e <;> exact this
  refine ⟨⟨?_, ?_⟩, hgood, handleMetrics_malformed env st r⟩
  · intro hne
    by_contra hbad
    rw [(handleMetrics_malformed env st r hbad).2] at hne
    exact hne rfl
  · rintro ⟨token, hne, h⟩
    rw [hgood token hne h]
    intro heq
    have := congrArg List.length heq
    simp at this

/-- C6, instance: the header `Bearer key-1` leads to one lookup, of `key-1`; the header
`bearer key-1` is answered 401 without any call. -/
theorem handleMetrics_lookup_iff_bearer_witness :
    lookupKeys (handleMetrics okEnv { calls := [], rows := [] }
      { authorization := some "Bearer key-1".toList, body := "ok".toList }).2.calls =
        [] ++ ["key-1".toList] ∧
    ((handleMetrics okEnv { calls := [], rows := [] }
        { authorization := some "bearer key-1".toList, body := "ok".toList }).1.status = 401 ∧
      (handleMetrics okEnv { calls := [], rows := [] }
        { authorization := some "bearer key-1".toList, body := "ok".toList }).2 =
        { calls := [], rows := [] }) :=
  ⟨(handleMetrics_lookup_iff_bearer okEnv { calls := [], rows := [] }
      { authorization := some "Bearer key-1".toList, body := "ok".toList }).2.1
      "key-1".toList (by decide) (by decide),
   (handleMetrics_lookup_iff_bearer okEnv { calls := [], rows := [] }
      { authorization := some "bearer key-1".toList, body := "ok".toList }).2.2
      (by
        rintro ⟨token, _, h⟩
        have h0 : some 'b' = some 'B' := congrArg List.head? h
        exact absurd h0 (by decide))⟩

end Server

namespace Server

/-- C7: `handleMetrics` answers with the status of the first failing step, in the order:
header missing or malformed, 401; credential lookup fails, 401; body does not decode, 400;
payload instance differs from the authenticated one, 403; batch write fails, 500; and when
no step fails it answers 200 with the JSON body `status: success`. -/
theorem handleMetrics_first_failing_step (env : Env) (st : Store) (r : Request) :
    ((¬ ∃ token, token ≠ [] ∧ r.headerGet = "Bearer ".toList ++ token) →
      (handleMetrics env st r).1.status = 401) ∧
    (∀ token, token ≠ [] → r.headerGet = "Bearer ".toList ++ token →
      (env.db.queryRow token = none → (handleMetrics env st r).1.status = 401) ∧
      (∀ inst, env.db.queryRow token = some inst →
        (env.jsonDecode r.body = none → (handleMetrics env st r).1.status = 400) ∧
        (∀ payload, env.jsonDecode r.body = some payload →
          (payload.InstanceID ≠ inst → (handleMetrics env st r).1.status = 403) ∧
          (payload.InstanceID = inst →
            ((insertMetrics env.db (st.log (DBCall.queryRow token)) inst
                (if payload.Timestamp.IsZero then env.now else payload.Timestamp)
                payload.GPUs).1 ≠ none →
              (handleMetrics env st r).1.status = 500) ∧
            ((insertMetrics env.db (st.log (DBCall.queryRow token)) inst
                (if payload.Timestamp.IsZero then env.now else payload.Timestamp)
                payload.GPUs).1 = none →
              (handleMetrics env st r).1 =
                { status := 200, body := Body.json [("status", "success")] }))))) := by
  refine ⟨fun h => (handleMetrics_malformed env st r h).1, ?_⟩
  intro token hne h
  rw [handleMetrics_bearer env st r token hne h]
  refine ⟨fun hq => by rw [hq]; rfl, ?_⟩
  intro inst hq
  rw [hq]
  refine ⟨fun hd => by rw [hd]; rfl, ?_⟩
  intro payload hd
  rw [hd]
  refine ⟨fun hm => by simp only [hm, ne_eq, not_false_eq_true, if_true]; rfl, ?_⟩
  intro hm
  simp only [hm, ne_eq, not_true_eq_false, if_false]
  generalize insertMetrics env.db (st.log (DBCall.queryRow token)) inst
    (if payload.Timestamp.IsZero then env.now else payload.Timestamp) payload.GPUs = res
  obtain ⟨e, st2⟩ := res
  cases e with
  | none => exact ⟨fun hc => absurd rfl hc, fun _ => rfl⟩
  | some msg => exact ⟨fun _ => rfl, fun hc => absurd hc (by simp)⟩

/-- C7, instance: an unknown credential with a malformed body gets 401, and a valid
credential with a malformed body gets 400. -/
theorem handleMetrics_first_failing_step_witness :
    (handleMetrics okEnv { calls := [], rows := [] }
      { authorization := some "Bearer nobody".toList, body := "oops".toList }).1.status = 401 ∧
    (handleMetrics okEnv { calls := [], rows := [] }
      { authorization := some "Bearer key-1".toList, body := "oops".toList }).1.status = 400 :=
  ⟨((handleMetrics_first_failing_step okEnv { calls := [], rows := [] }
      { authorization := some "Bearer nobody".toList, body := "oops".toList }).2
      "nobody".toList (by decide) (by decide)).1 (by decide),
   (((handleMetrics_first_failing_step okEnv { calls := [], rows := [] }
      { authorization := some "Bearer key-1".toList, body := "oops".toList }).2
      "key-1".toList (by decide) (by decide)).2 "inst-1".toList (by decide)).1 (by decide)⟩

/-- C8: when `handleMetrics` answers 401, 400 or 403, `insertMetrics` has not been invoked:
the log holds no new `PrepareBatch`, `Append` or `Send` call and the committed rows are as
before. -/
theorem handleMetrics_rejected_no_write (env : Env) (st : Store) (r : Request)
    (h : (handleMetrics env st r).1.status = 401 ∨ (handleMetrics env st r).1.status = 400 ∨
      (handleMetrics env st r).1.status = 403) :
    batchCalls (handleMetrics env st r).2.calls = batchCalls st.calls ∧
    (handleMetrics env st r).2.rows = st.rows := by
  by_cases hb : ∃ token, token ≠ [] ∧ r.headerGet = "Bearer ".toList ++ token
  · obtain ⟨token, hne, hh⟩ := hb
    rw [handleMetrics_bearer env st r token hne hh] at h ⊢
    have hlog : batchCalls (st.log (DBCall.queryRow token)).calls = batchCalls st.calls ∧
        (st.log (DBCall.queryRow token)).rows = st.rows := by
      simp [Store.log, batchCalls_append, batchCalls]
    revert h
    cases env.db.queryRow token with
    | none => exact fun _ => hlog
    | some inst =>
      cases env.jsonDecode r.body with
      | none => exact fun _ => hlog
      | some payload =>
        by_cases hm : payload.InstanceID ≠ inst
        · simp only [hm, ne_eq, not_false_eq_true, if_true]
          exact fun _ => hlog
        · simp only [hm, if_false]
          generalize insertMetrics env.db (st.log (DBCall.queryRow token)) inst
            (if payload.Timestamp.IsZero then env.now else payload.Timestamp) payload.GPUs = res
          obtain ⟨e, st2⟩ := res
          cases e with
          | none => intro h; simp at h
          | some msg => intro h; simp [httpError] at h
  · rw [(handleMetrics_malformed env st r hb).2]
    exact ⟨rfl, rfl⟩

/-- C8, instance: a payload naming another instance is answered 403 and leaves the log with
the lookup only and no committed row. -/
theorem handleMetrics_rejected_no_write_witness :
    (handleMetrics okEnv { calls := [], rows := [] }
      { authorization := some "Bearer key-1".toList, body := "other".toList }).1.status = 403 ∧
    batchCalls (handleMetrics okEnv { calls := [], rows := [] }
      { authorization := some "Bearer key-1".toList, body := "other".toList }).2.calls =
        batchCalls [] ∧
    (handleMetrics okEnv { calls := [], rows := [] }
      { authorization := some "Bearer key-1".toList, body := "other".toList }).2.rows = [] :=
  ⟨by decide,
   handleMetrics_rejected_no_write okEnv { calls := [], rows := [] }
     { authorization := some "Bearer key-1".toList, body := "other".toList }
     (Or.inr (Or.inr (by decide)))⟩

end Server

namespace strconv

theorem log2Aux_spec (fuel : Nat) : ∀ n, n ≤ fuel → 0 < n →
    2 ^ log2Aux fuel n ≤ n ∧ n < 2 ^ (log2Aux fuel n + 1) := by
  induction fuel with
  | zero => intro n h1 h2; omega
  | succ fuel ih =>
    intro n h1 h2
    unfold log2Aux
    by_cases h : n < 2
    · simp only [h, if_true]
      have : n = 1 := by omega
      subst this
      simp
    · simp only [h, if_false]
      have hd : n / 2 ≤ fuel := by omega
      have hp : 0 < n / 2 := by omega
      obtain ⟨a, b⟩ := ih (n / 2) hd hp
      rw [pow_succ, pow_succ] at *
      constructor <;> omega

theorem ilog2_spec (n : Nat) (h : 0 < n) : 2 ^ ilog2 n ≤ n ∧ n < 2 ^ (ilog2 n + 1) :=
  log2Aux_spec n n (le_refl n) h

/-- When the logarithm of `n / d` is not negative, `d * 2 ^ L ≤ n`. -/
theorem floorLog2Ratio_le (n d : Nat) (hn : 0 < n) (hd : 0 < d)
    (h : 0 ≤ floorLog2Ratio n d) : d * 2 ^ (floorLog2Ratio n d).toNat ≤ n := by
  unfold floorLog2Ratio at h ⊢
  simp only at h ⊢
  obtain ⟨hn1, _⟩ := ilog2_spec n hn
  obtain ⟨_, hd2⟩ := ilog2_spec d hd
  by_cases hjk : ilog2 d ≤ ilog2 n
  · simp only [hjk, if_true] at h ⊢
    by_cases hc : d * 2 ^ (ilog2 n - ilog2 d) ≤ n
    · simp only [hc, if_true]
      simpa using hc
    · simp only [hc, if_false] at h ⊢
      have hpos : 1 ≤ ilog2 n - ilog2 d := by omega
      have he : (((ilog2 n - ilog2 d : Nat) : Int) - 1).toNat = ilog2 n - ilog2 d - 1 := by omega
      rw [he]
      have h1 : d * 2 ^ (ilog2 n - ilog2 d - 1) ≤ 2 ^ (ilog2 d + 1) * 2 ^ (ilog2 n - ilog2 d - 1) :=
        Nat.mul_le_mul_right _ (le_of_lt hd2)
      have h2 : 2 ^ (ilog2 d + 1) * 2 ^ (ilog2 n - ilog2 d - 1) = 2 ^ ilog2 n := by
        rw [← pow_add]
        congr 1
        omega
      omega
  · simp only [hjk, if_false] at h
    split at h <;> omega

theorem divRoundEven_trunc (N D P I : Nat) (hD : 0 < D) (hI : I * D ≤ N)
    (hN : N < (I + 1) * D) (hP : D < 2 * P) : divRoundEven (N * P) D / P = I := by
  have hPpos : 0 < P := by omega
  have hdm := Nat.div_add_mod (N * P) D
  have hr : N * P % D < D := Nat.mod_lt _ hD
  have hlow : I * P ≤ N * P / D := by
    rw [Nat.le_div_iff_mul_le hD]
    calc I * P * D = I * D * P := by ring
      _ ≤ N * P := Nat.mul_le_mul_right _ hI
  have hup : N * P / D < (I + 1) * P := by
    rw [Nat.div_lt_iff_lt_mul hD]
    calc N * P < (I + 1) * D * P := Nat.mul_lt_mul_of_pos_right hN hPpos
      _ = (I + 1) * P * D := by ring
  have hm : I * P ≤ divRoundEven (N * P) D ∧ divRoundEven (N * P) D < (I + 1) * P := by
    unfold divRoundEven
    simp only
    have key : D ≤ 2 * (N * P % D) → N * P / D + 1 < (I + 1) * P := by
      intro h2r
      by_contra hcon
      have hq : N * P / D + 1 = (I + 1) * P := by omega
      have h1 : (N + 1) * P ≤ (I + 1) * D * P := Nat.mul_le_mul_right _ hN
      have h3 : D * (N * P / D) + D = D * ((I + 1) * P) := by
        rw [← hq]; ring
      have h4 : (I + 1) * D * P = D * ((I + 1) * P) := by ring
      have h5 : (N + 1) * P = N * P + P := by ring
      omega
    split
    · exact ⟨hlow, hup⟩
    · split
      · rename_i _ h2
        exact ⟨by omega, key (by omega)⟩
      · rename_i h1 h2
        split
        · exact ⟨hlow, hup⟩
        · exact ⟨by omega, key (by omega)⟩
  exact Nat.div_eq_of_lt_le hm.1 hm.2

end strconv

namespace strconv

/-- For a quotient of two numbers below `2^52`, rounding to float64 and converting to `int`
gives the integer part of the quotient. -/
theorem roundFloat64_small (neg : Bool) (N D : Nat) (hD : 0 < D) (hDb : D < 2 ^ 52)
    (hN : N < 2 ^ 52) :
    (roundFloat64 neg N D).map intOfFloat64 =
      some (if neg then -((N / D : Nat) : Int) else ((N / D : Nat) : Int)) := by
  by_cases h0 : N = 0
  · subst h0
    cases neg <;> simp [roundFloat64, intOfFloat64, intSize]
  · have hNpos : 0 < N := Nat.pos_of_ne_zero h0
    have hL := floorLog2Ratio_le N D hNpos hD
    unfold roundFloat64
    simp only [h0, if_false]
    generalize floorLog2Ratio N D = L at hL ⊢
    have hL52 : L < 52 := by
      by_contra hc
      have h1 := hL (by omega)
      have h2 : 2 ^ 52 ≤ 2 ^ L.toNat := Nat.pow_le_pow_right (by norm_num) (by omega)
      have h3 : 1 * 2 ^ L.toNat ≤ D * 2 ^ L.toNat := Nat.mul_le_mul_right _ hD
      omega
    have he : max (L - 52) (-1074) < 0 := by omega
    have hP : D < 2 * 2 ^ (-(max (L - 52) (-1074))).toNat := by
      by_cases hneg : L < 0
      · have h2 : 2 ^ 52 ≤ 2 ^ (-(max (L - 52) (-1074))).toNat :=
          Nat.pow_le_pow_right (by norm_num) (by omega)
        omega
      · have h1 := hL (by omega)
        have hs : (-(max (L - 52) (-1074))).toNat = 52 - L.toNat := by omega
        rw [hs]
        have h2 : 2 ^ L.toNat * 2 ^ (52 - L.toNat) = 2 ^ 52 := by
          rw [← pow_add]
          congr 1
          omega
        have h3 : D * 2 ^ L.toNat < 2 ^ L.toNat * 2 ^ (52 - L.toNat) := by omega
        have h4 : D < 2 ^ (52 - L.toNat) := by
          rw [Nat.mul_comm D] at h3
          exact Nat.lt_of_mul_lt_mul_left h3
        omega
    have hlt : N < (N / D + 1) * D := by
      have h1 := Nat.div_add_mod N D
      have h2 := Nat.mod_lt N hD
      have h3 : (N / D + 1) * D = D * (N / D) + D := by ring
      omega
    have htr := divRoundEven_trunc N D (2 ^ (-(max (L - 52) (-1074))).toNat) (N / D) hD
      (Nat.div_mul_le_self N D) hlt hP
    have hq : N / D < 2 ^ 52 := lt_of_le_of_lt (Nat.div_le_self N D) hN
    generalize max (L - 52) (-1074) = e at *
    have hne : ¬ (0 ≤ e) := by omega
    have hov : ¬ (971 < e ∨ e = 971 ∧
        2 ^ 53 ≤ (if 0 ≤ e then divRoundEven N (D * 2 ^ e.toNat)
          else divRoundEven (N * 2 ^ (-e).toNat) D)) := by
      rintro (h | ⟨h, _⟩) <;> omega
    rw [if_neg hov]
    simp only [hne, if_false, Option.map_some', intOfFloat64, htr, intSize]
    congr 1
    have hr : (2 : Int) ^ 52 < 2 ^ 63 := by norm_num
    have hq' : ((N / D : Nat) : Int) < 2 ^ 52 := by exact_mod_cast hq
    cases neg
    · simp only [Bool.false_eq_true, if_false]
      rw [if_pos]
      constructor
      · have : (0 : Int) ≤ ((N / D : Nat) : Int) := Int.natCast_nonneg _
        have h63 : (0 : Int) < 2 ^ 63 := by norm_num
        omega
      · omega
    · simp only [if_true]
      rw [if_pos]
      constructor
      · have h63 : (2 : Int) ^ 63 = 9223372036854775808 := by norm_num
        have h52 : (2 : Int) ^ 52 = 4503599627370496 := by norm_num
        omega
      · have : (0 : Int) ≤ ((N / D : Nat) : Int) := Int.natCast_nonneg _
        have h63 : (0 : Int) < 2 ^ 63 := by norm_num
        omega

end strconv

namespace Collector
open strconv strings

theorem lower_digit_ne (c : Char) (h : isDigit c = true ∨ c = '.') :
    lower c ≠ 120 ∧ lower c ≠ 101 := by
  rcases h with h | h
  · simp only [isDigit, Bool.and_eq_true, decide_eq_true_eq] at h
    unfold lower
    generalize c.toNat = n at *
    obtain ⟨h1, h2⟩ := h
    interval_cases n <;> decide
  · subst h
    decide

theorem digit_ne_marks (c : Char) (h : isDigit c = true) :
    c ≠ '_' ∧ c ≠ '.' ∧ c ≠ '+' ∧ c ≠ '-' ∧ c ≠ 'i' ∧ c ≠ 'I' ∧ c ≠ 'n' ∧ c ≠ 'N' := by
  refine ⟨?_, ?_, ?_, ?_, ?_, ?_, ?_, ?_⟩ <;>
  · intro hc
    subst hc
    exact absurd h (by decide)

theorem digitsValue_append (a b : List Char) :
    digitsValue (a ++ b) = digitsValue a * 10 ^ b.length + digitsValue b := by
  induction a with
  | nil => simp [digitsValue]
  | cons c a ih =>
    rw [List.cons_append, digitsValue_cons, digitsValue_cons, ih, List.length_append]
    ring

theorem mantissaLoop_digits (ds : List Char) (hd : ds.all isDigit = true) :
    ∀ (rest : List Char) (st : MantState),
      mantissaLoop false (ds ++ rest) st =
        mantissaLoop false rest
          { sawdot := st.sawdot
            sawdigits := st.sawdigits || !ds.isEmpty
            underscores := st.underscores
            mantissa := st.mantissa * 10 ^ ds.length + digitsValue ds
            fracDigits := if st.sawdot then st.fracDigits + ds.length else st.fracDigits } := by
  induction ds with
  | nil =>
    intro rest st
    cases st
    simp [digitsValue]
  | cons c ds ih =>
    intro rest st
    simp only [List.all_cons, Bool.and_eq_true] at hd
    obtain ⟨h1, h2, _⟩ := digit_ne_marks c hd.1
    rw [List.cons_append, mantissaLoop]
    simp only [h1, h2, if_false, hd.1, if_true]
    rw [ih hd.2]
    congr 1
    cases st with
    | mk sawdot sawdigits underscores mantissa fracDigits =>
      simp only [MantState.mk.injEq, Bool.true_or, List.isEmpty_cons, Bool.not_false,
        Bool.or_true, true_and, Bool.false_eq_true, if_false, List.length_cons]
      refine ⟨?_, ?_⟩
      · rw [digitsValue_cons]; ring
      · cases sawdot
        · simp
        · simp; omega

end Collector

namespace Collector
open strconv strings

/-- The digits and the point of a decimal text, without its sign. -/
theorem decimal_body (sign ip fp : List Char) (dot : Bool)
    (h : isDecimal sign ip fp dot = true) :
    (ip ++ (if dot then '.' :: fp else [])) ≠ [] ∧
    (∀ c ∈ ip ++ (if dot then '.' :: fp else []), isDigit c = true ∨ c = '.') ∧
    mantissaLoop false (ip ++ (if dot then '.' :: fp else []))
      { sawdot := false, sawdigits := false, underscores := false, mantissa := 0,
        fracDigits := 0 } =
      ({ sawdot := dot, sawdigits := true, underscores := false,
         mantissa := digitsValue (ip ++ fp), fracDigits := fp.length }, []) := by
  simp only [isDecimal, Bool.and_eq_true, Bool.or_eq_true, List.all_eq_true,
    Bool.not_eq_true', List.isEmpty_eq_false, beq_iff_eq, List.isEmpty_iff] at h
  obtain ⟨⟨⟨⟨_, hip⟩, hfp⟩, hne⟩, hdot⟩ := h
  have hipa : ip.all isDigit = true := List.all_eq_true.2 hip
  have hfpa : fp.all isDigit = true := List.all_eq_true.2 hfp
  refine ⟨?_, ?_, ?_⟩
  · cases dot
    · rcases hdot with hd | hd
      · exact absurd hd (by simp)
      · subst hd
        rcases hne with hn | hn
        · simpa using hn
        · exact absurd rfl hn
    · simp
  · intro c hc
    rcases List.mem_append.1 hc with hc | hc
    · exact Or.inl (hip c hc)
    · cases dot
      · simp at hc
      · simp only [if_true, List.mem_cons] at hc
        rcases hc with hc | hc
        · exact Or.inr hc
        · exact Or.inl (hfp c hc)
  · rw [mantissaLoop_digits ip hipa]
    cases dot
    · rcases hdot with hd | hd
      · exact absurd hd (by simp)
      · subst hd
        have hn : ip ≠ [] := by
          rcases hne with hn | hn
          · exact hn
          · exact absurd rfl hn
        simp [mantissaLoop, hn]
    · simp only [if_true]
      rw [mantissaLoop]
      simp only [show ('.' : Char) ≠ '_' by decide, if_false, if_true, Bool.false_eq_true]
      have := mantissaLoop_digits fp hfpa []
        { sawdot := true, sawdigits := false || !ip.isEmpty, underscores := false,
          mantissa := 0 * 10 ^ ip.length + digitsValue ip, fracDigits := 0 }
      rw [List.append_nil] at this
      rw [this, mantissaLoop]
      simp only [Prod.mk.injEq, MantState.mk.injEq, and_true, true_and, if_true]
      refine ⟨?_, ?_, by simp⟩
      · rcases hne with hn | hn
        · cases ip with
          | nil => exact absurd rfl hn
          | cons _ _ => rfl
        · cases fp with
          | nil => exact absurd rfl hn
          | cons _ _ => simp
      · rw [digitsValue_append]; simp

end Collector

namespace Collector
open strconv strings

theorem specialInf_body (neg : Bool) (k : Nat) (body : List Char)
    (hc : ∀ c ∈ body, isDigit c = true ∨ c = '.') : specialInf neg k body = none := by
  have h0 : commonPrefixLenIgnoreCase body "infinity".toList = 0 := by
    cases body with
    | nil => rfl
    | cons c r =>
      have hcc := hc c (List.mem_cons_self _ _)
      show commonPrefixLenIgnoreCase (c :: r) ('i' :: "nfinity".toList) = 0
      unfold commonPrefixLenIgnoreCase
      have : (if 65 ≤ c.toNat ∧ c.toNat ≤ 90 then c.toNat + 32 else c.toNat) ≠ 'i'.toNat := by
        rcases hcc with h | h
        · simp only [isDigit, Bool.and_eq_true, decide_eq_true_eq] at h
          have : 'i'.toNat = 105 := by decide
          split <;> omega
        · subst h
          decide
      simp only [this, ne_eq, not_false_eq_true, if_true]
  unfold specialInf
  simp only [h0]
  rfl

theorem special_body (body : List Char) (hc : ∀ c ∈ body, isDigit c = true ∨ c = '.') :
    special body = none := by
  cases body with
  | nil => rfl
  | cons c r =>
    have hcc := hc c (List.mem_cons_self _ _)
    have hne : c ≠ '+' ∧ c ≠ '-' ∧ c ≠ 'i' ∧ c ≠ 'I' ∧ c ≠ 'n' ∧ c ≠ 'N' := by
      rcases hcc with h | h
      · obtain ⟨_, _, h3, h4, h5, h6, h7, h8⟩ := digit_ne_marks c h
        exact ⟨h3, h4, h5, h6, h7, h8⟩
      · subst h
        decide
    unfold special
    simp [hne]

theorem special_decimal (sign ip fp : List Char) (dot : Bool)
    (h : isDecimal sign ip fp dot = true) : special (decimalText sign ip fp dot) = none := by
  obtain ⟨_, hc, _⟩ := decimal_body sign ip fp dot h
  have hs : sign = [] ∨ sign = ['+'] ∨ sign = ['-'] := by
    simp only [isDecimal, Bool.and_eq_true, Bool.or_eq_true, beq_iff_eq] at h
    exact (or_assoc.1 h.1.1.1.1)
  unfold decimalText
  rcases hs with hs | hs | hs <;> subst hs
  · exact special_body _ hc
  · show special ('+' :: _) = none
    unfold special
    simp only [true_or, if_true]
    exact specialInf_body _ _ _ hc
  · show special ('-' :: _) = none
    unfold special
    simp only [or_true, if_true]
    exact specialInf_body _ _ _ hc

end Collector

namespace Collector
open strconv strings

theorem floatSign_body (body : List Char) (hc : ∀ c ∈ body, isDigit c = true ∨ c = '.') :
    floatSign body = (false, body) := by
  unfold floatSign
  split
  · rename_i r
    exact absurd (hc '+' (List.mem_cons_self _ _)) (by decide)
  · rename_i r
    exact absurd (hc '-' (List.mem_cons_self _ _)) (by decide)
  · rfl

theorem hasHexPrefix_body (body : List Char) (hc : ∀ c ∈ body, isDigit c = true ∨ c = '.') :
    hasHexPrefix body = false := by
  unfold hasHexPrefix
  split
  · rename_i x _ _
    have hx := hc x (by simp)
    have := (lower_digit_ne x hx).1
    simpa using this
  · rfl

theorem floatSign_decimal (sign ip fp : List Char) (dot : Bool)
    (h : isDecimal sign ip fp dot = true) :
    floatSign (decimalText sign ip fp dot) =
      (decide (sign = ['-']), ip ++ (if dot then '.' :: fp else [])) := by
  obtain ⟨_, hc, _⟩ := decimal_body sign ip fp dot h
  have hs : sign = [] ∨ sign = ['+'] ∨ sign = ['-'] := by
    simp only [isDecimal, Bool.and_eq_true, Bool.or_eq_true, beq_iff_eq] at h
    exact (or_assoc.1 h.1.1.1.1)
  unfold decimalText
  rcases hs with hs | hs | hs <;> subst hs
  · rw [List.nil_append, floatSign_body _ hc]
    simp
  · rfl
  · rfl

theorem readFloat_decimal (sign ip fp : List Char) (dot : Bool)
    (h : isDecimal sign ip fp dot = true) :
    readFloat (decimalText sign ip fp dot) =
      some { neg := decide (sign = ['-']), hex := false, mantissa := digitsValue (ip ++ fp),
             exp := -(fp.length : Int), rest := [] } := by
  obtain ⟨hne, hc, hml⟩ := decimal_body sign ip fp dot h
  have hne' : decimalText sign ip fp dot ≠ [] := by
    unfold decimalText
    simp [hne]
  unfold readFloat
  simp only [hne', if_false, floatSign_decimal sign ip fp dot h, hasHexPrefix_body _ hc,
    Bool.false_eq_true, hml, Bool.not_true, readFloatExp, readFloatEnd, Bool.false_and,
    Bool.and_false]

/-- `ParseFloat` of a decimal text is the float64 nearest to the number it writes. -/
theorem ParseFloat_decimal (sign ip fp : List Char) (dot : Bool)
    (h : isDecimal sign ip fp dot = true) :
    ParseFloat (decimalText sign ip fp dot) =
      roundFloat64 (decide (sign = ['-'])) (digitsValue (ip ++ fp)) (10 ^ fp.length) := by
  unfold ParseFloat
  rw [special_decimal sign ip fp dot h, readFloat_decimal sign ip fp dot h]
  simp only [ne_eq, not_true_eq_false, if_false, Bool.false_eq_true]
  by_cases hk : fp.length = 0
  · simp [hk]
  · have : ¬ (0 : Int) ≤ -(fp.length : Int) := by omega
    simp [this]

end Collector

namespace Collector
open strconv strings

theorem digitsValue_lt (ds : List Char) (h : ds.all isDigit = true) :
    digitsValue ds < 10 ^ ds.length := by
  induction ds with
  | nil => simp [digitsValue]
  | cons c ds ih =>
    simp only [List.all_cons, Bool.and_eq_true] at h
    have hc := h.1
    simp only [isDigit, Bool.and_eq_true, decide_eq_true_eq] at hc
    have := ih h.2
    rw [digitsValue_cons, List.length_cons, pow_succ]
    have h9 : (c.toNat - 48) * 10 ^ ds.length ≤ 9 * 10 ^ ds.length :=
      Nat.mul_le_mul_right _ (by omega)
    omega

theorem decimalText_ne (sign ip fp : List Char) (dot : Bool)
    (h : isDecimal sign ip fp dot = true) :
    decimalText sign ip fp dot ≠ [] ∧ decimalText sign ip fp dot ≠ "N/A".toList := by
  obtain ⟨hne, hc, _⟩ := decimal_body sign ip fp dot h
  have hs : sign = [] ∨ sign = ['+'] ∨ sign = ['-'] := by
    simp only [isDecimal, Bool.and_eq_true, Bool.or_eq_true, beq_iff_eq] at h
    exact (or_assoc.1 h.1.1.1.1)
  unfold decimalText
  refine ⟨by simp [hne], ?_⟩
  rcases hs with hs | hs | hs <;> subst hs
  · intro heq
    rw [List.nil_append] at heq
    have := hc 'N' (by rw [heq]; decide)
    exact absurd this (by decide)
  · intro heq
    have h0 : some '+' = some 'N' := congrArg List.head? heq
    exact absurd h0 (by decide)
  · intro heq
    have h0 : some '-' = some 'N' := congrArg List.head? heq
    exact absurd h0 (by decide)

/-- The result of `divRoundEven` is within one half of the quotient. -/
theorem divRoundEven_near (n d : Nat) (hd : 0 < d) :
    2 * (divRoundEven n d * d) ≤ 2 * n + d ∧ 2 * n ≤ 2 * (divRoundEven n d * d) + d := by
  have hdm := Nat.div_add_mod n d
  have hr : n % d < d := Nat.mod_lt _ hd
  have h1 : (n / d + 1) * d = d * (n / d) + d := by ring
  have h0 : n / d * d = d * (n / d) := by ring
  unfold divRoundEven
  simp only
  split_ifs <;> first
    | (rw [h0]; omega)
    | (rw [h1]; omega)

/-- The float64 that `roundFloat64` gives for `n / d` has the sign asked for and lies within
half a unit of its last binary place of `n / d`. -/
theorem roundFloat64_near (neg : Bool) (n d : Nat) (hd : 0 < d) (ng : Bool) (m : Nat) (e : Int)
    (h : roundFloat64 neg n d = some (Float64.finite ng m e)) :
    ng = neg ∧ |(m : ℚ) * (2 : ℚ) ^ e - (n : ℚ) / (d : ℚ)| ≤ (2 : ℚ) ^ e / 2 := by
  have hdq : (0 : ℚ) < (d : ℚ) := by exact_mod_cast hd
  unfold roundFloat64 at h
  by_cases h0 : n = 0
  · rw [if_pos h0] at h
    cases Option.some.inj h
    subst h0
    simp
  · rw [if_neg h0] at h
    simp only at h
    generalize max (floorLog2Ratio n d - 52) (-1074) = e0 at h
    generalize hmm : (if 0 ≤ e0 then divRoundEven n (d * 2 ^ e0.toNat)
      else divRoundEven (n * 2 ^ (-e0).toNat) d) = mm at h
    by_cases hov : 971 < e0 ∨ (e0 = 971 ∧ 2 ^ 53 ≤ mm)
    · rw [if_pos hov] at h
      exact absurd h (by simp)
    · rw [if_neg hov] at h
      have hf := Option.some.inj h
      injection hf with hneg hm he
      refine ⟨hneg.symm, ?_⟩
      subst he hm
      clear h hov
      revert hmm
      generalize e0 = e
      generalize mm = m
      intro hm
      by_cases hpos : 0 ≤ e
      · rw [if_pos hpos] at hm
        obtain ⟨k, rfl⟩ := Int.eq_ofNat_of_zero_le hpos
        simp only [Int.toNat_ofNat] at hm
        have hk : 0 < d * 2 ^ k := Nat.mul_pos hd (Nat.pow_pos (by norm_num))
        obtain ⟨ha, hb⟩ := divRoundEven_near n (d * 2 ^ k) hk
        rw [hm] at ha hb
        have ha' : (2 : ℚ) * (m * (d * 2 ^ k)) ≤ 2 * n + d * 2 ^ k := by exact_mod_cast ha
        have hb' : (2 : ℚ) * n ≤ 2 * (m * (d * 2 ^ k)) + d * 2 ^ k := by exact_mod_cast hb
        simp only [zpow_natCast]
        generalize (2 : ℚ) ^ k = P at ha' hb' ⊢
        have hu : (n : ℚ) / d ≤ m * P + P / 2 := by
          rw [div_le_iff₀ hdq]; nlinarith
        have hl : (m : ℚ) * P - P / 2 ≤ n / d := by
          rw [le_div_iff₀ hdq]; nlinarith
        rw [abs_le]
        constructor <;> linarith
      · rw [if_neg hpos] at hm
        obtain ⟨k, hk⟩ : ∃ k : Nat, e = -(k : Int) := ⟨(-e).toNat, by omega⟩
        subst hk
        simp only [neg_neg, Int.toNat_ofNat] at hm
        obtain ⟨ha, hb⟩ := divRoundEven_near (n * 2 ^ k) d hd
        rw [hm] at ha hb
        have ha' : (2 : ℚ) * (m * d) ≤ 2 * (n * 2 ^ k) + d := by exact_mod_cast ha
        have hb' : (2 : ℚ) * (n * 2 ^ k) ≤ 2 * (m * d) + d := by exact_mod_cast hb
        simp only [zpow_neg, zpow_natCast]
        have hP : (0 : ℚ) < (2 : ℚ) ^ k := by positivity
        generalize (2 : ℚ) ^ k = P at ha' hb' hP ⊢
        have hu : (n : ℚ) / d ≤ m * P⁻¹ + P⁻¹ / 2 := by
          have : (m : ℚ) * P⁻¹ + P⁻¹ / 2 = (2 * m + 1) / (2 * P) := by field_simp; ring
          rw [this, div_le_div_iff₀ hdq (by positivity)]
          nlinarith
        have hl : (m : ℚ) * P⁻¹ - P⁻¹ / 2 ≤ n / d := by
          have : (m : ℚ) * P⁻¹ - P⁻¹ / 2 = (2 * m - 1) / (2 * P) := by field_simp; ring
          rw [this, div_le_div_iff₀ (by positivity) hdq]
          nlinarith
        rw [abs_le]
        constructor <;> linarith

/-- The floor of `m * 2^e` is `m * 2^e` for `e ≥ 0` and the quotient `m / 2^(-e)` otherwise. -/
theorem finiteValue_abs (m : Nat) (e : Int) :
    ⌊(m : ℚ) * (2 : ℚ) ^ e⌋ =
      ((if 0 ≤ e then m * 2 ^ e.toNat else m / 2 ^ (-e).toNat : Nat) : Int) := by
  by_cases he : 0 ≤ e
  · rw [if_pos he]
    obtain ⟨k, rfl⟩ := Int.eq_ofNat_of_zero_le he
    simp only [zpow_natCast, Int.toNat_ofNat]
    have : (m : ℚ) * 2 ^ k = ((m * 2 ^ k : Nat) : ℚ) := by push_cast; ring
    rw [this]
    exact Int.floor_natCast _
  · rw [if_neg he]
    obtain ⟨k, hk⟩ : ∃ k : Nat, e = -(k : Int) := ⟨(-e).toNat, by omega⟩
    subst hk
    simp only [neg_neg, Int.toNat_ofNat, zpow_neg, zpow_natCast]
    have : (m : ℚ) * ((2 : ℚ) ^ k)⁻¹ = ((m : Int) : ℚ) / ((2 ^ k : Nat) : ℚ) := by
      push_cast; ring
    rw [this, Rat.floor_intCast_div_natCast]
    push_cast
    rfl

/-- Truncation toward zero of the value of a finite `float64`, in integer arithmetic. -/
theorem truncateTowardZero_finiteValue (neg : Bool) (m : Nat) (e : Int) :
    truncateTowardZero (finiteValue neg m e) =
      if neg then -((if 0 ≤ e then m * 2 ^ e.toNat else m / 2 ^ (-e).toNat : Nat) : Int)
      else ((if 0 ≤ e then m * 2 ^ e.toNat else m / 2 ^ (-e).toNat : Nat) : Int) := by
  have hpos : (0 : ℚ) ≤ (m : ℚ) * (2 : ℚ) ^ e :=
    mul_nonneg (Nat.cast_nonneg m) (le_of_lt (zpow_pos (by norm_num) e))
  have hfl := finiteValue_abs m e
  cases neg with
  | false =>
    simp only [finiteValue, Bool.false_eq_true, if_false, one_mul, truncateTowardZero,
      if_pos hpos, hfl]
  | true =>
    simp only [finiteValue, if_true, neg_mul, one_mul, truncateTowardZero]
    by_cases h0 : (0 : ℚ) ≤ -((m : ℚ) * (2 : ℚ) ^ e)
    · have hz : (m : ℚ) * (2 : ℚ) ^ e = 0 := le_antisymm (by linarith) hpos
      rw [if_pos h0, ← hfl, hz]
      simp
    · rw [if_neg h0, Int.ceil_neg, hfl]

/-- Go `int(f)` truncates the value of `f` toward zero whenever the truncated value is in
the range of `int`. -/
theorem intOfFloat64_truncate (neg : Bool) (m : Nat) (e : Int)
    (h : inIntRange (truncateTowardZero (finiteValue neg m e))) :
    intOfFloat64 (Float64.finite neg m e) = truncateTowardZero (finiteValue neg m e) := by
  rw [truncateTowardZero_finiteValue] at h ⊢
  unfold inIntRange at h
  unfold intOfFloat64
  simp only [intSize]
  cases neg with
  | false =>
    simp only [Bool.false_eq_true, if_false] at h ⊢
    rw [if_pos (by simpa using h)]
  | true =>
    simp only [if_true] at h ⊢
    rw [if_pos (by simpa using h)]

/-- C5 (amended): when the trimmed sixth field of an accepted line is a decimal number,
the power of the record is 0 if the number overflows float64; otherwise, with
`(-1)^neg * m * 2^e` the float64 nearest to the number, the power is that value truncated
toward zero, provided the truncated value lies in the range of a 64-bit `int`; and for a
decimal number of at most 15 digits the power is the number itself truncated toward zero.
A sixth field that `ParseFloat` rejects leaves the power at 0. -/
theorem parseLine_power_decimal (line : List Char) (r : GPUMetric)
    (h : parseLine line = some r) :
    (∀ sign ip fp dot, isDecimal sign ip fp dot = true →
      TrimSpace (field (Split line ", ".toList) 5) = decimalText sign ip fp dot →
      (roundFloat64 (decide (sign = ['-'])) (digitsValue (ip ++ fp)) (10 ^ fp.length) = none →
        r.PowerDrawWatts = 0) ∧
      (∀ neg m e,
        roundFloat64 (decide (sign = ['-'])) (digitsValue (ip ++ fp)) (10 ^ fp.length) =
          some (Float64.finite neg m e) →
        inIntRange (truncateTowardZero (finiteValue neg m e)) →
        r.PowerDrawWatts = truncateTowardZero (finiteValue neg m e)) ∧
      ((ip ++ fp).length ≤ 15 → r.PowerDrawWatts = truncatedValue sign ip)) ∧
    (ParseFloat (TrimSpace (field (Split line ", ".toList) 5)) = none →
      r.PowerDrawWatts = 0) := by
  obtain ⟨h4, index, hidx⟩ := parseLine_some line r h
  obtain ⟨r1, hr1, _, _, _, _, _, hp⟩ := parseLine_record line index h4 hidx
  rw [h] at hr1
  cases hr1
  generalize Split line ", ".toList = fs at *
  constructor
  · intro sign ip fp dot hdec htext
    obtain ⟨hne, hna⟩ := decimalText_ne sign ip fp dot hdec
    have hcond : fs.length > 5 ∧ field fs 5 ≠ "N/A".toList ∧ TrimSpace (field fs 5) ≠ [] := by
      refine ⟨?_, ?_, by rw [htext]; exact hne⟩
      · by_contra hlen
        have : field fs 5 = [] := by
          simp [field, List.getD_eq_getElem?_getD, List.getElem?_eq_none (by omega : fs.length ≤ 5)]
        rw [this] at htext
        exact hne (htext.symm.trans (by decide))
      · intro heq
        rw [heq] at htext
        exact hna (htext.symm.trans (by decide))
    have hpow : r.PowerDrawWatts =
        ((roundFloat64 (decide (sign = ['-'])) (digitsValue (ip ++ fp))
          (10 ^ fp.length)).map intOfFloat64).getD 0 := by
      rw [hp, if_pos hcond, htext, ParseFloat_decimal sign ip fp dot hdec]
    refine ⟨?_, ?_, ?_⟩
    · intro hnone
      rw [hpow, hnone]
      rfl
    · intro neg m e hsome hrange
      rw [hpow, hsome]
      exact intOfFloat64_truncate neg m e hrange
    intro h15
    simp only [isDecimal, Bool.and_eq_true, Bool.or_eq_true, List.all_eq_true] at hdec
    have hipa : ip.all isDigit = true := List.all_eq_true.2 hdec.1.1.1.2
    have hfpa : fp.all isDigit = true := List.all_eq_true.2 hdec.1.1.2
    have hall : (ip ++ fp).all isDigit = true := by
      rw [List.all_append, hipa, hfpa]; rfl
    have hN : digitsValue (ip ++ fp) < 10 ^ 15 :=
      lt_of_lt_of_le (digitsValue_lt _ hall) (Nat.pow_le_pow_right (by norm_num) h15)
    have hD : 10 ^ fp.length ≤ 10 ^ 15 :=
      Nat.pow_le_pow_right (by norm_num) (by rw [List.length_append] at h15; omega)
    have hDpos : 0 < 10 ^ fp.length := Nat.pow_pos (by norm_num)
    have hdiv : digitsValue (ip ++ fp) / 10 ^ fp.length = digitsValue ip := by
      rw [digitsValue_append]
      have := digitsValue_lt fp hfpa
      apply Nat.div_eq_of_lt_le
      · omega
      · rw [Nat.add_mul, Nat.one_mul]; omega
    have hsmall := roundFloat64_small (decide (sign = ['-'])) (digitsValue (ip ++ fp))
      (10 ^ fp.length) hDpos (by norm_num at hD ⊢; omega) (by norm_num at hN ⊢; omega)
    rw [hpow, hsmall, hdiv]
    unfold truncatedValue
    by_cases hs : sign = ['-'] <;> simp [hs]
  · intro hnone
    rw [hp]
    split
    · rw [hnone]; rfl
    · rfl

/-- C5, instance: in `"0, 45, 2048, 8192, 65, 120.5"` the float64 nearest to 120.5 is
`8479433673408512 * 2^(-46)`, and the power is its truncation toward zero, which is the
decimal 120.5 truncated toward zero, 120; a sixth field `12x` leaves the power at 0. -/
theorem parseLine_power_decimal_witness :
    (∃ r, parseLine "0, 45, 2048, 8192, 65, 120.5".toList = some r ∧
      roundFloat64 false 1205 10 = some (Float64.finite false 8479433673408512 (-46)) ∧
      r.PowerDrawWatts = truncateTowardZero (finiteValue false 8479433673408512 (-46)) ∧
      r.PowerDrawWatts = truncatedValue [] "120".toList ∧ r.PowerDrawWatts = 120) ∧
    (∃ r, parseLine "0, 45, 2048, 8192, 65, 12x".toList = some r ∧ r.PowerDrawWatts = 0) :=
  ⟨⟨{ Index := 0, UtilizationPercent := 45, MemoryUsedMB := 2048, MemoryTotalMB := 8192,
      TemperatureCelsius := 65, PowerDrawWatts := 120 }, by decide, by decide,
    ((parseLine_power_decimal "0, 45, 2048, 8192, 65, 120.5".toList _ (by decide)).1
      [] "120".toList "5".toList true (by decide) (by decide)).2.1 false 8479433673408512 (-46)
      (by decide) (by rw [truncateTowardZero_finiteValue]; decide),
    ((parseLine_power_decimal "0, 45, 2048, 8192, 65, 120.5".toList _ (by decide)).1
      [] "120".toList "5".toList true (by decide) (by decide)).2.2 (by decide), rfl⟩,
   ⟨{ Index := 0, UtilizationPercent := 45, MemoryUsedMB := 2048, MemoryTotalMB := 8192,
      TemperatureCelsius := 65, PowerDrawWatts := 0 }, by decide,
    (parseLine_power_decimal "0, 45, 2048, 8192, 65, 12x".toList _ (by decide)).2
      (by decide)⟩⟩

/-- C5 as stated fails.  The sixth field of `"0, 45, 2048, 8192, 65, 0.99999999999999999"` is
a decimal number whose truncation toward zero is 0, yet the power of the record is 1: the
float64 nearest to the number is 1.0, so parsing rounds it up before `int(...)` truncates.
And the sixth field `10000000000000000000.5` truncates to 10000000000000000000, which no
`int` holds: the power of the record is `-9223372036854775808`, what the conversion
gives on amd64 for a float64 beyond the range of `int`. -/
theorem parseLine_power_decimal_counterexample :
    (parseLine "0, 45, 2048, 8192, 65, 0.99999999999999999".toList =
      some { Index := 0, UtilizationPercent := 45, MemoryUsedMB := 2048, MemoryTotalMB := 8192,
             TemperatureCelsius := 65, PowerDrawWatts := 1 } ∧
    TrimSpace (field (Split "0, 45, 2048, 8192, 65, 0.99999999999999999".toList ", ".toList) 5) =
      decimalText [] "0".toList "99999999999999999".toList true ∧
    isDecimal [] "0".toList "99999999999999999".toList true = true ∧
    truncatedValue [] "0".toList = 0) ∧
    (parseLine "0, 45, 2048, 8192, 65, 10000000000000000000.5".toList =
      some { Index := 0, UtilizationPercent := 45, MemoryUsedMB := 2048, MemoryTotalMB := 8192,
             TemperatureCelsius := 65, PowerDrawWatts := -9223372036854775808 } ∧
    TrimSpace (field (Split "0, 45, 2048, 8192, 65, 10000000000000000000.5".toList ", ".toList) 5) =
      decimalText [] "10000000000000000000".toList "5".toList true ∧
    isDecimal [] "10000000000000000000".toList "5".toList true = true ∧
    truncatedValue [] "10000000000000000000".toList = 10000000000000000000) := by
  refine ⟨⟨by decide, by decide, by decide, by decide⟩, by decide, by decide, by decide,
    by decide⟩

end Collector

namespace Server

/-- The rows appended by `insertMetrics` all carry the timestamp it was given. -/
theorem insertMetrics_append_timestamp (db : Driver) (st : Store) (inst : List Char) (ts : Time)
    (gpus : List GPUMetric) :
    ∃ new, (insertMetrics db st inst ts gpus).2.calls = st.calls ++ new ∧
      ∀ row, DBCall.append row ∈ new → row.timestamp = ts := by
  have hmem : ∀ (k : Nat) (row : Row),
      DBCall.append row ∈ ((gpus.take k).map (rowOf inst ts)).map DBCall.append →
      row.timestamp = ts := by
    intro k row hrow
    simp only [List.mem_map] at hrow
    obtain ⟨r1, ⟨g, _, hg⟩, hr1⟩ := hrow
    cases hr1
    rw [← hg]
    rfl
  unfold insertMetrics
  simp only
  by_cases hp : db.prepareFails = true
  · simp only [hp, if_true]
    refine ⟨[DBCall.prepareBatch], rfl, ?_⟩
    intro row hrow
    simp at hrow
  · simp only [hp, if_false]
    obtain ⟨_, k, _, hcalls, _⟩ := appendLoop_spec db inst ts gpus [] (st.log DBCall.prepareBatch)
    generalize appendLoop db inst ts gpus [] (st.log DBCall.prepareBatch) = res at *
    obtain ⟨r1, st2⟩ := res
    simp only at hcalls
    cases r1 with
    | none =>
      refine ⟨DBCall.prepareBatch :: ((gpus.take k).map (rowOf inst ts)).map DBCall.append, ?_, ?_⟩
      · simp [hcalls, Store.log]
      · intro row hrow
        rcases List.mem_cons.1 hrow with h | h
        · cases h
        · exact hmem k row h
    | some batch =>
      refine ⟨DBCall.prepareBatch :: (((gpus.take k).map (rowOf inst ts)).map DBCall.append ++
        [DBCall.send]), ?_, ?_⟩
      · by_cases hs : db.sendFails batch = true
        · simp [hs, hcalls, Store.log]
        · simp [hs, hcalls, Store.log]
      · intro row hrow
        rcases List.mem_cons.1 hrow with h | h
        · cases h
        · rcases List.mem_append.1 h with h | h
          · exact hmem k row h
          · simp at h

/-- C12: for a request that reaches the write step (well-formed header, known credential,
decodable body, matching instance), `handleMetrics` calls `insertMetrics` with the payload's
own timestamp when that timestamp is not the zero value and with the server's current UTC
time when it is: the store it leaves and the status it answers are those of that call, and
every row it appends carries that timestamp. -/
theorem handleMetrics_write_timestamp (env : Env) (st : Store) (r : Request)
    (token inst : List Char) (payload : MetricsPayload) (hne : token ≠ [])
    (hh : r.headerGet = "Bearer ".toList ++ token) (hq : env.db.queryRow token = some inst)
    (hd : env.jsonDecode r.body = some payload) (hm : payload.InstanceID = inst) :
    ∃ ts, (payload.Timestamp.IsZero = false → ts = payload.Timestamp) ∧
      (payload.Timestamp.IsZero = true → ts = env.now) ∧
      (handleMetrics env st r).2 =
        (insertMetrics env.db (st.log (DBCall.queryRow token)) inst ts payload.GPUs).2 ∧
      ((handleMetrics env st r).1.status = 200 ↔
        (insertMetrics env.db (st.log (DBCall.queryRow token)) inst ts payload.GPUs).1 = none) ∧
      ∃ new, (handleMetrics env st r).2.calls = st.calls ++ DBCall.queryRow token :: new ∧
        ∀ row, DBCall.append row ∈ new → row.timestamp = ts := by
  refine ⟨if payload.Timestamp.IsZero then env.now else payload.Timestamp, ?_, ?_, ?_⟩
  · intro hz; simp [hz]
  · intro hz; simp [hz]
  · rw [handleMetrics_bearer env st r token hne hh, hq, hd]
    simp only [hm, ne_eq, not_true_eq_false, if_false]
    obtain ⟨new, hcalls, hts⟩ := insertMetrics_append_timestamp env.db
      (st.log (DBCall.queryRow token)) inst
      (if payload.Timestamp.IsZero then env.now else payload.Timestamp) payload.GPUs
    generalize insertMetrics env.db (st.log (DBCall.queryRow token)) inst
      (if payload.Timestamp.IsZero then env.now else payload.Timestamp) payload.GPUs = res at *
    obtain ⟨e, st2⟩ := res
    simp only at hcalls
    have hc : st2.calls = st.calls ++ DBCall.queryRow token :: new := by
      rw [hcalls]; simp [Store.log]
    cases e with
    | none => exact ⟨rfl, by simp, new, hc, hts⟩
    | some msg => exact ⟨rfl, by simp [httpError], new, hc, hts⟩

/-- C12, instance: a payload stamped `63000000123 s + 5 ns` is written with that timestamp,
and a payload with the zero timestamp is written with the server's clock. -/
theorem handleMetrics_write_timestamp_witness :
    (∃ ts, ts = stampedPayload.Timestamp ∧
      (handleMetrics stampedEnv { calls := [], rows := [] }
        { authorization := some "Bearer key-1".toList, body := "ok".toList }).2.rows =
        twoRecords.map (rowOf "inst-1".toList ts)) ∧
    (∃ ts, ts = okEnv.now ∧
      (handleMetrics okEnv { calls := [], rows := [] }
        { authorization := some "Bearer key-1".toList, body := "ok".toList }).2.rows =
        twoRecords.map (rowOf "inst-1".toList ts)) := by
  obtain ⟨ts1, h1, _, hs1, _⟩ := handleMetrics_write_timestamp stampedEnv
    { calls := [], rows := [] }
    { authorization := some "Bearer key-1".toList, body := "ok".toList }
    "key-1".toList "inst-1".toList stampedPayload (by decide) (by decide) (by decide)
    (by decide) (by decide)
  obtain ⟨ts2, _, h2, hs2, _⟩ := handleMetrics_write_timestamp okEnv
    { calls := [], rows := [] }
    { authorization := some "Bearer key-1".toList, body := "ok".toList }
    "key-1".toList "inst-1".toList okPayload (by decide) (by decide) (by decide)
    (by decide) (by decide)
  have e1 := h1 (by decide)
  have e2 := h2 (by decide)
  subst e1 e2
  exact ⟨⟨_, rfl, by rw [hs1]; decide⟩, ⟨_, rfl, by rw [hs2]; decide⟩⟩

end Server

namespace Collector
open strconv strings

/-- The indexes of the records are the indexes the accepted lines report, in order. -/
theorem filterMap_index (lines : List (List Char)) :
    (lines.filterMap parseLine).map (fun g => g.Index) =
      (lines.filter lineAccepted).map lineIndex := by
  induction lines with
  | nil => rfl
  | cons line rest ih =>
    have hs := parseLine_isSome line
    cases h : parseLine line with
    | none =>
      rw [h] at hs
      have hacc : lineAccepted line = false := by simpa using hs.symm
      simp [List.filterMap_cons, h, List.filter_cons, hacc, ih]
    | some m =>
      rw [h] at hs
      have hacc : lineAccepted line = true := by simpa using hs.symm
      obtain ⟨h4, index, hidx⟩ := parseLine_some line m h
      obtain ⟨r, hr, hri, _⟩ := parseLine_record line index h4 hidx
      rw [h] at hr
      cases hr
      have hli : lineIndex line = m.Index := by
        unfold lineIndex
        rw [hidx, hri]
        rfl
      simp [List.filterMap_cons, h, List.filter_cons, hacc, ih, hli]

/-- C13 (amended): the indexes of the records of a cycle's payload are exactly the indexes
reported by the accepted lines of the tool's output, in line order; so they are
non-negative when every accepted line reports a non-negative index, and pairwise distinct
when no two accepted lines report the same index.  The collector itself checks neither. -/
theorem cyclePayload_indexes (cfg : CollectorConfig) (now : Time) (output : List Char)
    (P : MetricsPayload) (h : cyclePayload cfg now (Except.ok output) = some P) :
    P.GPUs.map (fun g => g.Index) = ((outputLines output).filter lineAccepted).map lineIndex ∧
    ((∀ line ∈ (outputLines output).filter lineAccepted, 0 ≤ lineIndex line) →
      ∀ g ∈ P.GPUs, 0 ≤ g.Index) ∧
    ((((outputLines output).filter lineAccepted).map lineIndex).Nodup →
      (P.GPUs.map (fun g => g.Index)).Nodup) := by
  have hP : P.GPUs = (outputLines output).filterMap parseLine := by
    simp only [cyclePayload, collectGPUMetrics, Option.some.injEq] at h
    rw [← h, assemblePayload, collectLoop_eq]
    rfl
  have hidx := filterMap_index (outputLines output)
  rw [← hP] at hidx
  refine ⟨hidx, ?_, ?_⟩
  · intro hnn g hg
    have hmem : g.Index ∈ P.GPUs.map (fun g => g.Index) := List.mem_map.2 ⟨g, hg, rfl⟩
    rw [hidx] at hmem
    obtain ⟨line, hl, heq⟩ := List.mem_map.1 hmem
    rw [← heq]
    exact hnn line hl
  · intro hnd
    rw [hidx]
    exact hnd

/-- C13, instance: the output `0, ...` / `1, ...` gives a payload whose records have the
distinct non-negative indexes 0 and 1. -/
theorem cyclePayload_indexes_witness :
    ∃ P, cyclePayload exampleConfig { sec := 63000000000, nsec := 0 }
        (Except.ok "0, 45, 2048, 8192, 65, 120.5\n1, 10, 100, 200, N/A, N/A\n".toList) = some P ∧
      P.GPUs.map (fun g => g.Index) = [0, 1] ∧ (∀ g ∈ P.GPUs, 0 ≤ g.Index) ∧
      (P.GPUs.map (fun g => g.Index)).Nodup := by
  have h := cyclePayload_indexes exampleConfig { sec := 63000000000, nsec := 0 }
    "0, 45, 2048, 8192, 65, 120.5\n1, 10, 100, 200, N/A, N/A\n".toList _ rfl
  exact ⟨_, rfl, h.1.trans (by decide), h.2.1 (by decide), h.2.2 (by decide)⟩

/-- C13 as stated fails: from the output `-1, 10, 100, 200` repeated on two lines the cycle
assembles a payload with two records of index -1, negative and repeated. -/
theorem cyclePayload_indexes_counterexample :
    ∃ P, cyclePayload exampleConfig { sec := 63000000000, nsec := 0 }
        (Except.ok "-1, 10, 100, 200\n-1, 10, 100, 200\n".toList) = some P ∧
      P.GPUs.map (fun g => g.Index) = [-1, -1] ∧
      (∃ g ∈ P.GPUs, g.Index < 0) ∧ ¬ (P.GPUs.map (fun g => g.Index)).Nodup := by
  refine ⟨{ InstanceID := "inst-1".toList, Timestamp := { sec := 63000000000, nsec := 0 },
            GPUs := [{ Index := -1, UtilizationPercent := 10, MemoryUsedMB := 100,
                       MemoryTotalMB := 200, TemperatureCelsius := 0, PowerDrawWatts := 0 },
                     { Index := -1, UtilizationPercent := 10, MemoryUsedMB := 100,
                       MemoryTotalMB := 200, TemperatureCelsius := 0, PowerDrawWatts := 0 }] },
    by decide, by decide, ⟨_, List.mem_cons_self _ _, by decide⟩, by decide⟩

end Collector

namespace Collector
open strconv

theorem digitChar_toNat (d : Nat) (h : d < 10) : (digitChar d).toNat = 48 + d := by
  interval_cases d <;> rfl

theorem digitChar_isDigit (d : Nat) (h : d < 10) : isDigit (digitChar d) = true := by
  simp only [isDigit, digitChar_toNat d h, Bool.and_eq_true, decide_eq_true_eq]
  omega

theorem digitsValue_singleton (c : Char) : digitsValue [c] = c.toNat - 48 := by
  simp [digitsValue]

/-- The digit loop writes the decimal digits of `n` in front of `acc`. -/
theorem formatBitsAux_spec (fuel : Nat) : ∀ (n : Nat) (acc : List Char), n < fuel →
    ∃ ds, formatBitsAux fuel n acc = ds ++ acc ∧ ds ≠ [] ∧ ds.all isDigit = true ∧
      digitsValue ds = n := by
  induction fuel with
  | zero => intro n acc h; omega
  | succ fuel ih =>
    intro n acc h
    unfold formatBitsAux
    by_cases h10 : n < 10
    · simp only [h10, if_true]
      refine ⟨[digitChar n], rfl, by simp, by simp [digitChar_isDigit n h10], ?_⟩
      rw [digitsValue_singleton, digitChar_toNat n h10]
      omega
    · simp only [h10, if_false]
      obtain ⟨ds, hds, hne, hall, hval⟩ := ih (n / 10) (digitChar (n % 10) :: acc) (by omega)
      have hm : n % 10 < 10 := Nat.mod_lt _ (by norm_num)
      refine ⟨ds ++ [digitChar (n % 10)], by rw [hds]; simp, by simp, ?_, ?_⟩
      · rw [List.all_append, hall]
        simp [digitChar_isDigit _ hm]
      · rw [digitsValue_append, hval, digitsValue_singleton, digitChar_toNat _ hm]
        simp only [List.length_singleton, pow_one]
        omega

theorem formatBits_spec (n : Nat) :
    formatBits n ≠ [] ∧ (formatBits n).all isDigit = true ∧ digitsValue (formatBits n) = n := by
  obtain ⟨ds, hds, hne, hall, hval⟩ := formatBitsAux_spec (n + 1) n [] (by omega)
  unfold formatBits
  rw [hds, List.append_nil]
  exact ⟨hne, hall, hval⟩

/-- `Atoi` reads back what `Itoa` writes, for every value of a Go `int`. -/
theorem Atoi_Itoa (i : Int) (h : inIntRange i) : Atoi (Itoa i) = some i := by
  obtain ⟨hne, hall, hval⟩ := formatBits_spec i.natAbs
  have hlit : isIntLiteral (Itoa i) = true ∧ literalValue (Itoa i) = i := by
    unfold Itoa
    by_cases hneg : i < 0
    · simp only [hneg, if_true, isIntLiteral, literalValue, hall, Bool.and_true, hval]
      refine ⟨by simpa using hne, by omega⟩
    · simp only [hneg, if_false]
      cases hds : formatBits i.natAbs with
      | nil => exact absurd hds hne
      | cons c cs =>
        have hc : isDigit c = true := by
          rw [hds] at hall
          simp only [List.all_cons, Bool.and_eq_true] at hall
          exact hall.1
        obtain ⟨_, _, hp, hm, _⟩ := digit_ne_marks c hc
        rw [hds] at hall hval
        unfold isIntLiteral literalValue
        constructor
        · split
          · rename_i heq
            exact absurd (List.cons.inj heq).1 hm
          · rename_i heq
            exact absurd (List.cons.inj heq).1 hp
          · simpa using hall
        · split
          · rename_i heq
            exact absurd (List.cons.inj heq).1 hm
          · rename_i heq
            exact absurd (List.cons.inj heq).1 hp
          · rw [hval]; omega
  have := Atoi_literal (Itoa i) hlit.1 (by rw [hlit.2]; exact h)
  rw [this, hlit.2]

end Collector

namespace gotime

theorem yearDay_core (d b d1 c n100 d2 f d3 g n1 : Int)
    (hb : b = d / 146097) (hd1 : d1 = d - 146097 * b) (hc : c = d1 / 36524)
    (hn100 : n100 = c - c / 4) (hd2 : d2 = d1 - 36524 * n100) (hf : f = d2 / 1461)
    (hd3 : d3 = d2 - 1461 * f) (hg : g = d3 / 365) (hn1 : n1 = g - g / 4) :
    0 ≤ d3 - 365 * n1 ∧
    (d3 - 365 * n1 < 365 ∨ (d3 - 365 * n1 = 365 ∧
      (400 * b + 100 * n100 + 4 * f + n1 + 1) % 4 = 0 ∧
      ((400 * b + 100 * n100 + 4 * f + n1 + 1) % 100 ≠ 0 ∨
        (400 * b + 100 * n100 + 4 * f + n1 + 1) % 400 = 0))) := by
  have hb' : 146097 * b ≤ d ∧ d < 146097 * b + 146097 := by omega
  have hc' : 36524 * c ≤ d1 ∧ d1 < 36524 * c + 36524 := by omega
  have hcr : 0 ≤ c ∧ c ≤ 4 := by omega
  have hf' : 1461 * f ≤ d2 ∧ d2 < 1461 * f + 1461 := by omega
  have hg' : 365 * g ≤ d3 ∧ d3 < 365 * g + 365 := by omega
  have hgr : 0 ≤ g ∧ g ≤ 4 := by omega
  obtain ⟨hc0, hc4⟩ := hcr
  obtain ⟨hg0, hg4⟩ := hgr
  clear hb hc hf hg
  interval_cases c <;> interval_cases g <;>
    simp only [Int.reduceDiv, Int.reduceSub] at hn100 hn1 <;>
    subst hn100 hn1 <;> refine ⟨by omega, ?_⟩ <;> omega

/-- The day within the year that `yearDay` returns exists in that year. -/
theorem yearDay_valid (d : Int) :
    0 ≤ (yearDay d).2 ∧
    ((yearDay d).2 < 365 ∨ ((yearDay d).2 = 365 ∧ isLeap (yearDay d).1 = true)) := by
  have h := yearDay_core d _ _ _ _ _ _ _ _ _ rfl rfl rfl rfl rfl rfl rfl rfl rfl
  refine ⟨h.1, ?_⟩
  rcases h.2 with h2 | ⟨h2, h4, h100⟩
  · exact Or.inl h2
  · refine Or.inr ⟨h2, ?_⟩
    simp only [isLeap, yearDay, Bool.and_eq_true, beq_iff_eq, Bool.or_eq_true, bne_iff_ne, ne_eq]
    exact ⟨h4, h100⟩

end gotime

namespace gotime

/-- The month and the day that `monthDay` returns exist in the calendar. -/
theorem monthDay_valid (y yd : Int) (h0 : 0 ≤ yd)
    (h1 : yd < 365 ∨ (yd = 365 ∧ isLeap y = true)) :
    1 ≤ (monthDay y yd).1 ∧ (monthDay y yd).1 ≤ 12 ∧ 1 ≤ (monthDay y yd).2 ∧
    (monthDay y yd).2 ≤ daysIn (monthDay y yd).1 y := by
  unfold monthDay
  by_cases hleap : isLeap y = true
  · by_cases h59 : yd = 31 + 29 - 1
    · simp only [hleap, h59, and_self, if_true]
      simp [daysIn, hleap]
    · simp only [hleap, h59, and_false, if_false, true_and]
      generalize hday : (if yd > 31 + 29 - 1 then yd - 1 else yd) = day
      have hd : 0 ≤ day ∧ day ≤ 364 ∧ (yd ≤ 58 → day = yd) ∧ (yd ≥ 60 → day = yd - 1) := by
        split at hday <;> omega
      generalize hk : day / 31 = k
      have hk' : 31 * k ≤ day ∧ day < 31 * k + 31 := by omega
      have hk0 : 0 ≤ k := by omega
      have hk11 : k ≤ 11 := by omega
      interval_cases k <;>
        simp only [Int.reduceToNat, Int.toNat_ofNat, Int.toNat_zero, Int.toNat_one, daysBefore, daysIn, hleap,
          List.getD_cons_succ, List.getD_cons_zero, Nat.reduceAdd, Nat.reduceSub] <;>
        split <;> simp <;> omega
  · have hleap' : isLeap y = false := by simpa using hleap
    have h365 : yd < 365 := by
      rcases h1 with h | ⟨_, h⟩
      · exact h
      · exact absurd h hleap
    simp only [hleap', Bool.false_eq_true, false_and, if_false]
    generalize hk : yd / 31 = k
    have hk' : 31 * k ≤ yd ∧ yd < 31 * k + 31 := by omega
    have hk0 : 0 ≤ k := by omega
    have hk11 : k ≤ 11 := by omega
    interval_cases k <;>
      simp only [Int.reduceToNat, Int.toNat_ofNat, Int.toNat_zero, Int.toNat_one, daysBefore, daysIn,
        List.getD_cons_succ, List.getD_cons_zero, Nat.reduceAdd, Nat.reduceSub] <;>
      split <;> simp <;> omega

end gotime

namespace gotime
open strconv Collector

theorem appendInt_two (x : Int) (h0 : 0 ≤ x) (h1 : x ≤ 99) :
    appendInt x 2 = [digitChar (x.toNat / 10), digitChar (x.toNat % 10)] := by
  have hu : x.natAbs = x.toNat := by omega
  have hlt : x.toNat < 100 := by omega
  have hneg : ¬ x < 0 := by omega
  simp [appendInt, hu, hlt, hneg]

theorem appendInt_four (x : Int) (h0 : 0 ≤ x) (h1 : x ≤ 9999) :
    appendInt x 4 = [digitChar (x.toNat / 1000), digitChar (x.toNat / 100 % 10),
      digitChar (x.toNat / 10 % 10), digitChar (x.toNat % 10)] := by
  have hu : x.natAbs = x.toNat := by omega
  have hlt : x.toNat < 10000 := by omega
  have hneg : ¬ x < 0 := by omega
  simp [appendInt, hu, hlt, hneg]

theorem parseUint_two (a b : Nat) (ha : a < 10) (hb : b < 10) (lo hi : Int)
    (hlo : lo ≤ (10 * a + b : Nat)) (hhi : ((10 * a + b : Nat) : Int) ≤ hi) :
    parseUint [digitChar a, digitChar b] lo hi = some ((10 * a + b : Nat) : Int) := by
  have h : digitLoop [digitChar a, digitChar b] 0 = some (10 * a + b) := by
    simp only [digitLoop, digitChar_isDigit a ha, digitChar_isDigit b hb, if_true,
      digitChar_toNat a ha, digitChar_toNat b hb]
    congr 1
    omega
  unfold parseUint
  rw [h]
  simp only
  rw [if_neg]
  omega

theorem parseUint_four (a b c d : Nat) (ha : a < 10) (hb : b < 10) (hc : c < 10) (hd : d < 10) :
    parseUint [digitChar a, digitChar b, digitChar c, digitChar d] 0 9999 =
      some ((1000 * a + 100 * b + 10 * c + d : Nat) : Int) := by
  have h : digitLoop [digitChar a, digitChar b, digitChar c, digitChar d] 0 =
      some (1000 * a + 100 * b + 10 * c + d) := by
    simp only [digitLoop, digitChar_isDigit a ha, digitChar_isDigit b hb,
      digitChar_isDigit c hc, digitChar_isDigit d hd, if_true,
      digitChar_toNat a ha, digitChar_toNat b hb, digitChar_toNat c hc, digitChar_toNat d hd]
    congr 1
    omega
  unfold parseUint
  rw [h]
  simp only
  rw [if_neg]
  omega

theorem appendNano_digits (nsec : Nat) :
    appendNano nsec = [] ∨
      ∃ d tl, appendNano nsec = '.' :: d :: tl ∧ isDigit d = true ∧ tl.all isDigit = true := by
  unfold appendNano
  by_cases h0 : nsec = 0
  · exact Or.inl (by simp [h0])
  · simp only [h0, if_false]
    by_cases ht : trimZeros (appendInt nsec 9) = []
    · exact Or.inl (by simp [ht])
    · right
      simp only [ht, if_false]
      have hall : ∀ c ∈ appendInt (nsec : Int) 9, isDigit c = true := by
        have hneg : ¬ ((nsec : Int) < 0) := by omega
        simp only [appendInt, hneg, if_false, Int.natAbs_ofNat, List.nil_append]
        simp only [show ¬ (9 = 2 ∧ nsec < 100) by omega, show ¬ (9 = 4 ∧ nsec < 10000) by omega,
          if_false]
        intro c hc
        rcases List.mem_append.1 hc with hc | hc
        · rw [List.eq_of_mem_replicate hc]
          decide
        · exact List.all_eq_true.1 (formatBits_spec nsec).2.1 c hc
      have htrim : ∀ c ∈ trimZeros (appendInt (nsec : Int) 9), isDigit c = true := by
        intro c hc
        unfold trimZeros at hc
        rw [List.mem_reverse] at hc
        have := (List.dropWhile_sublist _).subset hc
        exact hall c (List.mem_reverse.1 this)
      cases hds : trimZeros (appendInt (nsec : Int) 9) with
      | nil => exact absurd hds ht
      | cons d tl =>
        rw [hds] at htrim
        exact ⟨d, tl, rfl, htrim d (List.mem_cons_self _ _),
          List.all_eq_true.2 (fun c hc => htrim c (List.mem_cons_of_mem _ hc))⟩

theorem dropWhile_digits (tl rest : List Char) (h : tl.all isDigit = true) :
    (tl ++ 'Z' :: rest).dropWhile isDigit = 'Z' :: rest := by
  induction tl with
  | nil => simp [List.dropWhile, show isDigit 'Z' = false by decide]
  | cons c cs ih =>
    simp only [List.all_cons, Bool.and_eq_true] at h
    simp [List.dropWhile, h.1, ih h.2]

theorem parseZone_fraction (nsec : Nat) :
    parseZone (parseFraction (appendNano nsec ++ ['Z'])).2 = some 0 := by
  rcases appendNano_digits nsec with h | ⟨d, tl, h, hd, htl⟩
  · rw [h]
    rfl
  · rw [h]
    simp only [List.cons_append, parseFraction, hd, if_true, dropWhile_digits tl [] htl]
    rfl

end gotime

namespace gotime
open strconv Collector

/-- The calendar and clock fields of every instant are in range. -/
theorem fields_valid (t : Time) :
    1 ≤ month t ∧ month t ≤ 12 ∧ 1 ≤ day t ∧ day t ≤ daysIn (month t) (year t) ∧
    day t ≤ 31 ∧
    0 ≤ (clock t).1 ∧ (clock t).1 ≤ 23 ∧ 0 ≤ (clock t).2.1 ∧ (clock t).2.1 ≤ 59 ∧
    0 ≤ (clock t).2.2 ∧ (clock t).2.2 ≤ 59 := by
  obtain ⟨h0, h1⟩ := yearDay_valid (dayNumber t)
  obtain ⟨m1, m12, d1, dIn⟩ := monthDay_valid (year t) (yearDay (dayNumber t)).2 h0 h1
  have d31 : day t ≤ 31 := by
    have hle : daysIn (month t) (year t) ≤ 31 := by
      have hm1 : 1 ≤ month t := m1
      have hm12 : month t ≤ 12 := m12
      generalize month t = m at hm1 hm12
      unfold daysIn
      split
      · omega
      · interval_cases m <;> simp [daysBefore]
    exact le_trans dIn hle
  refine ⟨m1, m12, d1, dIn, d31, ?_⟩
  simp only [clock]
  omega

/-- A time whose year lies in 0..9999 is marshalled, and the text is read back by
`parseRFC3339`. -/
theorem marshalJSON_parses (t : Time) (hy0 : 0 ≤ year t) (hy1 : year t ≤ 9999) :
    marshalJSON t = some (appendFormatRFC3339 t) ∧
    ∃ t1, parseRFC3339 (appendFormatRFC3339 t) = some t1 := by
  obtain ⟨m1, m12, d1, dIn, d31, c0, c1, c2, c3, c4, c5⟩ := fields_valid t
  have hfmt : appendFormatRFC3339 t =
      digitChar ((year t).toNat / 1000) :: digitChar ((year t).toNat / 100 % 10) ::
      digitChar ((year t).toNat / 10 % 10) :: digitChar ((year t).toNat % 10) :: '-' ::
      digitChar (month t / 10) :: digitChar (month t % 10) :: '-' ::
      digitChar ((day t).toNat / 10) :: digitChar ((day t).toNat % 10) :: 'T' ::
      digitChar ((clock t).1.toNat / 10) :: digitChar ((clock t).1.toNat % 10) :: ':' ::
      digitChar ((clock t).2.1.toNat / 10) :: digitChar ((clock t).2.1.toNat % 10) :: ':' ::
      digitChar ((clock t).2.2.toNat / 10) :: digitChar ((clock t).2.2.toNat % 10) ::
      (appendNano t.nsec ++ ['Z']) := by
    unfold appendFormatRFC3339
    rw [appendInt_four _ hy0 hy1, appendInt_two (month t : Int) (by omega) (by omega),
      appendInt_two _ (by omega : 0 ≤ day t) (by omega), appendInt_two _ c0 (by omega),
      appendInt_two _ c2 (by omega), appendInt_two _ c4 (by omega)]
    simp
  constructor
  · unfold marshalJSON
    rw [hfmt]
    simp
  · rw [hfmt]
    have py := parseUint_four ((year t).toNat / 1000) ((year t).toNat / 100 % 10)
      ((year t).toNat / 10 % 10) ((year t).toNat % 10) (by omega) (by omega) (by omega) (by omega)
    have hyv : ((1000 * ((year t).toNat / 1000) + 100 * ((year t).toNat / 100 % 10) +
        10 * ((year t).toNat / 10 % 10) + (year t).toNat % 10 : Nat) : Int) = year t := by omega
    rw [hyv] at py
    have pm := parseUint_two (month t / 10) (month t % 10) (by omega) (by omega) 1 12
      (by omega) (by omega)
    have hmv : ((10 * (month t / 10) + month t % 10 : Nat) : Int) = (month t : Int) := by omega
    rw [hmv] at pm
    have pd := parseUint_two ((day t).toNat / 10) ((day t).toNat % 10) (by omega) (by omega) 1
      (daysIn (month t) (year t)) (by omega) (by omega)
    have hdv : ((10 * ((day t).toNat / 10) + (day t).toNat % 10 : Nat) : Int) = day t := by omega
    rw [hdv] at pd
    have ph := parseUint_two ((clock t).1.toNat / 10) ((clock t).1.toNat % 10) (by omega)
      (by omega) 0 23 (by omega) (by omega)
    have pmi := parseUint_two ((clock t).2.1.toNat / 10) ((clock t).2.1.toNat % 10) (by omega)
      (by omega) 0 59 (by omega) (by omega)
    have ps := parseUint_two ((clock t).2.2.toNat / 10) ((clock t).2.2.toNat % 10) (by omega)
      (by omega) 0 59 (by omega) (by omega)
    simp only [parseRFC3339, py, pm, Int.toNat_ofNat, pd, ph, pmi, ps, and_self, if_true,
      parseZone_fraction]
    exact ⟨_, rfl⟩

end gotime

namespace json
open strconv Collector

/-- One round of `unquoteLoop` reads back what `appendRune` writes for an ASCII character. -/
theorem unquoteLoop_ascii (n : Nat) (hn : n < 128) (fuel : Nat) (tail : List Char) :
    unquoteLoop (fuel + 1) (appendRune (Char.ofNat n) ++ tail) =
      (unquoteLoop fuel tail).map (Char.ofNat n :: ·) := by
  interval_cases n <;> rfl

/-- One round of `unquoteLoop` reads back what `appendRune` writes for a character. -/
theorem unquoteLoop_appendRune (c : Char) (fuel : Nat) (tail : List Char) :
    unquoteLoop (fuel + 1) (appendRune c ++ tail) = (unquoteLoop fuel tail).map (c :: ·) := by
  by_cases h : c.toNat < 128
  · have := unquoteLoop_ascii c.toNat h fuel tail
    rwa [Char.ofNat_toNat] at this
  · unfold appendRune
    rw [if_neg (by omega)]
    by_cases hs : c.toNat = 0x2028 ∨ c.toNat = 0x2029
    · rw [if_pos hs]
      have hc : c = Char.ofNat c.toNat := (Char.ofNat_toNat c).symm
      rcases hs with hs | hs <;> rw [hs] at hc <;> subst hc <;> rfl
    · rw [if_neg hs]
      have h1 : c ≠ '\\' := by intro hc; rw [hc] at h; exact h (by decide)
      have h2 : c ≠ '"' := by intro hc; rw [hc] at h; exact h (by decide)
      show unquoteLoop (fuel + 1) (c :: tail) = _
      simp only [unquoteLoop, h1, if_false, h2, false_or]
      rw [if_neg (by omega)]

/-- The loop of `unquote` reads back what the loop of `appendString` writes. -/
theorem unquoteLoop_appendRunes (s : List Char) :
    ∀ fuel, (appendRunes s).length ≤ fuel → unquoteLoop fuel (appendRunes s) = some s := by
  induction s with
  | nil => intro fuel _; cases fuel <;> rfl
  | cons c rest ih =>
    intro fuel hf
    have hpos : 1 ≤ (appendRune c).length := by
      unfold appendRune
      split_ifs <;> simp
    simp only [appendRunes, List.length_append] at hf ⊢
    obtain ⟨f, rfl⟩ : ∃ f, fuel = f + 1 := ⟨fuel - 1, by omega⟩
    rw [unquoteLoop_appendRune, ih f (by omega)]
    rfl

/-- The literal text between the quotes and the quotes around it. -/
theorem quoted_body (body : List Char) :
    ¬ (('"' :: (body ++ ['"'])).length < 2 ∨ ('"' :: (body ++ ['"'])).head? ≠ some '"' ∨
      ('"' :: (body ++ ['"'])).getLast? ≠ some '"') ∧
    ('"' :: (body ++ ['"'])).tail.dropLast = body := by
  constructor
  · have h : ('"' :: (body ++ ['"'])).getLast? = some '"' := by
      rw [← List.cons_append]
      exact List.getLast?_concat _
    simp [h]
  · simp

/-- `unquote` reads back the string that `appendString` has written. -/
theorem unquote_appendString (s : List Char) : unquote (appendString s) = some s := by
  unfold unquote appendString
  obtain ⟨h1, h2⟩ := quoted_body (appendRunes s)
  rw [if_neg h1, h2]
  exact unquoteLoop_appendRunes s _ (le_refl _)

end json

namespace gotime
open strconv Collector

/-- Outside the years 0..9999 the fifth character written by `appendInt` is a digit. -/
theorem appendInt_fifth (y : Int) (h : y < 0 ∨ 9999 < y) (rest : List Char) :
    (appendInt y 4 ++ rest).getD 4 ' ' ≠ '-' := by
  have hd : ∀ c, isDigit c = true → c ≠ '-' := fun c hc => (digit_ne_marks c hc).2.2.2.1
  unfold appendInt
  simp only [show ¬ ((4 : Nat) = 2 ∧ y.natAbs < 100) by omega, if_false, true_and]
  by_cases hu : y.natAbs < 10000
  · have hneg : y < 0 := by omega
    simp only [hu, if_true, hneg]
    exact hd _ (digitChar_isDigit _ (Nat.mod_lt _ (by norm_num)))
  · simp only [hu, if_false]
    obtain ⟨_, hall, hval⟩ := formatBits_spec y.natAbs
    have hlt := digitsValue_lt _ hall
    rw [hval] at hlt
    generalize formatBits y.natAbs = ds at hall hlt
    have hlen : 5 ≤ ds.length := by
      by_contra hc
      have : 10 ^ ds.length ≤ 10 ^ 4 := Nat.pow_le_pow_right (by norm_num) (by omega)
      omega
    match ds, hall, hlen with
    | a :: b :: c :: d :: e :: tl, hall, _ =>
      simp only [List.all_cons, Bool.and_eq_true] at hall
      have hz : 4 - (a :: b :: c :: d :: e :: tl).length = 0 := by
        simp only [List.length_cons]; omega
      rw [hz]
      by_cases hneg : y < 0
      · simp only [hneg, if_true]
        show d ≠ '-'
        exact hd _ hall.2.2.2.1
      · simp only [hneg, if_false]
        show e ≠ '-'
        exact hd _ hall.2.2.2.2.1

/-- A time that `Time.MarshalJSON` accepts has its year in 0..9999. -/
theorem marshalJSON_year (t : Time) (ts : List Char) (h : marshalJSON t = some ts) :
    ts = appendFormatRFC3339 t ∧ 0 ≤ year t ∧ year t ≤ 9999 := by
  unfold marshalJSON at h
  split at h
  · exact absurd h (by simp)
  · rename_i h5
    refine ⟨(Option.some.inj h).symm, ?_⟩
    by_contra hy
    apply h5
    unfold appendFormatRFC3339
    exact appendInt_fifth (year t) (by omega) _

end gotime

namespace json
open strconv Collector

/-- An `int` written by the encoder is read back by the decoder. -/
theorem decodeInt_marshalInt (x cur : Int) (h : inIntRange x) :
    decodeInt (marshalInt x) cur = some x := by
  simp only [marshalInt, decodeInt]
  exact Atoi_Itoa x h

/-- Decoding the members written for a record, for key literals that select the six
fields. -/
theorem decodeObject_record (k0 k1 k2 k3 k4 k5 n0 n1 n2 n3 n4 n5 : List Char)
    (u0 : unquote k0 = some n0) (u1 : unquote k1 = some n1) (u2 : unquote k2 = some n2)
    (u3 : unquote k3 = some n3) (u4 : unquote k4 = some n4) (u5 : unquote k5 = some n5)
    (h0 : fieldIndex gpuMetricFields n0 = some 0) (h1 : fieldIndex gpuMetricFields n1 = some 1)
    (h2 : fieldIndex gpuMetricFields n2 = some 2) (h3 : fieldIndex gpuMetricFields n3 = some 3)
    (h4 : fieldIndex gpuMetricFields n4 = some 4) (h5 : fieldIndex gpuMetricFields n5 = some 5)
    (g : GPUMetric) (hg : intFields g) :
    decodeObject gpuMetricFields setGPUMetricField
      ([(k0, marshalInt g.Index), (k1, marshalInt g.UtilizationPercent),
        (k2, marshalInt g.MemoryUsedMB), (k3, marshalInt g.MemoryTotalMB)] ++
       (if g.TemperatureCelsius = 0 then [] else [(k4, marshalInt g.TemperatureCelsius)]) ++
       (if g.PowerDrawWatts = 0 then [] else [(k5, marshalInt g.PowerDrawWatts)]))
      GPUMetric.zero = some g := by
  obtain ⟨r0, r1, r2, r3, r4, r5⟩ := hg
  cases g with
  | mk Index Util MemUsed MemTotal Temp Power =>
    simp only at r0 r1 r2 r3 r4 r5
    by_cases ht : Temp = 0 <;> by_cases hp : Power = 0 <;>
      simp [ht, hp, decodeObject, u0, u1, u2, u3, u4, u5, h0, h1, h2, h3, h4, h5,
        setGPUMetricField, decodeInt_marshalInt, r0, r1, r2, r3, r4, r5, GPUMetric.zero]

/-- A record written by the encoder is read back into a zero record. -/
theorem unmarshal_marshal_GPUMetric (g : GPUMetric) (h : intFields g) :
    unmarshalGPUMetric (marshalGPUMetric g) GPUMetric.zero = some g := by
  unfold marshalGPUMetric unmarshalGPUMetric
  exact decodeObject_record _ _ _ _ _ _ "gpu_index".toList "gpu_utilization_percent".toList
    "gpu_memory_used_mb".toList "gpu_memory_total_mb".toList "temperature_celsius".toList
    "power_draw_watts".toList (by decide) (by decide) (by decide)
    (by decide) (by decide) (by decide) (by decide) (by decide) (by decide) (by decide)
    (by decide) (by decide) g h

/-- Decoding the array written for a sequence of records into an empty slice. -/
theorem unmarshal_marshal_GPUMetrics (gs : List GPUMetric) (h : ∀ g ∈ gs, intFields g) :
    unmarshalGPUMetrics (gs.map marshalGPUMetric) [] = some { elems := gs, spare := [] } := by
  induction gs with
  | nil => rfl
  | cons g rest ih =>
    simp only [List.map_cons, unmarshalGPUMetrics, List.headD_nil, List.tail_nil,
      unmarshal_marshal_GPUMetric g (h g (List.mem_cons_self _ _)),
      ih (fun x hx => h x (List.mem_cons_of_mem _ hx))]

/-- Decoding what the encoder writes for `GPUs` into the nil slice. -/
theorem decodeGPUs_marshal (gs : List GPUMetric) (gpusNil : Bool)
    (h : ∀ g ∈ gs, intFields g) :
    decodeGPUs (if gpusNil = true ∧ gs = [] then Value.null
      else Value.array (gs.map marshalGPUMetric)) { elems := [], spare := [] } =
      some { elems := gs, spare := [] } := by
  split
  · rename_i hnil
    rw [hnil.2]
    rfl
  · cases gs with
    | nil => rfl
    | cons g rest =>
      have := unmarshal_marshal_GPUMetrics (g :: rest) h
      simpa [decodeGPUs] using this

/-- `Time.UnmarshalJSON` on a quoted text that `parseRFC3339` reads. -/
theorem unmarshalJSON_quoted (parse : List Char → Option Time) (ts : List Char) (t1 cur : Time)
    (hts : gotime.parseRFC3339 ts = some t1) :
    gotime.unmarshalJSON parse ('"' :: (ts ++ ['"'])) cur = some t1 := by
  obtain ⟨hq, hb⟩ := quoted_body ts
  unfold gotime.unmarshalJSON
  have hnull : '"' :: (ts ++ ['"']) ≠ "null".toList := by
    intro heq
    have : some '"' = some 'n' := congrArg List.head? heq
    exact absurd this (by decide)
  rw [if_neg hnull, if_neg hq, hb, gotime.parseStrictRFC3339, hts]

/-- Decoding the members written for a payload, for key literals that select the three
fields. -/
theorem decodeObject_payload (parse : List Char → Option Time) (k0 k1 k2 n0 n1 n2 : List Char)
    (u0 : unquote k0 = some n0) (u1 : unquote k1 = some n1) (u2 : unquote k2 = some n2)
    (h0 : fieldIndex payloadFields n0 = some 0) (h1 : fieldIndex payloadFields n1 = some 1)
    (h2 : fieldIndex payloadFields n2 = some 2) (id ts : List Char) (t1 : Time)
    (hts : gotime.parseRFC3339 ts = some t1) (gv : Value) (gs : List GPUMetric)
    (hgs : decodeGPUs gv { elems := [], spare := [] } = some { elems := gs, spare := [] }) :
    decodeObject payloadFields (setPayloadField parse)
      [(k0, Value.string (appendString id)), (k1, Value.string ('"' :: (ts ++ ['"']))), (k2, gv)]
      (zeroPayload, []) =
      some ({ InstanceID := id, Timestamp := t1, GPUs := gs }, []) := by
  simp [decodeObject, u0, u1, u2, h0, h1, h2, setPayloadField, decodeString, decodeTime,
    unquote_appendString, unmarshalJSON_quoted parse ts t1 _ hts, hgs, zeroPayload]

end json

namespace json
open strconv Collector
/-- No member is written for a temperature or a power that is 0. -/
theorem marshalGPUMetric_omitempty (g : GPUMetric) :
    ∃ members, marshalGPUMetric g = Value.object members ∧
      (g.TemperatureCelsius = 0 →
        fieldKey "temperature_celsius".toList ∉ members.map Prod.fst) ∧
      (g.PowerDrawWatts = 0 → fieldKey "power_draw_watts".toList ∉ members.map Prod.fst) := by
  refine ⟨_, rfl, ?_, ?_⟩
  · intro ht
    rw [if_pos ht]
    by_cases hp : g.PowerDrawWatts = 0
    · rw [if_pos hp]
      simp only [List.append_nil, List.map_cons, List.map_nil]
      decide
    · rw [if_neg hp]
      simp only [List.append_nil, List.cons_append, List.nil_append, List.map_cons,
        List.map_nil]
      decide
  · intro hp
    rw [if_pos hp]
    by_cases ht : g.TemperatureCelsius = 0
    · rw [if_pos ht]
      simp only [List.append_nil, List.map_cons, List.map_nil]
      decide
    · rw [if_neg ht]
      simp only [List.append_nil, List.cons_append, List.nil_append, List.map_cons,
        List.map_nil]
      decide

/-- C11: for every payload `P` (any instance id, any timestamp, any sequence of GPU records,
their fields being Go `int` values) and every JSON value `j` that `json.Marshal` gives for
`P`, decoding `j` yields a payload with the same `instance_id` and the same `gpus` sequence,
record by record and in order, whether an empty sequence is written `[]` or `null`; every
payload whose timestamp has a year in 0..9999 has such an encoding; every record is read
back from its JSON object; and that object has no member for a temperature that is 0 and
none for a power that is 0, only the four required members being written when both are. -/
theorem payload_json_round_trip (parse : List Char → Option Time) (P : MetricsPayload)
    (gpusNil : Bool) (hint : ∀ g ∈ P.GPUs, intFields g) :
    (∀ j, marshalPayload P gpusNil = some j →
      ∃ P1, unmarshalPayload parse j = some P1 ∧
        P1.InstanceID = P.InstanceID ∧ P1.GPUs = P.GPUs) ∧
    (0 ≤ gotime.year P.Timestamp ∧ gotime.year P.Timestamp ≤ 9999 →
      ∃ j, marshalPayload P gpusNil = some j) ∧
    (∀ g, intFields g → unmarshalGPUMetric (marshalGPUMetric g) GPUMetric.zero = some g) ∧
    (∀ g, ∃ members, marshalGPUMetric g = Value.object members ∧
      (g.TemperatureCelsius = 0 →
        fieldKey "temperature_celsius".toList ∉ members.map Prod.fst) ∧
      (g.PowerDrawWatts = 0 → fieldKey "power_draw_watts".toList ∉ members.map Prod.fst) ∧
      (g.TemperatureCelsius = 0 → g.PowerDrawWatts = 0 →
        members =
          [(fieldKey "gpu_index".toList, marshalInt g.Index),
           (fieldKey "gpu_utilization_percent".toList, marshalInt g.UtilizationPercent),
           (fieldKey "gpu_memory_used_mb".toList, marshalInt g.MemoryUsedMB),
           (fieldKey "gpu_memory_total_mb".toList, marshalInt g.MemoryTotalMB)])) := by
  refine ⟨?_, ?_, fun g hg => unmarshal_marshal_GPUMetric g hg, ?_⟩
  · intro j hj
    unfold marshalPayload at hj
    cases hm : gotime.marshalJSON P.Timestamp with
    | none => rw [hm] at hj; exact absurd hj (by simp)
    | some ts =>
      rw [hm] at hj
      obtain ⟨hts, hy0, hy1⟩ := gotime.marshalJSON_year _ _ hm
      obtain ⟨_, t1, ht1⟩ := gotime.marshalJSON_parses P.Timestamp hy0 hy1
      rw [← hts] at ht1
      have hj1 := (Option.some.inj hj).symm
      refine ⟨{ InstanceID := P.InstanceID, Timestamp := t1, GPUs := P.GPUs }, ?_, rfl, rfl⟩
      rw [hj1]
      unfold unmarshalPayload
      simp only
      rw [decodeObject_payload parse _ _ _ "instance_id".toList "timestamp".toList
        "gpus".toList (by decide) (by decide) (by decide) (by decide)
        (by decide) (by decide) P.InstanceID ts t1 ht1 _ P.GPUs
        (decodeGPUs_marshal P.GPUs gpusNil hint)]
      rfl
  · intro hy
    obtain ⟨hm, _⟩ := gotime.marshalJSON_parses P.Timestamp hy.1 hy.2
    unfold marshalPayload
    rw [hm]
    exact ⟨_, rfl⟩
  · intro g
    obtain ⟨members, hm, ht, hp⟩ := marshalGPUMetric_omitempty g
    refine ⟨members, hm, ht, hp, ?_⟩
    intro ht0 hp0
    unfold marshalGPUMetric at hm
    rw [if_pos ht0, if_pos hp0] at hm
    exact (Value.object.inj hm).symm

/-- C11, instance: `examplePayload`, whose instance id holds characters that are written
escaped and whose first record has neither temperature nor power, is encoded as
`exampleJSON` and read back with the same instance id and records; so is the payload with
no records, written with `null`. -/
theorem payload_json_round_trip_witness :
    marshalPayload examplePayload false = some exampleJSON ∧
    (∃ P1, unmarshalPayload (fun _ => none) exampleJSON = some P1 ∧
      P1.InstanceID = examplePayload.InstanceID ∧ P1.GPUs = examplePayload.GPUs) ∧
    (∃ P1, unmarshalPayload (fun _ => none) (Value.object
        [("\"instance_id\"".toList, Value.string "\"inst-1\"".toList),
         ("\"timestamp\"".toList, Value.string "\"1997-05-23T16:02:03.000000005Z\"".toList),
         ("\"gpus\"".toList, Value.null)]) = some P1 ∧
      P1.InstanceID = "inst-1".toList ∧ P1.GPUs = []) :=
  ⟨rfl,
   (payload_json_round_trip (fun _ => none) examplePayload false (by decide)).1 exampleJSON rfl,
   (payload_json_round_trip (fun _ => none)
      { InstanceID := "inst-1".toList, Timestamp := { sec := 63000000123, nsec := 5 },
        GPUs := [] } true (by decide)).1 _ rfl⟩

/-- A key that comes twice: the array under the second `gpus` is decoded into the records
that the first has left in the slice, so the record read keeps the temperature 65 of the
record it replaces, and the slice is cut to the one element read. -/
theorem unmarshalPayload_repeated_key :
    unmarshalPayload (fun _ => none) repeatedKeyJSON =
      some { InstanceID := [], Timestamp := { sec := 0, nsec := 0 },
             GPUs := [{ Index := 2, UtilizationPercent := 0, MemoryUsedMB := 0,
                        MemoryTotalMB := 0, TemperatureCelsius := 65, PowerDrawWatts := 0 }] } := by
  decide

end json

end VlGpus
